import Mathlib

/-!
# URL shortener: short-code generator, Base62 encoder and Snowflake IDs

A shallow embedding of `generator/shortcode.go`.

Conventions of the embedding

* A Go `string` / `[]byte` is the list of its bytes (`GoString`), every byte a
  natural number below 256.  `len(s)` is the length of that list.
* A Go `rune` is a natural number; `for _, r := range s` walks the string with the
  UTF-8 decoder of the Go runtime (`DecodeRune`, `runes`).
* `int64` values are integers; the operations that can leave the 64-bit range are
  reduced with `toInt64 ∘ toUint64` (two's complement).
* Randomness, the wall clock and the UUID source are inputs of the functions that
  read them.
* A Go run-time panic is the result `none`.
-/

namespace Generator

/-! ## Go strings -/

/-- A Go string: its sequence of bytes. -/
abbrev GoString := List Nat

/-- The Go string written as the literal `s` (its UTF-8 encoding). -/
def GoString.ofString (s : String) : GoString :=
  (s.data.flatMap String.utf8EncodeChar).map UInt8.toNat

/-- The rune `utf8.RuneError` (U+FFFD). -/
def RuneError : Nat := 0xFFFD

/-- The rune at the front of `s` and its width in bytes, as `utf8.DecodeRuneInString`
computes them: an ASCII byte is itself; a well-formed multi-byte sequence (shortest
form, no surrogate, at most U+10FFFF) is its code point; anything else is
`RuneError` with width 1 (width 0 for the empty string). -/
def DecodeRune : GoString → Nat × Nat
  | [] => (RuneError, 0)
  | s0 :: rest =>
    if s0 < 0x80 then (s0, 1)
    else if s0 < 0xC2 then (RuneError, 1)
    else if s0 < 0xE0 then
      match rest with
      | s1 :: _ =>
        if s1 < 0x80 || 0xBF < s1 then (RuneError, 1)
        else ((s0 &&& 0x1F) <<< 6 ||| (s1 &&& 0x3F), 2)
      | _ => (RuneError, 1)
    else if s0 < 0xF0 then
      match rest with
      | s1 :: s2 :: _ =>
        if s1 < (if s0 = 0xE0 then 0xA0 else 0x80) || (if s0 = 0xED then 0x9F else 0xBF) < s1 then
          (RuneError, 1)
        else if s2 < 0x80 || 0xBF < s2 then (RuneError, 1)
        else ((s0 &&& 0x0F) <<< 12 ||| (s1 &&& 0x3F) <<< 6 ||| (s2 &&& 0x3F), 3)
      | _ => (RuneError, 1)
    else if s0 < 0xF5 then
      match rest with
      | s1 :: s2 :: s3 :: _ =>
        if s1 < (if s0 = 0xF0 then 0x90 else 0x80) || (if s0 = 0xF4 then 0x8F else 0xBF) < s1 then
          (RuneError, 1)
        else if s2 < 0x80 || 0xBF < s2 then (RuneError, 1)
        else if s3 < 0x80 || 0xBF < s3 then (RuneError, 1)
        else ((s0 &&& 0x07) <<< 18 ||| (s1 &&& 0x3F) <<< 12 ||| (s2 &&& 0x3F) <<< 6
              ||| (s3 &&& 0x3F), 4)
      | _ => (RuneError, 1)
    else (RuneError, 1)

/-- The runes of `s` from its current position on, where `skip` bytes of the rune
decoded last are still to be passed over. -/
def runesFrom (skip : Nat) : GoString → List Nat
  | [] => []
  | b :: rest =>
    match skip with
    | k + 1 => runesFrom k rest
    | 0 => (DecodeRune (b :: rest)).1 :: runesFrom ((DecodeRune (b :: rest)).2 - 1) rest

/-- The runes that `for _, r := range s` yields, in order. -/
def runes (s : GoString) : List Nat := runesFrom 0 s

/-- Go's `strings.ContainsRune(s, r)`: whether the rune `r` occurs in `s`
(for `r = RuneError`: whether `s` holds U+FFFD or an ill-formed sequence). -/
def ContainsRune (s : GoString) (r : Nat) : Bool := (runes s).contains r

/-! ## The short-code generator -/

/-- The constant `charset`. -/
def charset : GoString :=
  GoString.ofString "abcdefghjkmnpqrstuvwxyzABCDEFGHJKMNPQRSTUVWXYZ123456789"

/-- The struct `ShortCodeGeneratorImpl` (the mutex guards `counter`). -/
structure ShortCodeGeneratorImpl where
  length : Int
  counter : Nat
  machineID : GoString
  deriving DecidableEq, Repr

/-- `NewShortCodeGenerator(length)`; `machineID` is the value `generateMachineID()`
returned. -/
def NewShortCodeGenerator (length : Int) (machineID : GoString) : ShortCodeGeneratorImpl :=
  { length := length, counter := 0, machineID := machineID }

/-- The `for _, char := range code` loop of `IsValid`, over the runes still to visit. -/
def IsValid.loop : List Nat → Bool
  | [] => true
  | char :: rest => if !ContainsRune charset char then false else IsValid.loop rest

/-- `ShortCodeGeneratorImpl.IsValid`. -/
def ShortCodeGeneratorImpl.IsValid (_g : ShortCodeGeneratorImpl) (code : GoString) : Bool :=
  if code.length < 4 || code.length > 12 then false
  else IsValid.loop (runes code)

/-- The randomness and the readings one call of `GenerateWithLength` consumes:
`uuidPart` is `uuid.New().String()`, `timestamp` is `time.Now().UnixNano()`,
`randomBytes i` is byte `i` that `rand.Read` writes in `combineSeeds`, and `draws i` is
the value `rand.Int(rand.Reader, charsetLen)` returns in iteration `i` of
`generateFromSeed`, a number in `[0, len(charset))`.  The entropy source is taken to
deliver: a read error of `rand.Reader`, which the code ignores, is not part of the model. -/
structure Entropy where
  uuidPart : GoString
  timestamp : Int
  randomBytes : Nat → Fin 256
  draws : Nat → Fin charset.length

/-- The function `combineSeeds`: the 32-byte buffer holding the first 16 bytes of the UUID
text, the 8 bytes of the timestamp and the low 4 bytes of the counter (least significant
first), and the first 4 bytes of the machine tag, every byte then XOR-ed with the random
byte of its position. -/
def combineSeeds (uuidPart : GoString) (timestamp : Int) (counter : Nat)
    (machineID : GoString) (randomBytes : Nat → Fin 256) : GoString :=
  let combined : GoString :=
    (List.range 16).map (fun i => uuidPart.getD i 0)
      ++ (List.range 8).map (fun i => ((timestamp >>> (i * 8)) % 256).toNat)
      ++ (List.range 4).map (fun i => (counter >>> (i * 8)) % 256)
      ++ (List.range 4).map (fun i => machineID.getD i 0)
  (List.range 32).map (fun i => combined.getD i 0 ^^^ (randomBytes i).val)

/-- The function `generateFromSeed`.  `make([]byte, length)` panics for a negative
`length`, and `i % len(seed)` panics for an empty seed. -/
def generateFromSeed (seed : GoString) (length : Int)
    (draws : Nat → Fin charset.length) : Option GoString :=
  if length < 0 then none
  else if hs : 0 < seed.length then
    some ((List.range length.toNat).map fun i =>
      charset.get ⟨((draws i).val + seed.get ⟨i % seed.length, Nat.mod_lt _ hs⟩) % charset.length,
        Nat.mod_lt _ (by decide)⟩)
  else if length = 0 then some []
  else none

/-- `ShortCodeGeneratorImpl.GenerateWithLength`: the code returned (`none` for a panic)
and the generator after the call. -/
def ShortCodeGeneratorImpl.GenerateWithLength (g : ShortCodeGeneratorImpl) (length : Int)
    (e : Entropy) : Option GoString × ShortCodeGeneratorImpl :=
  let g1 : ShortCodeGeneratorImpl := { g with counter := (g.counter + 1) % 2 ^ 64 }
  let currentCounter := g1.counter
  let combined := combineSeeds e.uuidPart e.timestamp currentCounter g1.machineID e.randomBytes
  (generateFromSeed combined length e.draws, g1)

/-- `ShortCodeGeneratorImpl.Generate`. -/
def ShortCodeGeneratorImpl.Generate (g : ShortCodeGeneratorImpl) (e : Entropy) :
    Option GoString × ShortCodeGeneratorImpl :=
  g.GenerateWithLength g.length e

/-! ## Base62 -/

/-- The constant `base62Chars` of `GenerateBase62`. -/
def base62Chars : GoString :=
  GoString.ofString "0123456789ABCDEFGHIJKLMNOPQRSTUVWXYZabcdefghijklmnopqrstuvwxyz"

/-- The byte `base62Chars[d % 62]`. -/
def base62Digit (d : Nat) : Nat :=
  base62Chars.get ⟨d % 62, Nat.lt_of_lt_of_le (Nat.mod_lt _ (by decide)) (by decide)⟩

/-- The loop `for id > 0` of `GenerateBase62`: the next digit is put in front of `result`. -/
def GenerateBase62.loop (id : Nat) (result : GoString) : GoString :=
  if h : id > 0 then GenerateBase62.loop (id / 62) (base62Digit id :: result) else result
termination_by id
decreasing_by exact Nat.div_lt_self h (by decide)

/-- The function `GenerateBase62` (`id` is a `uint64`). -/
def GenerateBase62 (id : Nat) : GoString :=
  if id = 0 then [base62Digit 0] else GenerateBase62.loop id []

/-! ## 64-bit integers -/

/-- The bit pattern of an integer as a `uint64` (Go's `uint64(x)`). -/
def toUint64 (x : Int) : Nat := (x % 2 ^ 64).toNat

/-- The `int64` with the bit pattern `n` (Go's `int64(n)`). -/
def toInt64 (n : Nat) : Int :=
  if n % 2 ^ 64 < 2 ^ 63 then ((n % 2 ^ 64 : Nat) : Int) else ((n % 2 ^ 64 : Nat) : Int) - 2 ^ 64

/-- An integer result reduced to `int64` (two's complement wrap-around). -/
def wrap64 (x : Int) : Int := toInt64 (toUint64 x)

/-- The operator `a & b` on `int64`. -/
def and64 (a b : Int) : Int := toInt64 (toUint64 a &&& toUint64 b)

/-- The operator `a | b` on `int64`. -/
def or64 (a b : Int) : Int := toInt64 (toUint64 a ||| toUint64 b)

/-- The operator `a << k` on `int64`. -/
def shl64 (a : Int) (k : Nat) : Int := toInt64 (toUint64 a <<< k)

/-! ## The Snowflake generator -/

/-- The struct `SnowflakeGenerator` (the mutex guards all of it). -/
structure SnowflakeGenerator where
  epoch : Int
  machineID : Int
  sequence : Int
  lastTime : Int
  deriving DecidableEq, Repr

/-- `NewSnowflakeGenerator(machineID)`; the epoch is 2024-01-01T00:00:00Z in Unix
milliseconds. -/
def NewSnowflakeGenerator (machineID : Int) : SnowflakeGenerator :=
  { epoch := 1704067200000, machineID := and64 machineID 0x3FF, sequence := 0, lastTime := 0 }

/-- The loop `for now <= s.lastTime { now = time.Now().UnixMilli() }`: `clock` lists the
readings the clock gives from here on.  The result is the reading the loop ends with and
the readings left, `none` when the listed readings end before the clock has passed
`lastTime`. -/
def SnowflakeGenerator.waitNext (lastTime now : Int) (clock : List Int) :
    Option (Int × List Int) :=
  if now ≤ lastTime then
    match clock with
    | [] => none
    | t :: rest => SnowflakeGenerator.waitNext lastTime t rest
  else some (now, clock)

/-- The value `((now - s.epoch) << 22) | (s.machineID << 12) | s.sequence`. -/
def SnowflakeGenerator.compose (s : SnowflakeGenerator) (now : Int) : Int :=
  or64 (or64 (shl64 (wrap64 (now - s.epoch)) 22) (shl64 s.machineID 12)) s.sequence

/-- `SnowflakeGenerator.Generate`, with `clock` the readings `time.Now().UnixMilli()` gives
from the call on: the ID returned, the generator after the call, and the readings not
consumed.  The result is `none` when the call has not returned by the end of the listed
readings. -/
def SnowflakeGenerator.Generate (s : SnowflakeGenerator) (clock : List Int) :
    Option (Int × SnowflakeGenerator × List Int) :=
  match clock with
  | [] => none
  | now :: clock =>
    if now = s.lastTime then
      let s1 : SnowflakeGenerator := { s with sequence := and64 (wrap64 (s.sequence + 1)) 0xFFF }
      if s1.sequence = 0 then
        match SnowflakeGenerator.waitNext s1.lastTime now clock with
        | none => none
        | some (now, clock) =>
          let s2 : SnowflakeGenerator := { s1 with lastTime := now }
          some (s2.compose now, s2, clock)
      else
        let s2 : SnowflakeGenerator := { s1 with lastTime := now }
        some (s2.compose now, s2, clock)
    else
      let s1 : SnowflakeGenerator := { s with sequence := 0 }
      let s2 : SnowflakeGenerator := { s1 with lastTime := now }
      some (s2.compose now, s2, clock)

/-- The IDs of `n` successive `Generate` calls on one generator, oldest first, with the
generator and the readings left after the last call. -/
def SnowflakeGenerator.GenerateMany :
    Nat → SnowflakeGenerator → List Int → Option (List Int × SnowflakeGenerator × List Int)
  | 0, s, clock => some ([], s, clock)
  | n + 1, s, clock =>
    match s.Generate clock with
    | none => none
    | some (id, s1, clock1) =>
      match SnowflakeGenerator.GenerateMany n s1 clock1 with
      | none => none
      | some (ids, s2, clock2) => some (id :: ids, s2, clock2)

/-- The ID and the state of the generator after each of `n` successive `Generate` calls on
one generator, oldest first. -/
def SnowflakeGenerator.GenerateLog :
    Nat → SnowflakeGenerator → List Int → Option (List (Int × SnowflakeGenerator))
  | 0, _, _ => some []
  | n + 1, s, clock =>
    match s.Generate clock with
    | none => none
    | some (id, s1, clock1) =>
      match SnowflakeGenerator.GenerateLog n s1 clock1 with
      | none => none
      | some log => some ((id, s1) :: log)

/-- `SnowflakeGenerator.GenerateAsShortCode`: the Base62 text of `uint64(id)` for the `id`
that `Generate` returns. -/
def SnowflakeGenerator.GenerateAsShortCode (s : SnowflakeGenerator) (clock : List Int) :
    Option (GoString × SnowflakeGenerator × List Int) :=
  match s.Generate clock with
  | none => none
  | some (id, s1, rest) => some (GenerateBase62 (toUint64 id), s1, rest)

/-! ## Definitions used to state the properties -/

/-- The alphabet as the specification words it: the digits 1-9, the uppercase letters
except O and I, the lowercase letters except l and o. -/
def specAlphabet (b : Nat) : Prop :=
  ('1'.toNat ≤ b ∧ b ≤ '9'.toNat) ∨
  ('A'.toNat ≤ b ∧ b ≤ 'Z'.toNat ∧ b ≠ 'O'.toNat ∧ b ≠ 'I'.toNat) ∨
  ('a'.toNat ≤ b ∧ b ≤ 'z'.toNat ∧ b ≠ 'l'.toNat ∧ b ≠ 'o'.toNat)

instance : DecidablePred specAlphabet := fun b => by unfold specAlphabet; infer_instance

/-- The alphabet of the constant `charset`, in words: the digits 1-9, the uppercase letters
except I, L and O, the lowercase letters except i, l and o. -/
def codeAlphabet (b : Nat) : Prop :=
  ('1'.toNat ≤ b ∧ b ≤ '9'.toNat) ∨
  ('A'.toNat ≤ b ∧ b ≤ 'Z'.toNat ∧ b ≠ 'I'.toNat ∧ b ≠ 'L'.toNat ∧ b ≠ 'O'.toNat) ∨
  ('a'.toNat ≤ b ∧ b ≤ 'z'.toNat ∧ b ≠ 'i'.toNat ∧ b ≠ 'l'.toNat ∧ b ≠ 'o'.toNat)

instance : DecidablePred codeAlphabet := fun b => by unfold codeAlphabet; infer_instance

/-- A sample of the inputs one generation call reads. -/
def sampleEntropy : Entropy :=
  { uuidPart := GoString.ofString "123e4567-e89b-12d3-a456-426614174000"
    timestamp := 1700000000123456789
    randomBytes := fun i => ⟨(i * 37) % 256, Nat.mod_lt _ (by decide)⟩
    draws := fun i => ⟨(i * 7) % 55, Nat.mod_lt _ (by decide)⟩ }

/-- The generator of the tests, `NewShortCodeGenerator(6)`, with a sample machine tag. -/
def sampleGenerator : ShortCodeGeneratorImpl :=
  NewShortCodeGenerator 6 (GoString.ofString "AbCdEfGh")

/-- The value of the Base62 digit `c`: its position in the alphabet 0-9, A-Z, a-z. -/
def base62Value (c : Nat) : Nat := base62Chars.indexOf c

/-- The number a string denotes when read as a base-62 numeral, most significant digit
first. -/
def base62Decode (s : GoString) : Nat := s.foldl (fun acc c => acc * 62 + base62Value c) 0

/-- The states of the generator `NewSnowflakeGenerator(m)`: the fresh generator and every
state a returning `Generate` call leaves behind, whatever the clock reads. -/
inductive Reachable (m : Int) : SnowflakeGenerator → Prop
  | init : Reachable m (NewSnowflakeGenerator m)
  | step (s : SnowflakeGenerator) (clock : List Int) (id : Int) (s1 : SnowflakeGenerator)
      (rest : List Int) : Reachable m s → s.Generate clock = some (id, s1, rest) →
      Reachable m s1

/-- The ID made of the fields of the state: `(lastTime - epoch) * 2^22 + machineID * 2^12 +
sequence`. -/
def SnowflakeGenerator.lastID (s : SnowflakeGenerator) : Int :=
  (s.lastTime - s.epoch) * 2 ^ 22 + s.machineID * 2 ^ 12 + s.sequence

/-- Three readings of a clock that never goes back, the first two in the same millisecond. -/
def sampleClock : List Int := [1704067200001, 1704067200001, 1704067200002]

/-- The IDs and states of three calls on the generator of machine 1 under `sampleClock`. -/
def sampleLog : List (Int × SnowflakeGenerator) :=
  [(4198400, { epoch := 1704067200000, machineID := 1, sequence := 0, lastTime := 1704067200001 }),
   (4198401, { epoch := 1704067200000, machineID := 1, sequence := 1, lastTime := 1704067200001 }),
   (8392704, { epoch := 1704067200000, machineID := 1, sequence := 0, lastTime := 1704067200002 })]

end Generator

/-! ## The URL service (`services/url_service.go`) -/

namespace Services

open Generator

/-- A Go `error` value: `errors.New(msg)`, or `fmt.Errorf(msg + ": %w", cause)`, which wraps
`cause`. -/
inductive GoError where
  | new (msg : String)
  | wrap (msg : String) (cause : GoError)
  deriving DecidableEq, Repr

/-- `errors.Unwrap(err)`: the error that `err` wraps with `%w`, if it wraps one. -/
def GoError.Unwrap : GoError → Option GoError
  | GoError.new _ => none
  | GoError.wrap _ cause => some cause

/-- The record `models.URL`, with the fields the service sets (`ExpiresAt` in Unix
nanoseconds); the storage layer fills in the others. -/
structure URL where
  ShortCode : GoString
  OriginalURL : GoString
  ClickCount : Int
  ExpiresAt : Option Int
  deriving DecidableEq, Repr

/-- The request `models.CreateURLRequest`. -/
structure CreateURLRequest where
  OriginalURL : GoString
  CustomCode : GoString
  ExpiresIn : Int
  deriving DecidableEq, Repr

/-- The response `models.CreateURLResponse`. -/
structure CreateURLResponse where
  ShortURL : GoString
  ShortCode : GoString
  OriginalURL : GoString
  ExpiresAt : GoString
  deriving DecidableEq, Repr

/-- A call of the service to the URL repository or the cache. -/
inductive RepoCall where
  | FindByOriginalURL (originalURL : GoString)
  | ExistsShortCode (shortCode : GoString)
  | Create (url : URL)
  | CacheSet (shortCode originalURL : GoString)
  deriving DecidableEq, Repr

/-- What the collaborators of the service answer during one request.  `ExistsShortCode n`
answers the call number `n` (from 0) of the request to `urlRepo.ExistsShortCode`, and
`Generate n` is what the call number `n` of `s.generator.Generate()` returns (`none` for a
panic); `Now` is `time.Now()` in Unix nanoseconds and `FormatRFC3339` renders a time. -/
structure Collaborators where
  FindByOriginalURL : GoString → Option URL × Option GoError
  ExistsShortCode : Nat → GoString → Bool × Option GoError
  Create : URL → Option GoError
  CacheSet : GoString → GoString → Option GoError
  Generate : Nat → Option GoString
  Now : Int
  FormatRFC3339 : Int → GoString

/-- The struct `URLServiceImpl`: its generator and the base URL of its configuration. -/
structure URLServiceImpl where
  generator : ShortCodeGeneratorImpl
  BaseURL : GoString

/-- The results of the successive `Generate()` calls on the generator `g`, call `n` reading
`entropy n`: what `Collaborators.Generate` is for the generator of the repository. -/
def generatorCalls (g : ShortCodeGeneratorImpl) (entropy : Nat → Entropy) : Nat → Option GoString
  | 0 => (g.Generate (entropy 0)).1
  | n + 1 => generatorCalls (g.Generate (entropy 0)).2 (fun i => entropy (i + 1)) n

/-- One run of `generateUniqueShortCode`: the pair it returns (`none` when `Generate()`
panicked), the number of `Generate()` calls made, and the codes passed to
`ExistsShortCode`, in order. -/
structure AllocationRun where
  result : Option (GoString × Option GoError)
  generated : Nat
  checked : List GoString
  deriving DecidableEq, Repr

/-- The error `generateUniqueShortCode` returns after its last attempt. -/
def errAllocationExhausted : GoError :=
  GoError.new "failed to generate unique short code after max attempts"

/-- The loop `for i := 0; i < maxAttempts; i++` of `generateUniqueShortCode`, with
`remaining = maxAttempts - i` iterations to go and `checked` the codes checked so far. -/
def generateUniqueShortCode.loop (c : Collaborators) :
    Nat → Nat → List GoString → AllocationRun
  | 0, i, checked => ⟨some ([], some errAllocationExhausted), i, checked⟩
  | remaining + 1, i, checked =>
    match c.Generate i with
    | none => ⟨none, i + 1, checked⟩
    | some shortCode =>
      match c.ExistsShortCode checked.length shortCode with
      | (_, some err) =>
        ⟨some ([], some (GoError.wrap "failed to check short code" err)), i + 1,
          checked ++ [shortCode]⟩
      | (exists_, none) =>
        if !exists_ then ⟨some (shortCode, none), i + 1, checked ++ [shortCode]⟩
        else generateUniqueShortCode.loop c remaining (i + 1) (checked ++ [shortCode])

/-- `URLServiceImpl.generateUniqueShortCode` (`maxAttempts := 10`). -/
def URLServiceImpl.generateUniqueShortCode (_s : URLServiceImpl) (c : Collaborators) :
    AllocationRun :=
  generateUniqueShortCode.loop c 10 0 []

/-- One run of `CreateShortURL`: the pair it returns (`none` for a panic) and its calls to
the repository and the cache, in order. -/
structure CreateRun where
  result : Option (Option CreateURLResponse × Option GoError)
  calls : List RepoCall
  deriving DecidableEq, Repr

/-- The text `fmt.Sprintf("%s/%s", baseURL, shortCode)`. -/
def shortURL (baseURL shortCode : GoString) : GoString :=
  baseURL ++ GoString.ofString "/" ++ shortCode

/-- The part of `CreateShortURL` after the short code is chosen: build the record, store it,
cache it (a cache error is only logged) and answer. -/
def URLServiceImpl.storeAndRespond (s : URLServiceImpl) (c : Collaborators)
    (req : CreateURLRequest) (shortCode : GoString) (calls : List RepoCall) : CreateRun :=
  let url : URL :=
    { ShortCode := shortCode, OriginalURL := req.OriginalURL, ClickCount := 0,
      ExpiresAt :=
        if req.ExpiresIn > 0 then some (c.Now + wrap64 (req.ExpiresIn * 3600000000000))
        else none }
  match c.Create url with
  | some err =>
    ⟨some (none, some (GoError.wrap "failed to create URL" err)), calls ++ [RepoCall.Create url]⟩
  | none =>
    let response : CreateURLResponse :=
      { ShortURL := shortURL s.BaseURL shortCode, ShortCode := shortCode,
        OriginalURL := req.OriginalURL,
        ExpiresAt := match url.ExpiresAt with
          | some t => c.FormatRFC3339 t
          | none => [] }
    ⟨some (some response, none),
      calls ++ [RepoCall.Create url, RepoCall.CacheSet shortCode req.OriginalURL]⟩

/-- `URLServiceImpl.CreateShortURL`. -/
def URLServiceImpl.CreateShortURL (s : URLServiceImpl) (c : Collaborators)
    (req : CreateURLRequest) : CreateRun :=
  let calls : List RepoCall := [RepoCall.FindByOriginalURL req.OriginalURL]
  match c.FindByOriginalURL req.OriginalURL with
  | (some existingURL, none) =>
    ⟨some (some { ShortURL := shortURL s.BaseURL existingURL.ShortCode,
                  ShortCode := existingURL.ShortCode,
                  OriginalURL := existingURL.OriginalURL, ExpiresAt := [] }, none), calls⟩
  | _ =>
    if req.CustomCode ≠ [] then
      if !s.generator.IsValid req.CustomCode then
        ⟨some (none, some (GoError.new "invalid custom code format")), calls⟩
      else
        match c.ExistsShortCode 0 req.CustomCode with
        | (_, some err) =>
          ⟨some (none, some (GoError.wrap "failed to check custom code" err)),
            calls ++ [RepoCall.ExistsShortCode req.CustomCode]⟩
        | (exists_, none) =>
          if exists_ then
            ⟨some (none, some (GoError.new "custom code already exists")),
              calls ++ [RepoCall.ExistsShortCode req.CustomCode]⟩
          else
            s.storeAndRespond c req req.CustomCode
              (calls ++ [RepoCall.ExistsShortCode req.CustomCode])
    else
      let run := s.generateUniqueShortCode c
      let calls := calls ++ run.checked.map RepoCall.ExistsShortCode
      match run.result with
      | none => ⟨none, calls⟩
      | some (_, some err) => ⟨some (none, some err), calls⟩
      | some (shortCode, none) => s.storeAndRespond c req shortCode calls

/-- Sample candidates: `abc0`, `abc1`, ... -/
def sampleCandidate (i : Nat) : GoString := GoString.ofString "abc" ++ [48 + i]

/-- A sample storage check: the first two checks of a request report the code present. -/
def samplePresent (n : Nat) (_code : GoString) : Bool := decide (n < 2)

/-- Sample collaborators: no record is found for the original URL, storage never fails. -/
def sampleCollaborators : Collaborators :=
  { FindByOriginalURL := fun _ => (none, some (GoError.new "record not found"))
    ExistsShortCode := fun n code => (samplePresent n code, none)
    Create := fun _ => none
    CacheSet := fun _ _ => none
    Generate := fun i => some (sampleCandidate i)
    Now := 1704067200000000000
    FormatRFC3339 := fun _ => [] }

/-- Sample collaborators whose storage check fails on its third call: the first two
candidates are reported present, the check of the third returns an error. -/
def failingCollaborators : Collaborators :=
  { FindByOriginalURL := fun _ => (none, some (GoError.new "record not found"))
    ExistsShortCode := fun n code =>
      if n = 2 then (false, some (GoError.new "connection refused"))
      else (samplePresent n code, none)
    Create := fun _ => none
    CacheSet := fun _ _ => none
    Generate := fun i => some (sampleCandidate i)
    Now := 1704067200000000000
    FormatRFC3339 := fun _ => [] }

/-- A sample service. -/
def sampleService : URLServiceImpl :=
  { generator := sampleGenerator, BaseURL := GoString.ofString "http://localhost:8080" }

/-- A sample request with the custom code `ab`, which is too short. -/
def sampleRequest : CreateURLRequest :=
  { OriginalURL := GoString.ofString "https://example.com"
    CustomCode := GoString.ofString "ab"
    ExpiresIn := 0 }

end Services

/-! ## The click-event pipeline (`workers/click_worker.go`) -/

namespace Workers

open Generator Services

/-- The record `models.ClickEvent`. -/
structure ClickEvent where
  ID : Nat
  URLID : Nat
  ShortCode : GoString
  IPAddress : GoString
  UserAgent : GoString
  Referer : GoString
  Country : GoString
  City : GoString
  CreatedAt : Int
  deriving DecidableEq, Repr

/-- A Go channel `make(chan T, cap)`: the values in its buffer, oldest first, its capacity,
and whether it has been closed.  A send goes to a receiver blocked on the channel when
there is one (see `Enqueue`), and through the buffer otherwise. -/
structure Chan (α : Type) where
  buf : List α
  cap : Nat
  closed : Bool
  deriving DecidableEq, Repr

/-- The lines the pipeline writes to the log on its error paths and after a batch (the
start and stop messages are left out). -/
inductive LogLine where
  | queueFull (shortCode : GoString)
  | saveError (err : GoError)
  | incrementError (shortCode : GoString) (err : GoError)
  | processed (workerID : Int) (events successCount errorCount : Nat)
  deriving DecidableEq, Repr

/-- The local state of one `worker` goroutine: its id, its batch, and whether it has
returned (and so called `wg.Done()`). -/
structure WorkerState where
  id : Int
  batch : List ClickEvent
  exited : Bool
  deriving DecidableEq, Repr

/-- The struct `ClickAnalyticsWorker`, a pointer to an event being `none` for `nil`.
`workers` are the goroutines `Start` has spawned (the wait group counts those that have not
returned); `saved` and `increments` are the arguments of all calls so far to
`analyticsRepo.SaveClickEvent` and `urlRepo.IncrementClickCount`, in order of call. -/
structure ClickAnalyticsWorker where
  eventChannel : Chan (Option ClickEvent)
  workerCount : Int
  batchSize : Int
  flushInterval : Int
  quit : Chan Unit
  isRunning : Bool
  workers : List WorkerState
  saved : List ClickEvent
  increments : List GoString
  log : List LogLine
  deriving DecidableEq, Repr

/-- What the storage layer and the Go runtime decide: the result of call number `n` (from 0,
over the life of the pipeline) of `SaveClickEvent` and of `IncrementClickCount` (`none` for
`nil`), and the order in which `range clickCounts` visits the keys of the map, some
permutation of them. -/
structure Storage where
  SaveClickEvent : Nat → ClickEvent → Option GoError
  IncrementClickCount : Nat → GoString → Option GoError
  rangeOrder : (keys : List GoString) → { order : List GoString // order.Perm keys }

/-- `NewClickAnalyticsWorker(urlRepo, analyticsRepo, workerCount, bufferSize)`;
`make(chan, bufferSize)` panics for a negative size. -/
def NewClickAnalyticsWorker (workerCount bufferSize : Int) : Option ClickAnalyticsWorker :=
  if bufferSize < 0 then none
  else some
    { eventChannel := { buf := [], cap := bufferSize.toNat, closed := false }
      workerCount := workerCount
      batchSize := 100
      flushInterval := 5000000000
      quit := { buf := [], cap := 0, closed := false }
      isRunning := false
      workers := []
      saved := []
      increments := []
      log := [] }

/-- `ClickAnalyticsWorker.Start`. -/
def ClickAnalyticsWorker.Start (w : ClickAnalyticsWorker) : ClickAnalyticsWorker :=
  if w.isRunning then w
  else
    { w with
      isRunning := true
      workers := w.workers ++
        (List.range w.workerCount.toNat).map fun i => { id := (i : Int), batch := [], exited := false } }

/-- `ClickAnalyticsWorker.GetQueueSize`. -/
def ClickAnalyticsWorker.GetQueueSize (w : ClickAnalyticsWorker) : Nat :=
  w.eventChannel.buf.length

/-- The statement `clickCounts[shortCode]++` on the map, kept as the list of its entries. -/
def bumpCount : List (GoString × Nat) → GoString → List (GoString × Nat)
  | [], shortCode => [(shortCode, 1)]
  | (k, v) :: rest, shortCode =>
    if k = shortCode then (k, v + 1) :: rest else (k, v) :: bumpCount rest shortCode

/-- The value `clickCounts[shortCode]`. -/
def lookupCount : List (GoString × Nat) → GoString → Nat
  | [], _ => 0
  | (k, v) :: rest, shortCode => if k = shortCode then v else lookupCount rest shortCode

/-- The counters of `processBatch`. -/
structure BatchCounts where
  successCount : Nat
  errorCount : Nat
  clickCounts : List (GoString × Nat)
  deriving DecidableEq, Repr

/-- The loop `for _, event := range batch` of `processBatch`. -/
def processBatch.saveLoop (st : Storage) :
    List ClickEvent → ClickAnalyticsWorker → BatchCounts → ClickAnalyticsWorker × BatchCounts
  | [], w, c => (w, c)
  | event :: rest, w, c =>
    match st.SaveClickEvent w.saved.length event with
    | some err =>
      processBatch.saveLoop st rest
        { w with saved := w.saved ++ [event], log := w.log ++ [LogLine.saveError err] }
        { c with errorCount := c.errorCount + 1 }
    | none =>
      processBatch.saveLoop st rest { w with saved := w.saved ++ [event] }
        { c with successCount := c.successCount + 1
                 clickCounts := bumpCount c.clickCounts event.ShortCode }

/-- The loop `for i := 0; i < count; i++` of `processBatch`, for one short code. -/
def processBatch.incrementLoop (st : Storage) (shortCode : GoString) :
    Nat → ClickAnalyticsWorker → ClickAnalyticsWorker
  | 0, w => w
  | count + 1, w =>
    match st.IncrementClickCount w.increments.length shortCode with
    | some err =>
      processBatch.incrementLoop st shortCode count
        { w with increments := w.increments ++ [shortCode]
                 log := w.log ++ [LogLine.incrementError shortCode err] }
    | none =>
      processBatch.incrementLoop st shortCode count
        { w with increments := w.increments ++ [shortCode] }

/-- The loop `for shortCode, count := range clickCounts` of `processBatch`, over the keys in
the order the runtime visits them. -/
def processBatch.rangeLoop (st : Storage) (clickCounts : List (GoString × Nat)) :
    List GoString → ClickAnalyticsWorker → ClickAnalyticsWorker
  | [], w => w
  | shortCode :: rest, w =>
    processBatch.rangeLoop st clickCounts rest
      (processBatch.incrementLoop st shortCode (lookupCount clickCounts shortCode) w)

/-- `ClickAnalyticsWorker.processBatch`. -/
def ClickAnalyticsWorker.processBatch (st : Storage) (w : ClickAnalyticsWorker)
    (batch : List ClickEvent) (workerID : Int) : ClickAnalyticsWorker :=
  if batch.length = 0 then w
  else
    let (w1, c) := processBatch.saveLoop st batch w { successCount := 0, errorCount := 0, clickCounts := [] }
    let w2 := processBatch.rangeLoop st c.clickCounts
      (st.rangeOrder (c.clickCounts.map Prod.fst)).val w1
    { w2 with
      log := w2.log ++ [LogLine.processed workerID batch.length c.successCount c.errorCount] }

/-- The case a `select` of the worker loop takes. -/
inductive SelectCase where
  | quit
  | event (event : Option ClickEvent)
  | tick
  deriving DecidableEq, Repr

/-- One iteration of the loop of `worker` on its local state, for the case its `select`
takes: the state after it and the batch it hands to `processBatch`, if it does. -/
def worker.iterate (batchSize : Int) (ws : WorkerState) :
    SelectCase → WorkerState × Option (List ClickEvent)
  | SelectCase.quit =>
    ({ ws with exited := true }, if ws.batch.length > 0 then some ws.batch else none)
  | SelectCase.event none => (ws, none)
  | SelectCase.event (some event) =>
    let batch := ws.batch ++ [event]
    if (batch.length : Int) ≥ batchSize then ({ ws with batch := [] }, some batch)
    else ({ ws with batch := batch }, none)
  | SelectCase.tick =>
    if ws.batch.length > 0 then ({ ws with batch := [] }, some ws.batch) else (ws, none)

/-- The worker loop on its local state over the cases its successive `select`s take: the
final state and the batches handed to `processBatch`, in order.  After `quit` the goroutine
has returned and takes no further case. -/
def worker.run (batchSize : Int) : WorkerState → List SelectCase → WorkerState × List (List ClickEvent)
  | ws, [] => (ws, [])
  | ws, c :: rest =>
    if ws.exited then (ws, [])
    else
      let r := worker.iterate batchSize ws c
      let r2 := worker.run batchSize r.1 rest
      (r2.1, r.2.toList ++ r2.2)

/-- A step of the running system: a producer calls `Enqueue` (with `receiver` the worker
the runtime finds blocked in its receive, if it finds one), or worker number `worker` (its
position in `workers`) passes a `select` taking the named case. -/
inductive Step where
  | Enqueue (event : Option ClickEvent) (receiver : Option Nat)
  | receive (worker : Nat)
  | tick (worker : Nat)
  | quit (worker : Nat)
  deriving DecidableEq, Repr

/-- Worker number `i` runs one iteration for the case `c`, with the `processBatch` call
the iteration makes. -/
def ClickAnalyticsWorker.iterateWorker (st : Storage) (w : ClickAnalyticsWorker) (i : Nat)
    (ws : WorkerState) (c : SelectCase) : ClickAnalyticsWorker :=
  let r := worker.iterate w.batchSize ws c
  let w1 := { w with workers := w.workers.set i r.1 }
  match r.2 with
  | some batch => w1.processBatch st batch ws.id
  | none => w1

/-- Worker number `i`, if it can be blocked in the `select` of its loop waiting for an
event: it exists, it has not returned, and no case of its `select` is ready (the queue is
empty and `quit` is not closed). -/
def ClickAnalyticsWorker.waitingWorker (w : ClickAnalyticsWorker) (i : Nat) :
    Option WorkerState :=
  match w.workers[i]? with
  | none => none
  | some ws =>
    if ws.exited || w.quit.closed || !w.eventChannel.buf.isEmpty then none else some ws

/-- `ClickAnalyticsWorker.Enqueue`: the non-blocking send, with `receiver` the worker the
runtime finds blocked in its receive when there is one.  A send on a closed channel panics.
On an open channel the send goes through when a worker is blocked in its receive, which then
takes the event directly (the only way for a channel of capacity 0), or when the buffer has
room; otherwise the `default` branch logs the short code of the event, which panics for a
`nil` event. -/
def ClickAnalyticsWorker.Enqueue (st : Storage) (w : ClickAnalyticsWorker)
    (event : Option ClickEvent) (receiver : Option Nat) : Option ClickAnalyticsWorker :=
  if w.eventChannel.closed then none
  else
    match receiver.bind fun i => (w.waitingWorker i).map fun ws => (i, ws) with
    | some (i, ws) => some (w.iterateWorker st i ws (SelectCase.event event))
    | none =>
      if w.eventChannel.buf.length < w.eventChannel.cap then
        some { w with eventChannel := { w.eventChannel with buf := w.eventChannel.buf ++ [event] } }
      else
        match event with
        | none => none
        | some e => some { w with log := w.log ++ [LogLine.queueFull e.ShortCode] }

/-- One step of the system; `none` when the step cannot be taken in this state (the worker
has returned or does not exist, the case of the `select` is not ready) or panics.  A
receive is ready when the buffer holds a value or the channel is closed (then it yields
`nil`), the quit case when `quit` is closed; the ticker may fire at any time. -/
def ClickAnalyticsWorker.step (st : Storage) (w : ClickAnalyticsWorker) :
    Step → Option ClickAnalyticsWorker
  | Step.Enqueue event receiver => w.Enqueue st event receiver
  | Step.receive i =>
    match w.workers[i]? with
    | none => none
    | some ws =>
      if ws.exited then none
      else
        match w.eventChannel.buf with
        | event :: rest =>
          some (({ w with eventChannel := { w.eventChannel with buf := rest } }).iterateWorker
            st i ws (SelectCase.event event))
        | [] =>
          if w.eventChannel.closed then some (w.iterateWorker st i ws (SelectCase.event none))
          else none
  | Step.tick i =>
    match w.workers[i]? with
    | none => none
    | some ws => if ws.exited then none else some (w.iterateWorker st i ws SelectCase.tick)
  | Step.quit i =>
    match w.workers[i]? with
    | none => none
    | some ws =>
      if ws.exited || !w.quit.closed then none
      else some (w.iterateWorker st i ws SelectCase.quit)

/-- A sequence of steps, one after the other. -/
def ClickAnalyticsWorker.exec (st : Storage) :
    ClickAnalyticsWorker → List Step → Option ClickAnalyticsWorker
  | w, [] => some w
  | w, s :: rest =>
    match w.step st s with
    | none => none
    | some w1 => ClickAnalyticsWorker.exec st w1 rest

/-- `ClickAnalyticsWorker.Stop`, with `schedule` the steps the system takes while `Stop`
is blocked in `wg.Wait()`.  The result is `none` when `Stop` panics (closing a closed
channel), when a step of the schedule cannot be taken, or when a worker has not returned at
the end of the schedule (`wg.Wait()` is still blocked). -/
def ClickAnalyticsWorker.Stop (st : Storage) (w : ClickAnalyticsWorker) (schedule : List Step) :
    Option ClickAnalyticsWorker :=
  if !w.isRunning then some w
  else if w.quit.closed then none
  else
    match ({ w with quit := { w.quit with closed := true } }).exec st schedule with
    | none => none
    | some w1 =>
      if w1.workers.all (fun ws => ws.exited) then
        if w1.eventChannel.closed then none
        else some { w1 with eventChannel := { w1.eventChannel with closed := true }
                            isRunning := false }
      else none

/-- What can happen to a pipeline next: a call of `Start()`, a call of `Stop()` with the
steps the system takes while it waits, or one step of the running system. -/
inductive Op where
  | Start
  | Stop (schedule : List Step)
  | step (s : Step)
  deriving DecidableEq, Repr

/-- The pipeline after `op`; `none` when `op` panics or cannot be taken. -/
def ClickAnalyticsWorker.apply (st : Storage) (w : ClickAnalyticsWorker) :
    Op → Option ClickAnalyticsWorker
  | Op.Start => some w.Start
  | Op.Stop schedule => w.Stop st schedule
  | Op.step s => w.step st s

/-- A sequence of calls and steps, one after the other. -/
def ClickAnalyticsWorker.applyAll (st : Storage) :
    ClickAnalyticsWorker → List Op → Option ClickAnalyticsWorker
  | w, [] => some w
  | w, op :: rest =>
    match w.apply st op with
    | none => none
    | some w1 => ClickAnalyticsWorker.applyAll st w1 rest

/-- The events of `batch` whose `SaveClickEvent` call returns `nil`, the call for the first
event of the batch being call number `base`. -/
def succeeded (st : Storage) : Nat → List ClickEvent → List ClickEvent
  | _, [] => []
  | base, event :: rest =>
    match st.SaveClickEvent base event with
    | some _ => succeeded st (base + 1) rest
    | none => event :: succeeded st (base + 1) rest

/-- The non-nil events a worker receives, in order, when its successive `select`s take the
given cases: those before the first `quit`. -/
def received : List SelectCase → List ClickEvent
  | [] => []
  | SelectCase.quit :: _ => []
  | SelectCase.event (some event) :: rest => event :: received rest
  | SelectCase.event none :: rest => received rest
  | SelectCase.tick :: rest => received rest

/-- A sample click event for the short code `code`. -/
def sampleEvent (code : String) : ClickEvent :=
  { ID := 0, URLID := 0, ShortCode := GoString.ofString code, IPAddress := [], UserAgent := [],
    Referer := [], Country := [], City := [], CreatedAt := 1704067200000 }

/-- A sample storage: every second save fails, every increment succeeds, the map is visited
in reverse order of insertion. -/
def sampleStorage : Storage :=
  { SaveClickEvent := fun n _ => if n % 2 = 1 then some (GoError.new "connection lost") else none
    IncrementClickCount := fun _ _ => none
    rangeOrder := fun keys => ⟨keys.reverse, List.reverse_perm keys⟩ }

/-- A sample pipeline: one worker, a queue of capacity 2 holding one event, started. -/
def samplePipeline : ClickAnalyticsWorker :=
  { eventChannel := { buf := [some (sampleEvent "abc123")], cap := 2, closed := false }
    workerCount := 1
    batchSize := 100
    flushInterval := 5000000000
    quit := { buf := [], cap := 0, closed := false }
    isRunning := true
    workers := [{ id := 0, batch := [], exited := false }]
    saved := []
    increments := []
    log := [] }

/-- The sample pipeline with its queue full: two events in a queue of capacity 2. -/
def fullPipeline : ClickAnalyticsWorker :=
  { samplePipeline with
    eventChannel :=
      { buf := [some (sampleEvent "abc123"), some (sampleEvent "abc123")], cap := 2,
        closed := false } }

/-- A sample pipeline without buffer: one worker, a queue of capacity 0, started. -/
def unbufferedPipeline : ClickAnalyticsWorker :=
  { samplePipeline with eventChannel := { buf := [], cap := 0, closed := false } }

/-- Sample cases for a worker: two events, a `nil`, a third event, a tick, the quit signal. -/
def sampleCases : List SelectCase :=
  [SelectCase.event (some (sampleEvent "abc123")), SelectCase.event (some (sampleEvent "xyz789")),
    SelectCase.event none, SelectCase.event (some (sampleEvent "abc123")), SelectCase.tick,
    SelectCase.quit]

end Workers

namespace Generator

/-! ## Auxiliary facts: bit operations and the UTF-8 decoder -/

theorem le_or_left (a b : Nat) : a ≤ a ||| b :=
  Nat.le_of_testBit fun i h => by simp [Nat.testBit_or, h]

theorem le_or_right (a b : Nat) : b ≤ a ||| b :=
  Nat.le_of_testBit fun i h => by simp [Nat.testBit_or, h]

theorem and_mask_eq_mod (x k : Nat) : x &&& (2 ^ k - 1) = x % 2 ^ k :=
  Nat.and_pow_two_sub_one_eq_mod x k

theorem DecodeRune_ascii (b : Nat) (rest : GoString) (h : b < 0x80) :
    DecodeRune (b :: rest) = (b, 1) := by
  simp [DecodeRune, h]

theorem RuneError_ge : 0x80 ≤ RuneError := by decide

theorem rune2_ge (x y : Nat) (h : 2 ≤ x % 32) :
    0x80 ≤ (x &&& 0x1F) <<< 6 ||| (y &&& 0x3F) := by
  refine le_trans ?_ (le_or_left _ _)
  rw [show (0x1F : Nat) = 2 ^ 5 - 1 from rfl, and_mask_eq_mod, Nat.shiftLeft_eq]
  omega

theorem rune3_ge (x y z : Nat) (h : 1 ≤ x % 16 ∨ 32 ≤ y % 64) :
    0x80 ≤ (x &&& 0x0F) <<< 12 ||| (y &&& 0x3F) <<< 6 ||| (z &&& 0x3F) := by
  refine le_trans ?_ (le_or_left _ _)
  have hA : (x &&& 0x0F) <<< 12 = x % 16 * 4096 := by
    rw [show (0x0F : Nat) = 2 ^ 4 - 1 from rfl, and_mask_eq_mod, Nat.shiftLeft_eq]; norm_num
  have hB : (y &&& 0x3F) <<< 6 = y % 64 * 64 := by
    rw [show (0x3F : Nat) = 2 ^ 6 - 1 from rfl, and_mask_eq_mod, Nat.shiftLeft_eq]; norm_num
  have h1 := le_or_left ((x &&& 0x0F) <<< 12) ((y &&& 0x3F) <<< 6)
  have h2 := le_or_right ((x &&& 0x0F) <<< 12) ((y &&& 0x3F) <<< 6)
  rcases h with h | h <;> omega

theorem rune4_ge (x y z w : Nat) (h : 1 ≤ x % 8 ∨ 16 ≤ y % 64) :
    0x80 ≤ (x &&& 0x07) <<< 18 ||| (y &&& 0x3F) <<< 12 ||| (z &&& 0x3F) <<< 6
      ||| (w &&& 0x3F) := by
  refine le_trans ?_ (le_or_left _ _)
  refine le_trans ?_ (le_or_left _ _)
  have hA : (x &&& 0x07) <<< 18 = x % 8 * 262144 := by
    rw [show (0x07 : Nat) = 2 ^ 3 - 1 from rfl, and_mask_eq_mod, Nat.shiftLeft_eq]; norm_num
  have hB : (y &&& 0x3F) <<< 12 = y % 64 * 4096 := by
    rw [show (0x3F : Nat) = 2 ^ 6 - 1 from rfl, and_mask_eq_mod, Nat.shiftLeft_eq]; norm_num
  have h1 := le_or_left ((x &&& 0x07) <<< 18) ((y &&& 0x3F) <<< 12)
  have h2 := le_or_right ((x &&& 0x07) <<< 18) ((y &&& 0x3F) <<< 12)
  rcases h with h | h <;> omega

theorem DecodeRune_ge (b : Nat) (rest : GoString) (h : 0x80 ≤ b) :
    0x80 ≤ (DecodeRune (b :: rest)).1 := by
  simp only [DecodeRune]
  rw [if_neg (by omega : ¬ b < 0x80)]
  by_cases h2 : b < 0xC2
  · rw [if_pos h2]; exact RuneError_ge
  rw [if_neg h2]
  by_cases h3 : b < 0xE0
  · rw [if_pos h3]
    rcases rest with _ | ⟨s1, tl⟩
    · exact RuneError_ge
    · simp only []
      split_ifs
      · exact RuneError_ge
      · exact rune2_ge _ _ (by omega)
  rw [if_neg h3]
  by_cases h4 : b < 0xF0
  · rw [if_pos h4]
    rcases rest with _ | ⟨s1, _ | ⟨s2, tl⟩⟩
    · exact RuneError_ge
    · exact RuneError_ge
    · simp only []
      split_ifs <;> (try exact RuneError_ge) <;>
        (simp only [Bool.or_eq_true, decide_eq_true_eq, not_or, not_lt] at *
         exact rune3_ge _ _ _ (by omega))
  rw [if_neg h4]
  by_cases h5 : b < 0xF5
  · rw [if_pos h5]
    rcases rest with _ | ⟨s1, _ | ⟨s2, _ | ⟨s3, tl⟩⟩⟩
    · exact RuneError_ge
    · exact RuneError_ge
    · exact RuneError_ge
    · simp only []
      split_ifs <;> (try exact RuneError_ge) <;>
        (simp only [Bool.or_eq_true, decide_eq_true_eq, not_or, not_lt] at *
         exact rune4_ge _ _ _ _ (by omega))
  rw [if_neg h5]; exact RuneError_ge

theorem runes_cons_ascii (b : Nat) (rest : GoString) (h : b < 0x80) :
    runes (b :: rest) = b :: runes rest := by
  simp [runes, runesFrom, DecodeRune_ascii b rest h]

theorem runes_head (b : Nat) (rest : GoString) :
    ∃ tl, runes (b :: rest) = (DecodeRune (b :: rest)).1 :: tl := by
  exact ⟨_, rfl⟩

/-- A string of ASCII bytes is the list of its own runes. -/
theorem runes_of_ascii (s : GoString) (h : ∀ b ∈ s, b < 0x80) : runes s = s := by
  induction s with
  | nil => rfl
  | cons b rest ih =>
    rw [runes_cons_ascii b rest (h b (List.mem_cons_self _ _)),
      ih (fun c hc => h c (List.mem_cons_of_mem _ hc))]

/-- A string all of whose runes are ASCII consists of ASCII bytes. -/
theorem ascii_of_runes (s : GoString) (h : ∀ r ∈ runes s, r < 0x80) : ∀ b ∈ s, b < 0x80 := by
  induction s with
  | nil => intro b hb; cases hb
  | cons b rest ih =>
    have hb : b < 0x80 := by
      by_contra hge
      obtain ⟨tl, htl⟩ := runes_head b rest
      have := h (DecodeRune (b :: rest)).1 (by rw [htl]; exact List.mem_cons_self _ _)
      have := DecodeRune_ge b rest (by omega)
      omega
    rw [runes_cons_ascii b rest hb] at h
    intro c hc
    rcases List.mem_cons.mp hc with rfl | hc
    · exact hb
    · exact ih (fun r hr => h r (List.mem_cons_of_mem _ hr)) c hc

theorem charset_ascii : ∀ b ∈ charset, b < 0x80 := by decide

theorem runes_charset : runes charset = charset := by decide

theorem ContainsRune_charset (r : Nat) : ContainsRune charset r = true ↔ r ∈ charset := by
  simp [ContainsRune, runes_charset]

theorem IsValid_loop_iff (rs : List Nat) : IsValid.loop rs = true ↔ ∀ r ∈ rs, r ∈ charset := by
  induction rs with
  | nil => simp [IsValid.loop]
  | cons r rest ih =>
    by_cases hr : r ∈ charset
    · have : ContainsRune charset r = true := (ContainsRune_charset r).mpr hr
      simp [IsValid.loop, this, ih, hr]
    · have : ContainsRune charset r = false := by
        rw [← Bool.not_eq_true]; exact fun h => hr ((ContainsRune_charset r).mp h)
      simp [IsValid.loop, this, hr]

/-- The runes of a string are in `charset` exactly when its bytes are. -/
theorem runes_in_charset_iff (code : GoString) :
    (∀ r ∈ runes code, r ∈ charset) ↔ ∀ b ∈ code, b ∈ charset := by
  constructor
  · intro h
    have hascii := ascii_of_runes code (fun r hr => charset_ascii r (h r hr))
    rw [runes_of_ascii code hascii] at h
    exact h
  · intro h
    rw [runes_of_ascii code (fun b hb => charset_ascii b (h b hb))]
    exact h

theorem IsValid_iff_bytes (g : ShortCodeGeneratorImpl) (code : GoString) :
    g.IsValid code = true ↔
      4 ≤ code.length ∧ code.length ≤ 12 ∧ ∀ b ∈ code, b ∈ charset := by
  unfold ShortCodeGeneratorImpl.IsValid
  by_cases hlen : code.length < 4 ∨ code.length > 12
  · have : (decide (code.length < 4) || decide (code.length > 12)) = true := by simpa using hlen
    simp only [this, if_true]
    constructor
    · intro h; cases h
    · rintro ⟨h1, h2, _⟩; omega
  · have : (decide (code.length < 4) || decide (code.length > 12)) = false := by
      rw [← Bool.not_eq_true]; simpa using hlen
    simp only [this, Bool.false_eq_true, if_false, IsValid_loop_iff, runes_in_charset_iff]
    constructor
    · intro h; exact ⟨by omega, by omega, h⟩
    · rintro ⟨_, _, h⟩; exact h


/-! ## generateFromSeed -/

theorem combineSeeds_length (uuidPart : GoString) (timestamp : Int) (counter : Nat)
    (machineID : GoString) (randomBytes : Nat → Fin 256) :
    (combineSeeds uuidPart timestamp counter machineID randomBytes).length = 32 := by
  simp [combineSeeds]

theorem generateFromSeed_some (seed : GoString) (n : Int) (draws : Nat → Fin charset.length)
    (hn : 0 ≤ n) (hs : 0 < seed.length) :
    ∃ code, generateFromSeed seed n draws = some code ∧ (code.length : Int) = n ∧
      (∀ b ∈ code, b ∈ charset) ∧
      ∀ i, i < n.toNat →
        code[i]? = charset[((draws i).val + seed.getD (i % seed.length) 0) % charset.length]? := by
  refine ⟨_, by rw [generateFromSeed, if_neg (by omega), dif_pos hs], ?_, ?_, ?_⟩
  · simp [Int.toNat_of_nonneg hn]
  · intro b hb
    simp only [List.mem_map] at hb
    obtain ⟨i, _, rfl⟩ := hb
    exact List.get_mem _ _ _
  · intro i hi
    have hlt : i % seed.length < seed.length := Nat.mod_lt _ hs
    have hc : ((draws i).val + seed.get ⟨i % seed.length, hlt⟩) % charset.length
        < charset.length := Nat.mod_lt _ (by decide)
    rw [List.getElem?_map, List.getElem?_range hi]
    simp only [Option.map_some']
    rw [List.getD_eq_getElem _ _ hlt]
    simp only [List.get_eq_getElem]
    exact (List.getElem?_eq_getElem hc).symm

theorem generated_runes (code : GoString) (h : ∀ b ∈ code, b ∈ charset) : runes code = code :=
  runes_of_ascii code fun b hb => charset_ascii b (h b hb)

/-- Claim C1: for every length `n ≥ 0`, every 32-byte seed and every outcome of the random
draws, `generateFromSeed` returns a string of exactly `n` bytes, each one a character of its
own (the string is the list of its runes) and a member of `charset`; byte `i` is
`charset[(draws i + seed[i % 32]) % len(charset)]`, an index that is always a valid position
of `charset`.  The same holds for `GenerateWithLength(n)` on every generator, whatever the
UUID, the timestamp and the random bytes are. -/
theorem generateFromSeed_length_and_charset (seed : GoString) (n : Int)
    (draws : Nat → Fin charset.length) (g : ShortCodeGeneratorImpl) (e : Entropy)
    (hn : 0 ≤ n) (hseed : seed.length = 32) :
    (∃ code, generateFromSeed seed n draws = some code ∧ (code.length : Int) = n ∧
      runes code = code ∧ (∀ b ∈ code, b ∈ charset) ∧
      ∀ i, i < n.toNat →
        code[i]? = charset[((draws i).val + seed.getD (i % 32) 0) % charset.length]?) ∧
    (∀ i, ((draws i).val + seed.getD (i % 32) 0) % charset.length < charset.length) ∧
    (∃ code, (g.GenerateWithLength n e).1 = some code ∧ (code.length : Int) = n ∧
      runes code = code ∧ ∀ b ∈ code, b ∈ charset) := by
  refine ⟨?_, fun i => Nat.mod_lt _ (by decide), ?_⟩
  · obtain ⟨code, h1, h2, h3, h4⟩ := generateFromSeed_some seed n draws hn (by omega)
    rw [hseed] at h4
    exact ⟨code, h1, h2, generated_runes code h3, h3, h4⟩
  · obtain ⟨code, h1, h2, h3, _⟩ :=
      generateFromSeed_some (combineSeeds e.uuidPart e.timestamp ((g.counter + 1) % 2 ^ 64)
        g.machineID e.randomBytes) n e.draws hn (by rw [combineSeeds_length]; decide)
    exact ⟨code, h1, h2, generated_runes code h3, h3⟩

/-- The statement of C1 at a concrete seed, length 6 and concrete draws. -/
theorem generateFromSeed_length_and_charset_witness :
    (∃ code, generateFromSeed (List.replicate 32 200) 6 sampleEntropy.draws = some code ∧
      (code.length : Int) = 6 ∧ runes code = code ∧ (∀ b ∈ code, b ∈ charset) ∧
      ∀ i, i < (6 : Int).toNat →
        code[i]? = charset[((sampleEntropy.draws i).val +
          (List.replicate 32 200).getD (i % 32) 0) % charset.length]?) ∧
    (∀ i, ((sampleEntropy.draws i).val + (List.replicate 32 200).getD (i % 32) 0)
      % charset.length < charset.length) ∧
    (∃ code, (sampleGenerator.GenerateWithLength 6 sampleEntropy).1 = some code ∧
      (code.length : Int) = 6 ∧ runes code = code ∧ ∀ b ∈ code, b ∈ charset) :=
  generateFromSeed_length_and_charset (List.replicate 32 200) 6 sampleEntropy.draws
    sampleGenerator sampleEntropy (by decide) (by decide)

/-- Claim C2: `IsValid(code)` is true if and only if the length of `code` is between 4 and
12 and every character of `code` occurs in `charset`, whether length and characters are
counted in bytes or in runes; so the empty string, every string shorter than 4 or longer
than 12, and every string with a byte or rune outside `charset` is rejected. -/
theorem IsValid_iff_length_and_charset (g : ShortCodeGeneratorImpl) (code : GoString) :
    (g.IsValid code = true ↔
      4 ≤ code.length ∧ code.length ≤ 12 ∧ ∀ b ∈ code, b ∈ charset) ∧
    (g.IsValid code = true ↔
      4 ≤ code.length ∧ code.length ≤ 12 ∧ ∀ r ∈ runes code, ContainsRune charset r = true) ∧
    (g.IsValid code = true ↔
      4 ≤ (runes code).length ∧ (runes code).length ≤ 12 ∧
        ∀ r ∈ runes code, ContainsRune charset r = true) ∧
    g.IsValid [] = false ∧
    (code.length < 4 → g.IsValid code = false) ∧
    (12 < code.length → g.IsValid code = false) ∧
    ((∃ b ∈ code, b ∉ charset) → g.IsValid code = false) ∧
    ((∃ r ∈ runes code, ContainsRune charset r = false) → g.IsValid code = false) := by
  have hb := IsValid_iff_bytes g code
  have hr : (∀ r ∈ runes code, ContainsRune charset r = true) ↔ ∀ b ∈ code, b ∈ charset := by
    simp only [ContainsRune_charset]; exact runes_in_charset_iff code
  have hfalse : ∀ {p : Prop}, (g.IsValid code = true ↔ p) → ¬ p → g.IsValid code = false :=
    fun h hp => by rw [← Bool.not_eq_true]; exact fun ht => hp (h.mp ht)
  refine ⟨hb, ?_, ?_, rfl, ?_, ?_, ?_, ?_⟩
  · rw [hb, hr]
  · rw [hb, hr]
    constructor
    · rintro ⟨h1, h2, h3⟩
      rw [generated_runes code h3]; exact ⟨h1, h2, h3⟩
    · rintro ⟨h1, h2, h3⟩
      rw [generated_runes code h3] at h1 h2; exact ⟨h1, h2, h3⟩
  · intro h; exact hfalse hb (by omega)
  · intro h; exact hfalse hb (by omega)
  · rintro ⟨b, hbc, hbn⟩; exact hfalse hb (fun h => hbn (h.2.2 b hbc))
  · rintro ⟨r, hrc, hrn⟩
    refine hfalse hb (fun h => ?_)
    have := hr.mpr h.2.2 r hrc
    rw [hrn] at this; cases this

/-- Claim C3: for every generator whose default length is between 4 and 12, and every
outcome of the random sources, `Generate()` returns a code that `IsValid` accepts, on the
generator before the call and on the generator after it. -/
theorem Generate_accepted_by_IsValid (g : ShortCodeGeneratorImpl) (e : Entropy)
    (h4 : 4 ≤ g.length) (h12 : g.length ≤ 12) :
    ∃ code, (g.Generate e).1 = some code ∧ g.IsValid code = true ∧
      (g.Generate e).2.IsValid code = true := by
  obtain ⟨code, h1, h2, h3, _⟩ :=
    generateFromSeed_some (combineSeeds e.uuidPart e.timestamp ((g.counter + 1) % 2 ^ 64)
      g.machineID e.randomBytes) g.length e.draws (by omega) (by rw [combineSeeds_length]; decide)
  have hv : ∀ g' : ShortCodeGeneratorImpl, g'.IsValid code = true := fun g' =>
    (IsValid_iff_bytes g' code).mpr ⟨by omega, by omega, h3⟩
  exact ⟨code, h1, hv _, hv _⟩

/-- The statement of C3 at the generator of the tests, default length 6. -/
theorem Generate_accepted_by_IsValid_witness :
    ∃ code, (sampleGenerator.Generate sampleEntropy).1 = some code ∧
      sampleGenerator.IsValid code = true ∧
      (sampleGenerator.Generate sampleEntropy).2.IsValid code = true :=
  Generate_accepted_by_IsValid sampleGenerator sampleEntropy (by decide) (by decide)

/-- Claim C4 fails as stated: `charset` does not have 53 symbols, and the string `iLiL`, of
length 4 and made only of symbols the claim lists (uppercase except O and I, lowercase except
l and o), is rejected by `IsValid`. -/
theorem charset_alphabet_counterexample :
    charset.length ≠ 53 ∧
    (∀ b ∈ GoString.ofString "iLiL", specAlphabet b) ∧
    (GoString.ofString "iLiL").length = 4 ∧
    sampleGenerator.IsValid (GoString.ofString "iLiL") = false := by
  decide

set_option maxRecDepth 100000 in
theorem mem_charset_iff (b : Nat) : b ∈ charset ↔ codeAlphabet b := by
  by_cases hb : b < 128
  · have : ∀ c < 128, c ∈ charset ↔ codeAlphabet c := by decide
    exact this b hb
  · constructor
    · intro h; exact absurd (charset_ascii b h) hb
    · intro h
      have h9 : '9'.toNat = 57 := rfl
      have hZ : 'Z'.toNat = 90 := rfl
      have hz : 'z'.toNat = 122 := rfl
      unfold codeAlphabet at h
      omega

/-- Claim C4, amended: `charset` consists of exactly 55 distinct symbols, namely the digits
1-9, the uppercase letters except I, L and O, and the lowercase letters except i, l and o;
`IsValid` accepts every string of length 4 to 12 made only of those symbols and no string
containing any other symbol. -/
theorem charset_alphabet (g : ShortCodeGeneratorImpl) (code : GoString) :
    charset.length = 55 ∧ charset.Nodup ∧ (∀ b, b ∈ charset ↔ codeAlphabet b) ∧
    (4 ≤ code.length ∧ code.length ≤ 12 ∧ (∀ b ∈ code, codeAlphabet b) →
      g.IsValid code = true) ∧
    ((∃ b ∈ code, ¬ codeAlphabet b) → g.IsValid code = false) := by
  refine ⟨by decide, by decide, mem_charset_iff, ?_, ?_⟩
  · rintro ⟨h1, h2, h3⟩
    exact (IsValid_iff_bytes g code).mpr ⟨h1, h2, fun b hb => (mem_charset_iff b).mpr (h3 b hb)⟩
  · rintro ⟨b, hb, hn⟩
    rw [← Bool.not_eq_true]
    exact fun h => hn ((mem_charset_iff b).mp (((IsValid_iff_bytes g code).mp h).2.2 b hb))

/-- Claim C5 at the failing input: `GenerateWithLength(-1)` panics on every generator
(`make([]byte, -1)`), and so does `Generate()` on a generator constructed with default
length `-1`. -/
theorem GenerateWithLength_negative_panics (g : ShortCodeGeneratorImpl) (e : Entropy) :
    (g.GenerateWithLength (-1) e).1 = none ∧
    ((NewShortCodeGenerator (-1) g.machineID).Generate e).1 = none := by
  constructor <;> rfl


/-! ## Base62 theorems -/

theorem GenerateBase62_loop_zero (result : GoString) : GenerateBase62.loop 0 result = result := by
  rw [GenerateBase62.loop]; simp

theorem GenerateBase62_loop_pos (id : Nat) (result : GoString) (h : 0 < id) :
    GenerateBase62.loop id result = GenerateBase62.loop (id / 62) (base62Digit id :: result) := by
  rw [GenerateBase62.loop]; simp [h]

theorem base62Digit_mod (d : Nat) : base62Digit (d % 62) = base62Digit d := by
  simp [base62Digit, Nat.mod_mod]

set_option maxRecDepth 100000 in
theorem base62Value_digit_lt : ∀ d < 62, base62Value (base62Digit d) = d := by decide

set_option maxRecDepth 100000 in
theorem base62Digit_alphabet : ∀ d < 62,
    (d < 10 → base62Digit d = '0'.toNat + d) ∧
    (10 ≤ d → d < 36 → base62Digit d = 'A'.toNat + (d - 10)) ∧
    (36 ≤ d → base62Digit d = 'a'.toNat + (d - 36)) := by decide

set_option maxRecDepth 100000 in
theorem base62Digit_ne_zero : ∀ d < 62, d ≠ 0 → base62Digit d ≠ '0'.toNat := by decide

theorem base62Value_digit (d : Nat) : base62Value (base62Digit d) = d % 62 := by
  rw [← base62Digit_mod]; exact base62Value_digit_lt _ (Nat.mod_lt _ (by decide))

theorem base62Digit_mem (d : Nat) : base62Digit d ∈ base62Chars := List.get_mem _ _ _

theorem GenerateBase62_loop_append (id : Nat) :
    ∀ result, GenerateBase62.loop id result = GenerateBase62.loop id [] ++ result := by
  induction id using Nat.strong_induction_on with
  | _ id ih =>
    intro result
    rcases Nat.eq_zero_or_pos id with rfl | hpos
    · simp [GenerateBase62_loop_zero]
    · have hlt : id / 62 < id := Nat.div_lt_self hpos (by decide)
      rw [GenerateBase62_loop_pos id result hpos, GenerateBase62_loop_pos id [] hpos,
        ih _ hlt (base62Digit id :: result), ih _ hlt [base62Digit id]]
      simp

theorem GenerateBase62_loop_step (id : Nat) (h : 0 < id) :
    GenerateBase62.loop id [] = GenerateBase62.loop (id / 62) [] ++ [base62Digit id] := by
  rw [GenerateBase62_loop_pos id [] h, GenerateBase62_loop_append]

theorem base62Decode_snoc (s : GoString) (c : Nat) :
    base62Decode (s ++ [c]) = base62Decode s * 62 + base62Value c := by
  simp [base62Decode, List.foldl_append]

theorem base62Decode_loop (id : Nat) : base62Decode (GenerateBase62.loop id []) = id := by
  induction id using Nat.strong_induction_on with
  | _ id ih =>
    rcases Nat.eq_zero_or_pos id with rfl | hpos
    · rw [GenerateBase62_loop_zero]; rfl
    · rw [GenerateBase62_loop_step id hpos, base62Decode_snoc,
        ih _ (Nat.div_lt_self hpos (by decide)), base62Value_digit]
      omega

theorem GenerateBase62_loop_digits (id : Nat) :
    GenerateBase62.loop id [] = ((Nat.digits 62 id).reverse).map base62Digit := by
  induction id using Nat.strong_induction_on with
  | _ id ih =>
    rcases Nat.eq_zero_or_pos id with rfl | hpos
    · rw [GenerateBase62_loop_zero]; simp
    · rw [GenerateBase62_loop_step id hpos, ih _ (Nat.div_lt_self hpos (by decide)),
        Nat.digits_def' (by decide) hpos]
      simp [base62Digit_mod]

theorem GenerateBase62_loop_head (id : Nat) (h : 0 < id) :
    ∃ c tl, GenerateBase62.loop id [] = c :: tl ∧ c ≠ '0'.toNat ∧ c ∈ base62Chars := by
  induction id using Nat.strong_induction_on with
  | _ id ih =>
    rw [GenerateBase62_loop_step id h]
    rcases Nat.eq_zero_or_pos (id / 62) with hz | hq
    · rw [hz, GenerateBase62_loop_zero]
      refine ⟨base62Digit id, [], rfl, ?_, base62Digit_mem id⟩
      rw [← base62Digit_mod]
      exact base62Digit_ne_zero _ (Nat.mod_lt _ (by decide)) (by omega)
    · obtain ⟨c, tl, hc, hne, hmem⟩ := ih _ (Nat.div_lt_self h (by decide)) hq
      exact ⟨c, tl ++ [base62Digit id], by rw [hc]; rfl, hne, hmem⟩

theorem GenerateBase62_loop_mem (id : Nat) : ∀ c ∈ GenerateBase62.loop id [], c ∈ base62Chars := by
  rw [GenerateBase62_loop_digits]
  intro c hc
  obtain ⟨d, _, rfl⟩ := List.mem_map.mp hc
  exact base62Digit_mem d

theorem base62Decode_GenerateBase62 (id : Nat) : base62Decode (GenerateBase62 id) = id := by
  unfold GenerateBase62
  split_ifs with h
  · subst h; decide
  · exact base62Decode_loop id

/-- Claim C6: `GenerateBase62` returns "0" for 0, "1" for 1, "z" for 61 and "10" for 62. -/
theorem GenerateBase62_small_values :
    GenerateBase62 0 = GoString.ofString "0" ∧ GenerateBase62 1 = GoString.ofString "1" ∧
    GenerateBase62 61 = GoString.ofString "z" ∧ GenerateBase62 62 = GoString.ofString "10" := by
  refine ⟨by decide, ?_, ?_, ?_⟩
  · rw [GenerateBase62, if_neg (by decide), GenerateBase62_loop_pos _ _ (by decide),
      GenerateBase62_loop_zero]
    decide
  · rw [GenerateBase62, if_neg (by decide), GenerateBase62_loop_pos _ _ (by decide),
      GenerateBase62_loop_zero]
    decide
  · rw [GenerateBase62, if_neg (by decide), GenerateBase62_loop_pos _ _ (by decide),
      GenerateBase62_loop_pos _ _ (by decide), GenerateBase62_loop_zero]
    decide

/-- Claim C7 at the failing input: `GenerateBase62(1000)` is "G8" (1000 = 16 * 62 + 8, and
digit 16 of the alphabet 0-9, A-Z, a-z is `G`), not the "g8" that `TestBase62Encoding`
expects. -/
theorem GenerateBase62_1000 :
    GenerateBase62 1000 = GoString.ofString "G8" ∧
    GenerateBase62 1000 ≠ GoString.ofString "g8" := by
  have h : GenerateBase62 1000 = GoString.ofString "G8" := by
    rw [GenerateBase62, if_neg (by decide), GenerateBase62_loop_pos _ _ (by decide),
      GenerateBase62_loop_pos _ _ (by decide), GenerateBase62_loop_zero]
    decide
  exact ⟨h, by rw [h]; decide⟩

/-- Claim C8: for every `id` (every `uint64` is such a number), `GenerateBase62(id)` is the
base-62 numeral of `id`, most significant digit first, over the alphabet 0-9, A-Z, a-z with
digit value = position in the alphabet: read back as a base-62 number it yields `id`, for
`id ≠ 0` it is the reversed list of `Nat.digits 62 id` mapped to the alphabet, it is
non-empty, uses only symbols of the alphabet, has no leading `0` unless `id = 0`, and
different numbers have different encodings. -/
theorem GenerateBase62_numeral (id : Nat) :
    base62Decode (GenerateBase62 id) = id ∧
    (id ≠ 0 → GenerateBase62 id = ((Nat.digits 62 id).reverse).map base62Digit) ∧
    (∀ d < 62, base62Value (base62Digit d) = d ∧
      (d < 10 → base62Digit d = '0'.toNat + d) ∧
      (10 ≤ d → d < 36 → base62Digit d = 'A'.toNat + (d - 10)) ∧
      (36 ≤ d → base62Digit d = 'a'.toNat + (d - 36))) ∧
    GenerateBase62 id ≠ [] ∧
    (∀ c ∈ GenerateBase62 id, c ∈ base62Chars) ∧
    (id = 0 → GenerateBase62 id = ['0'.toNat]) ∧
    (id ≠ 0 → (GenerateBase62 id).head? ≠ some '0'.toNat) ∧
    (∀ id2, GenerateBase62 id = GenerateBase62 id2 → id = id2) := by
  refine ⟨base62Decode_GenerateBase62 id, ?_, ?_, ?_, ?_, ?_, ?_, ?_⟩
  · intro h
    rw [GenerateBase62, if_neg h, GenerateBase62_loop_digits]
  · intro d hd
    exact ⟨base62Value_digit_lt d hd, base62Digit_alphabet d hd⟩
  · unfold GenerateBase62
    split_ifs with h
    · simp
    · obtain ⟨c, tl, hc, _⟩ := GenerateBase62_loop_head id (Nat.pos_of_ne_zero h)
      rw [hc]; simp
  · unfold GenerateBase62
    split_ifs with h
    · intro c hc
      rw [List.mem_singleton] at hc
      rw [hc]; exact base62Digit_mem 0
    · exact GenerateBase62_loop_mem id
  · intro h; subst h; decide
  · intro h
    obtain ⟨c, tl, hc, hne, _⟩ := GenerateBase62_loop_head id (Nat.pos_of_ne_zero h)
    rw [GenerateBase62, if_neg h, hc]
    simpa using hne
  · intro id2 h
    rw [← base62Decode_GenerateBase62 id, h, base62Decode_GenerateBase62]


/-! ## 64-bit arithmetic -/

theorem toUint64_of_nonneg (x : Int) (h0 : 0 ≤ x) (h1 : x < 2 ^ 64) : toUint64 x = x.toNat := by
  unfold toUint64
  rw [Int.emod_eq_of_lt h0 h1]

theorem toInt64_of_lt (n : Nat) (h : n < 2 ^ 63) : toInt64 n = (n : Int) := by
  unfold toInt64
  have h1 : n % 2 ^ 64 = n := Nat.mod_eq_of_lt (by omega)
  rw [h1, if_pos h]

theorem wrap64_of_nonneg (x : Int) (h0 : 0 ≤ x) (h1 : x < 2 ^ 63) : wrap64 x = x := by
  unfold wrap64
  rw [toUint64_of_nonneg x h0 (by omega), toInt64_of_lt _ (by omega)]
  omega

theorem and64_mask (a : Int) (k : Nat) (hk : k ≤ 63) :
    and64 a (2 ^ k - 1) = a % 2 ^ k := by
  unfold and64
  have hpow : (2 : Int) ^ k ≤ 2 ^ 63 := pow_le_pow_right₀ (by norm_num) hk
  have hpos : (0 : Int) < 2 ^ k := by positivity
  have hm : toUint64 (2 ^ k - 1) = 2 ^ k - 1 := by
    rw [toUint64_of_nonneg _ (by omega) (by omega)]
    have : ((2 : Int) ^ k - 1) = ((2 ^ k - 1 : Nat) : Int) := by
      have : 1 ≤ 2 ^ k := Nat.one_le_two_pow
      push_cast [this]; rfl
    rw [this, Int.toNat_natCast]
  rw [hm, Nat.and_pow_two_sub_one_eq_mod]
  have hlt : toUint64 a % 2 ^ k < 2 ^ 63 := by
    have : toUint64 a % 2 ^ k < 2 ^ k := Nat.mod_lt _ (by positivity)
    have : (2 : Nat) ^ k ≤ 2 ^ 63 := Nat.pow_le_pow_right (by norm_num) hk
    omega
  rw [toInt64_of_lt _ hlt]
  unfold toUint64
  have hnn : 0 ≤ a % 2 ^ 64 := Int.emod_nonneg _ (by norm_num)
  rw [Int.natCast_mod, Int.toNat_of_nonneg hnn]
  have hd : ((2 ^ k : Nat) : Int) ∣ 2 ^ 64 := by
    rw [Nat.cast_pow]; exact pow_dvd_pow 2 (by omega)
  rw [Int.emod_emod_of_dvd a hd, Nat.cast_pow]
  rfl

theorem and64_0xFFF (a : Int) : and64 a 0xFFF = a % 4096 := by
  have := and64_mask a 12 (by norm_num)
  norm_num at this
  exact this

theorem and64_0x3FF (a : Int) : and64 a 0x3FF = a % 1024 := by
  have := and64_mask a 10 (by norm_num)
  norm_num at this
  exact this

theorem or_fields (e m q : Nat) (hm : m < 2 ^ 10) (hq : q < 2 ^ 12) :
    e <<< 22 ||| m <<< 12 ||| q = e * 2 ^ 22 + m * 2 ^ 12 + q := by
  rw [Nat.shiftLeft_eq, Nat.shiftLeft_eq]
  have h1 : e * 2 ^ 22 ||| m * 2 ^ 12 = e * 2 ^ 22 + m * 2 ^ 12 := by
    have := Nat.mul_add_lt_is_or (i := 22) (b := m * 2 ^ 12) (by omega) e
    rw [Nat.mul_comm (2 ^ 22) e] at this
    exact this.symm
  rw [h1]
  have h2 := Nat.mul_add_lt_is_or (i := 12) (b := q) hq (e * 2 ^ 10 + m)
  have h3 : 2 ^ 12 * (e * 2 ^ 10 + m) = e * 2 ^ 22 + m * 2 ^ 12 := by ring
  rw [h3] at h2
  exact h2.symm


theorem toUint64_natCast (n : Nat) (h : n < 2 ^ 64) : toUint64 (n : Int) = n := by
  rw [toUint64_of_nonneg _ (Int.natCast_nonneg n) (by exact_mod_cast h), Int.toNat_natCast]

theorem shl64_natCast (n k : Nat) (h : n <<< k < 2 ^ 63) :
    shl64 (n : Int) k = ((n <<< k : Nat) : Int) := by
  have hn : n ≤ n <<< k := by
    rw [Nat.shiftLeft_eq]; exact Nat.le_mul_of_pos_right n (by positivity)
  unfold shl64
  rw [toUint64_natCast n (by omega), toInt64_of_lt _ h]

theorem or64_natCast (a b : Nat) (ha : a < 2 ^ 63) (hb : b < 2 ^ 63) :
    or64 (a : Int) (b : Int) = ((a ||| b : Nat) : Int) := by
  unfold or64
  rw [toUint64_natCast a (by omega), toUint64_natCast b (by omega),
    toInt64_of_lt _ (Nat.or_lt_two_pow ha hb)]

/-- Within the ranges of its three fields the composed ID is the sum of the shifted fields. -/
theorem compose_eq (s : SnowflakeGenerator) (now : Int)
    (he0 : 0 ≤ now - s.epoch) (he1 : now - s.epoch < 2 ^ 41)
    (hm0 : 0 ≤ s.machineID) (hm1 : s.machineID < 1024)
    (hs0 : 0 ≤ s.sequence) (hs1 : s.sequence < 4096) :
    s.compose now = (now - s.epoch) * 2 ^ 22 + s.machineID * 2 ^ 12 + s.sequence := by
  obtain ⟨e, he⟩ := Int.eq_ofNat_of_zero_le he0
  obtain ⟨m, hm⟩ := Int.eq_ofNat_of_zero_le hm0
  obtain ⟨q, hq⟩ := Int.eq_ofNat_of_zero_le hs0
  have he2 : e < 2 ^ 41 := by rw [he] at he1; exact_mod_cast he1
  have hm2 : m < 2 ^ 10 := by rw [hm] at hm1; exact_mod_cast hm1
  have hq2 : q < 2 ^ 12 := by rw [hq] at hs1; exact_mod_cast hs1
  have h1 : e <<< 22 < 2 ^ 63 := by rw [Nat.shiftLeft_eq]; omega
  have h2 : m <<< 12 < 2 ^ 63 := by rw [Nat.shiftLeft_eq]; omega
  have h3 : e <<< 22 ||| m <<< 12 < 2 ^ 63 := Nat.or_lt_two_pow h1 h2
  unfold SnowflakeGenerator.compose
  rw [wrap64_of_nonneg _ he0 (by omega), he, hm, hq, shl64_natCast e 22 h1,
    shl64_natCast m 12 h2, or64_natCast _ _ h1 h2, or64_natCast _ _ h3 (by omega),
    or_fields e m q hm2 hq2]
  push_cast
  rfl


/-! ## The Snowflake generator -/

theorem waitNext_some (lastTime : Int) :
    ∀ (clock : List Int) (now t : Int) (rest : List Int),
      SnowflakeGenerator.waitNext lastTime now clock = some (t, rest) →
        lastTime < t ∧ (t :: rest) <:+ (now :: clock) := by
  intro clock
  induction clock with
  | nil =>
    intro now t rest h
    unfold SnowflakeGenerator.waitNext at h
    by_cases hle : now ≤ lastTime
    · rw [if_pos hle] at h; cases h
    · rw [if_neg hle] at h
      simp only [Option.some.injEq, Prod.mk.injEq] at h
      obtain ⟨rfl, rfl⟩ := h
      exact ⟨by omega, List.suffix_refl _⟩
  | cons u tl ih =>
    intro now t rest h
    unfold SnowflakeGenerator.waitNext at h
    by_cases hle : now ≤ lastTime
    · rw [if_pos hle] at h
      obtain ⟨h1, h2⟩ := ih u t rest h
      exact ⟨h1, h2.trans (List.suffix_cons _ _)⟩
    · rw [if_neg hle] at h
      simp only [Option.some.injEq, Prod.mk.injEq] at h
      obtain ⟨rfl, rfl⟩ := h
      exact ⟨by omega, List.suffix_refl _⟩

theorem waitNext_isSome (lastTime : Int) :
    ∀ (clock : List Int) (now : Int), (∃ t ∈ now :: clock, lastTime < t) →
      ∃ r, SnowflakeGenerator.waitNext lastTime now clock = some r := by
  intro clock
  induction clock with
  | nil =>
    intro now h
    obtain ⟨t, ht, hlt⟩ := h
    rw [List.mem_singleton] at ht
    subst ht
    unfold SnowflakeGenerator.waitNext
    rw [if_neg (by omega)]
    exact ⟨_, rfl⟩
  | cons u tl ih =>
    intro now h
    unfold SnowflakeGenerator.waitNext
    split_ifs with hle
    · obtain ⟨t, ht, hlt⟩ := h
      rcases List.mem_cons.mp ht with rfl | ht
      · omega
      · exact ih u ⟨t, ht, hlt⟩
    · exact ⟨_, rfl⟩

/-- The three ways a `Generate` call returns. -/
theorem Generate_cases (s : SnowflakeGenerator) (clock : List Int) (id : Int)
    (s1 : SnowflakeGenerator) (rest : List Int) (h : s.Generate clock = some (id, s1, rest)) :
    ∃ now tl, clock = now :: tl ∧ id = s1.compose s1.lastTime ∧ s1.epoch = s.epoch ∧
      s1.machineID = s.machineID ∧ (s1.lastTime :: rest) <:+ clock ∧
      ((now ≠ s.lastTime ∧ s1.sequence = 0 ∧ s1.lastTime = now) ∨
       (now = s.lastTime ∧ s1.sequence = and64 (wrap64 (s.sequence + 1)) 0xFFF ∧
          s1.sequence ≠ 0 ∧ s1.lastTime = now) ∨
       (now = s.lastTime ∧ and64 (wrap64 (s.sequence + 1)) 0xFFF = 0 ∧ s1.sequence = 0 ∧
          s.lastTime < s1.lastTime)) := by
  unfold SnowflakeGenerator.Generate at h
  rcases clock with _ | ⟨now, tl⟩
  · cases h
  · simp only at h
    split_ifs at h with hnow hseq
    · -- wrap-around: wait for the clock
      split at h
      · cases h
      · rename_i t rest1 hw
        simp only [Option.some.injEq, Prod.mk.injEq] at h
        obtain ⟨rfl, rfl, rfl⟩ := h
        obtain ⟨hlt, hsuf⟩ := waitNext_some _ _ _ _ _ hw
        exact ⟨now, tl, rfl, rfl, rfl, rfl, hsuf, Or.inr (Or.inr ⟨hnow, hseq, hseq, hlt⟩)⟩
    · simp only [Option.some.injEq, Prod.mk.injEq] at h
      obtain ⟨rfl, rfl, rfl⟩ := h
      exact ⟨now, tl, rfl, rfl, rfl, rfl, List.suffix_refl _,
        Or.inr (Or.inl ⟨hnow, rfl, hseq, rfl⟩)⟩
    · simp only [Option.some.injEq, Prod.mk.injEq] at h
      obtain ⟨rfl, rfl, rfl⟩ := h
      exact ⟨now, tl, rfl, rfl, rfl, rfl, List.suffix_refl _, Or.inl ⟨hnow, rfl, rfl⟩⟩

/-- When a `Generate` call returns: always, except when the sequence wraps around and none of
the listed readings is past the last-seen time. -/
theorem Generate_isSome (s : SnowflakeGenerator) (now : Int) (tl : List Int)
    (h : now ≠ s.lastTime ∨ and64 (wrap64 (s.sequence + 1)) 0xFFF ≠ 0 ∨
      ∃ t ∈ tl, s.lastTime < t) :
    ∃ r, s.Generate (now :: tl) = some r := by
  unfold SnowflakeGenerator.Generate
  simp only
  split_ifs with hnow hseq
  · have hex : ∃ t ∈ now :: tl, s.lastTime < t := by
      rcases h with h | h | ⟨t, ht, hlt⟩
      · exact absurd hnow h
      · exact absurd hseq h
      · exact ⟨t, List.mem_cons_of_mem _ ht, hlt⟩
    obtain ⟨⟨t, r⟩, hr⟩ := waitNext_isSome s.lastTime tl now hex
    simp only [hr]
    exact ⟨_, rfl⟩
  · exact ⟨_, rfl⟩
  · exact ⟨_, rfl⟩


theorem next_sequence (q : Int) (h0 : 0 ≤ q) (h1 : q ≤ 4095) :
    and64 (wrap64 (q + 1)) 0xFFF = (q + 1) % 4096 := by
  rw [wrap64_of_nonneg _ (by omega) (by omega), and64_0xFFF]

theorem Reachable_inv (m : Int) (s : SnowflakeGenerator) (h : Reachable m s) :
    s.epoch = 1704067200000 ∧ s.machineID = and64 m 0x3FF ∧ 0 ≤ s.sequence ∧
      s.sequence ≤ 4095 := by
  induction h with
  | init => exact ⟨rfl, rfl, le_refl _, by show (0 : Int) ≤ 4095; decide⟩
  | step s clock id s1 rest _ hgen ih =>
    obtain ⟨he, hm, hq0, hq1⟩ := ih
    obtain ⟨now, tl, _, _, he1, hm1, _, hcase⟩ := Generate_cases s clock id s1 rest hgen
    refine ⟨he1.trans he, hm1.trans hm, ?_⟩
    rcases hcase with ⟨_, hq, _⟩ | ⟨_, hq, _, _⟩ | ⟨_, _, hq, _⟩
    · omega
    · rw [next_sequence _ hq0 hq1] at hq; omega
    · omega

/-- Claim C9: for every machine identifier `m` given to `NewSnowflakeGenerator`, every state
of that generator and clock readings `now` with `0 ≤ now - epoch < 2^41`: the value `Generate`
returns is a non-negative integer below `2^63` whose low 12 bits are the sequence of the
generator (0..4095), whose next 10 bits are `m` masked to 10 bits (0..1023), and whose
remaining high bits are `lastTime - epoch` for the timestamp stored as last-seen, one of the
readings.  The call returns unless the sequence wraps around and no listed reading is past
the last-seen time. -/
theorem Generate_id_layout (m : Int) (s : SnowflakeGenerator) (clock : List Int)
    (hs : Reachable m s)
    (hclock : ∀ now ∈ clock, 0 ≤ now - s.epoch ∧ now - s.epoch < 2 ^ 41) :
    ((∃ now tl, clock = now :: tl ∧
        (now ≠ s.lastTime ∨ s.sequence ≠ 4095 ∨ ∃ t ∈ tl, s.lastTime < t)) →
      ∃ r, s.Generate clock = some r) ∧
    ∀ id s1 rest, s.Generate clock = some (id, s1, rest) →
      0 ≤ id ∧ id < 2 ^ 63 ∧
      id % 2 ^ 12 = s1.sequence ∧ 0 ≤ s1.sequence ∧ s1.sequence ≤ 4095 ∧
      id / 2 ^ 12 % 2 ^ 10 = s1.machineID ∧ s1.machineID = and64 m 0x3FF ∧
      s1.machineID = m % 1024 ∧ 0 ≤ s1.machineID ∧ s1.machineID ≤ 1023 ∧
      id / 2 ^ 22 = s1.lastTime - s1.epoch ∧ s1.epoch = s.epoch ∧ s1.lastTime ∈ clock ∧
      id = (s1.lastTime - s1.epoch) * 2 ^ 22 + s1.machineID * 2 ^ 12 + s1.sequence := by
  obtain ⟨_, hm, hq0, hq1⟩ := Reachable_inv m s hs
  constructor
  · rintro ⟨now, tl, rfl, h⟩
    refine Generate_isSome s now tl ?_
    rcases h with h | h | h
    · exact Or.inl h
    · refine Or.inr (Or.inl ?_)
      rw [next_sequence _ hq0 hq1]; omega
    · exact Or.inr (Or.inr h)
  · intro id s1 rest hgen
    obtain ⟨_, hm1, hs0, hs1⟩ := Reachable_inv m s1 (Reachable.step s clock id s1 rest hs hgen)
    obtain ⟨now, tl, _, hid, he1, _, hsuf, _⟩ := Generate_cases s clock id s1 rest hgen
    have hmem : s1.lastTime ∈ clock := hsuf.subset (List.mem_cons_self _ _)
    have hwin := hclock _ hmem
    rw [← he1] at hwin
    have hmod : s1.machineID = m % 1024 := by rw [hm1, and64_0x3FF]
    have hm0 : 0 ≤ s1.machineID := by omega
    have hm2 : s1.machineID < 1024 := by omega
    have hval := compose_eq s1 s1.lastTime hwin.1 hwin.2 hm0 hm2 hs0 (by omega)
    rw [← hid] at hval
    norm_num at hval hwin ⊢
    refine ⟨by omega, by omega, by omega, hs0, hs1, by omega, hm1, hmod, hm0, by omega,
      by omega, he1, hmem, hval⟩


/-- One returning `Generate` call under a clock that never goes back: the ID is made of the
fields of the new state, it is larger than the ID made of the fields of the old state, and
the readings left are again at or after the last-seen time. -/
theorem Generate_step_increasing (s : SnowflakeGenerator) (clock : List Int) (id : Int)
    (s1 : SnowflakeGenerator) (rest : List Int)
    (hm : 0 ≤ s.machineID ∧ s.machineID < 1024) (hq : 0 ≤ s.sequence ∧ s.sequence < 4096)
    (hlast : ∀ t ∈ clock, s.lastTime ≤ t) (hmono : clock.Pairwise (· ≤ ·))
    (hwin : ∀ t ∈ clock, 0 ≤ t - s.epoch ∧ t - s.epoch < 2 ^ 41)
    (h : s.Generate clock = some (id, s1, rest)) :
    id = s1.lastID ∧ s.lastID < s1.lastID ∧ s1.epoch = s.epoch ∧
      (0 ≤ s1.machineID ∧ s1.machineID < 1024) ∧ (0 ≤ s1.sequence ∧ s1.sequence < 4096) ∧
      (∀ t ∈ rest, s1.lastTime ≤ t) ∧ rest.Pairwise (· ≤ ·) ∧
      (∀ t ∈ rest, 0 ≤ t - s1.epoch ∧ t - s1.epoch < 2 ^ 41) := by
  obtain ⟨now, tl, hclock, hid, he1, hm1, hsuf, hcase⟩ := Generate_cases s clock id s1 rest h
  have hmem : s1.lastTime ∈ clock := hsuf.subset (List.mem_cons_self _ _)
  have hsub : ∀ t ∈ rest, t ∈ clock := fun t ht => hsuf.subset (List.mem_cons_of_mem _ ht)
  have hpw : (s1.lastTime :: rest).Pairwise (· ≤ ·) := hmono.sublist hsuf.sublist
  rw [List.pairwise_cons] at hpw
  have hnow : now ∈ clock := by rw [hclock]; exact List.mem_cons_self _ _
  have hq1 : 0 ≤ s1.sequence ∧ s1.sequence < 4096 ∧
      (s1.lastTime = s.lastTime → s.sequence < s1.sequence) ∧ s.lastTime ≤ s1.lastTime := by
    rcases hcase with ⟨hne, hq1, hl⟩ | ⟨_, hq1, hne, hl⟩ | ⟨_, _, hq1, hl⟩
    · have := hlast now hnow
      refine ⟨by omega, by omega, fun h => ?_, by omega⟩
      rw [hl] at h; exact absurd h hne
    · rw [next_sequence _ hq.1 (by omega)] at hq1
      refine ⟨by omega, by omega, fun _ => by omega, by omega⟩
    · refine ⟨by omega, by omega, fun h => by omega, by omega⟩
  obtain ⟨hq0, hq2, hseq, hle⟩ := hq1
  have hw := hwin _ hmem
  have hval := compose_eq s1 s1.lastTime (by rw [he1]; exact hw.1) (by rw [he1]; exact hw.2)
    (by omega) (by omega) hq0 hq2
  refine ⟨by rw [hid, hval]; rfl, ?_, he1, by omega, ⟨hq0, hq2⟩, hpw.1, hpw.2, ?_⟩
  · unfold SnowflakeGenerator.lastID
    rw [he1, hm1]
    rcases eq_or_lt_of_le hle with heq | hlt
    · have := hseq heq.symm
      rw [heq]; omega
    · norm_num
      omega
  · intro t ht
    rw [he1]; exact hwin t (hsub t ht)

theorem GenerateMany_increasing (n : Nat) :
    ∀ (s : SnowflakeGenerator) (clock : List Int) (ids : List Int) (s1 : SnowflakeGenerator)
      (rest : List Int),
      (0 ≤ s.machineID ∧ s.machineID < 1024) → (0 ≤ s.sequence ∧ s.sequence < 4096) →
      (∀ t ∈ clock, s.lastTime ≤ t) → clock.Pairwise (· ≤ ·) →
      (∀ t ∈ clock, 0 ≤ t - s.epoch ∧ t - s.epoch < 2 ^ 41) →
      s.GenerateMany n clock = some (ids, s1, rest) →
      ids.length = n ∧ (∀ id ∈ ids, s.lastID < id) ∧ ids.Pairwise (· < ·) := by
  induction n with
  | zero =>
    intro s clock ids s1 rest _ _ _ _ _ h
    simp only [SnowflakeGenerator.GenerateMany, Option.some.injEq, Prod.mk.injEq] at h
    obtain ⟨rfl, _, _⟩ := h
    simp
  | succ n ih =>
    intro s clock ids s2 rest hm hq hlast hmono hwin h
    rw [SnowflakeGenerator.GenerateMany] at h
    split at h
    · cases h
    · rename_i id s1 clock1 hgen
      split at h
      · cases h
      · rename_i ids1 s3 clock2 hmany
        simp only [Option.some.injEq, Prod.mk.injEq] at h
        obtain ⟨rfl, rfl, rfl⟩ := h
        obtain ⟨hid, hlt, _, hm1, hq1, hlast1, hmono1, hwin1⟩ :=
          Generate_step_increasing s clock id s1 clock1 hm hq hlast hmono hwin hgen
        obtain ⟨hlen, hgt, hpw⟩ := ih s1 clock1 ids1 s3 clock2 hm1 hq1 hlast1 hmono1 hwin1 hmany
        refine ⟨by simp [hlen], ?_, ?_⟩
        · intro x hx
          rcases List.mem_cons.mp hx with rfl | hx
          · rw [hid]; exact hlt
          · exact lt_trans hlt (hgt x hx)
        · rw [List.pairwise_cons]
          exact ⟨fun x hx => by rw [hid]; exact hgt x hx, hpw⟩

/-- A `Generate` call whose sequence cannot wrap around (it is below 4095) returns at once,
consuming one reading, and raises the sequence by one at most. -/
theorem Generate_returns_below_wrap (s : SnowflakeGenerator) (now : Int) (tl : List Int)
    (h0 : 0 ≤ s.sequence) (h1 : s.sequence < 4095) :
    ∃ id s1, s.Generate (now :: tl) = some (id, s1, tl) ∧ 0 ≤ s1.sequence ∧
      s1.sequence ≤ s.sequence + 1 := by
  have hseq : and64 (wrap64 (s.sequence + 1)) 0xFFF = s.sequence + 1 := by
    rw [next_sequence _ h0 (by omega)]; omega
  unfold SnowflakeGenerator.Generate
  simp only
  by_cases hnow : now = s.lastTime
  · rw [if_pos hnow, if_neg (by rw [hseq]; omega)]
    exact ⟨_, _, rfl, by simp only [hseq]; omega, by simp only [hseq]; omega⟩
  · rw [if_neg hnow]
    exact ⟨_, _, rfl, le_refl _, by show (0 : Int) ≤ s.sequence + 1; omega⟩

theorem GenerateMany_returns (n : Nat) :
    ∀ (s : SnowflakeGenerator) (clock : List Int), 0 ≤ s.sequence →
      s.sequence + n ≤ 4095 → n ≤ clock.length → ∃ r, s.GenerateMany n clock = some r := by
  induction n with
  | zero => intro s clock _ _ _; exact ⟨_, rfl⟩
  | succ n ih =>
    intro s clock h0 h1 hlen
    rcases clock with _ | ⟨now, tl⟩
    · simp at hlen
    · obtain ⟨id, s1, hgen, hs0, hs1⟩ :=
        Generate_returns_below_wrap s now tl h0 (by push_cast at h1; omega)
      obtain ⟨⟨ids, s2, rest⟩, hr⟩ := ih s1 tl hs0 (by push_cast at h1; omega)
        (by simpa using hlen)
      rw [SnowflakeGenerator.GenerateMany, hgen]
      simp only [hr]
      exact ⟨_, rfl⟩

/-- Claim C10: on one generator `NewSnowflakeGenerator(m)`, under clock readings that never
decrease and lie in `[epoch, epoch + 2^41)`, the IDs that `n` successive `Generate` calls
return are strictly increasing, hence pairwise distinct.  Up to 4096 calls all return
whenever the clock has a reading for each of them (so do the 1000 calls of
`TestSnowflakeGenerator`). -/
theorem GenerateMany_strictly_increasing (m : Int) (n : Nat) (clock : List Int)
    (hmono : clock.Pairwise (· ≤ ·))
    (hwin : ∀ t ∈ clock, 0 ≤ t - (NewSnowflakeGenerator m).epoch ∧
      t - (NewSnowflakeGenerator m).epoch < 2 ^ 41) :
    (n ≤ 4096 → n ≤ clock.length →
      ∃ r, (NewSnowflakeGenerator m).GenerateMany n clock = some r) ∧
    ∀ ids s1 rest, (NewSnowflakeGenerator m).GenerateMany n clock = some (ids, s1, rest) →
      ids.length = n ∧ ids.Pairwise (· < ·) ∧ ids.Nodup := by
  have he : (NewSnowflakeGenerator m).epoch = 1704067200000 := rfl
  have hl : (NewSnowflakeGenerator m).lastTime = 0 := rfl
  constructor
  · intro hn hlen
    rcases n with _ | n
    · exact ⟨_, rfl⟩
    · rcases clock with _ | ⟨now, tl⟩
      · simp at hlen
      · have hne : now ≠ (NewSnowflakeGenerator m).lastTime := by
          have := (hwin now (List.mem_cons_self _ _)).1
          omega
        obtain ⟨⟨ids, s2, rest⟩, hr⟩ := GenerateMany_returns n
          { NewSnowflakeGenerator m with sequence := 0, lastTime := now } tl (le_refl _)
          (by show (0 : Int) + (n : Int) ≤ 4095; omega) (by simpa using hlen)
        rw [SnowflakeGenerator.GenerateMany, SnowflakeGenerator.Generate]
        simp only [if_neg hne, hr]
        exact ⟨_, rfl⟩
  · intro ids s1 rest hrun
    have hmid : (NewSnowflakeGenerator m).machineID = m % 1024 := and64_0x3FF m
    have hlast : ∀ t ∈ clock, (NewSnowflakeGenerator m).lastTime ≤ t := by
      intro t ht
      have := (hwin t ht).1
      omega
    obtain ⟨hlen, _, hpw⟩ := GenerateMany_increasing n (NewSnowflakeGenerator m) clock ids s1
      rest (by omega) ⟨le_refl _, by show (0 : Int) < 4096; decide⟩ hlast hmono hwin hrun
    exact ⟨hlen, hpw, hpw.imp (fun h => ne_of_lt h)⟩

/-- The statement of C9 for the fresh generator of machine 1 and one reading, 1 ms past
the epoch. -/
theorem Generate_id_layout_witness :
    ((∃ now tl, [(1704067200001 : Int)] = now :: tl ∧
        (now ≠ (NewSnowflakeGenerator 1).lastTime ∨ (NewSnowflakeGenerator 1).sequence ≠ 4095 ∨
          ∃ t ∈ tl, (NewSnowflakeGenerator 1).lastTime < t)) →
      ∃ r, (NewSnowflakeGenerator 1).Generate [1704067200001] = some r) ∧
    ∀ id s1 rest, (NewSnowflakeGenerator 1).Generate [1704067200001] = some (id, s1, rest) →
      0 ≤ id ∧ id < 2 ^ 63 ∧
      id % 2 ^ 12 = s1.sequence ∧ 0 ≤ s1.sequence ∧ s1.sequence ≤ 4095 ∧
      id / 2 ^ 12 % 2 ^ 10 = s1.machineID ∧ s1.machineID = and64 1 0x3FF ∧
      s1.machineID = 1 % 1024 ∧ 0 ≤ s1.machineID ∧ s1.machineID ≤ 1023 ∧
      id / 2 ^ 22 = s1.lastTime - s1.epoch ∧ s1.epoch = (NewSnowflakeGenerator 1).epoch ∧
      s1.lastTime ∈ [(1704067200001 : Int)] ∧
      id = (s1.lastTime - s1.epoch) * 2 ^ 22 + s1.machineID * 2 ^ 12 + s1.sequence :=
  Generate_id_layout 1 (NewSnowflakeGenerator 1) [1704067200001] Reachable.init (by decide)

/-- The statement of C10 for three calls on the generator of machine 1 under `sampleClock`;
the IDs returned are 4198400, 4198401 and 8392704. -/
theorem GenerateMany_strictly_increasing_witness :
    ((3 ≤ 4096 → 3 ≤ sampleClock.length →
      ∃ r, (NewSnowflakeGenerator 1).GenerateMany 3 sampleClock = some r) ∧
    ∀ ids s1 rest, (NewSnowflakeGenerator 1).GenerateMany 3 sampleClock = some (ids, s1, rest) →
      ids.length = 3 ∧ ids.Pairwise (· < ·) ∧ ids.Nodup) ∧
    (NewSnowflakeGenerator 1).GenerateMany 3 sampleClock =
      some ([4198400, 4198401, 8392704],
        { epoch := 1704067200000, machineID := 1, sequence := 0, lastTime := 1704067200002 },
        []) :=
  ⟨GenerateMany_strictly_increasing 1 3 sampleClock (by decide) (by decide), by decide⟩

/-! ## The Snowflake generator: machines, capacity and clock regression -/

theorem toUint64_toInt64 (n : Nat) : toUint64 (toInt64 n) = n % 2 ^ 64 := by
  unfold toUint64 toInt64
  have h : n % 2 ^ 64 < 2 ^ 64 := Nat.mod_lt _ (by positivity)
  split_ifs with hlt <;> omega

theorem toInt64_injective (a b : Nat) (ha : a < 2 ^ 64) (hb : b < 2 ^ 64)
    (h : toInt64 a = toInt64 b) : a = b := by
  have h1 := toUint64_toInt64 a
  have h2 := toUint64_toInt64 b
  rw [h, h2, Nat.mod_eq_of_lt hb, Nat.mod_eq_of_lt ha] at h1
  exact h1.symm

/-- The bit pattern of the composed ID, for every reading of the clock: the low 42 bits of
the elapsed time, then the machine identifier, then the sequence. -/
theorem toUint64_compose (s : SnowflakeGenerator) (now : Int)
    (hm0 : 0 ≤ s.machineID) (hm1 : s.machineID < 1024)
    (hs0 : 0 ≤ s.sequence) (hs1 : s.sequence < 4096) :
    toUint64 (s.compose now) =
      (toUint64 (wrap64 (now - s.epoch)) % 2 ^ 42) * 2 ^ 22 + s.machineID.toNat * 2 ^ 12
        + s.sequence.toNat := by
  obtain ⟨m, hm⟩ := Int.eq_ofNat_of_zero_le hm0
  obtain ⟨q, hq⟩ := Int.eq_ofNat_of_zero_le hs0
  have hm2 : m < 2 ^ 10 := by rw [hm] at hm1; exact_mod_cast hm1
  have hq2 : q < 2 ^ 12 := by rw [hq] at hs1; exact_mod_cast hs1
  generalize hx : toUint64 (wrap64 (now - s.epoch)) = x
  have hy : x % 2 ^ 42 < 2 ^ 42 := Nat.mod_lt _ (by positivity)
  have hshift : (x <<< 22) % 2 ^ 64 = (x % 2 ^ 42) <<< 22 := by
    rw [Nat.shiftLeft_eq, Nat.shiftLeft_eq]
    omega
  have hmshift : (m <<< 12) % 2 ^ 64 = m <<< 12 := by
    rw [Nat.shiftLeft_eq]; omega
  unfold SnowflakeGenerator.compose or64 shl64
  rw [hx, hm, hq]
  simp only [toUint64_toInt64, toUint64_natCast m (by omega), toUint64_natCast q (by omega),
    Int.toNat_natCast]
  rw [hshift, hmshift]
  have h1 : (x % 2 ^ 42) <<< 22 ||| m <<< 12 < 2 ^ 64 :=
    Nat.or_lt_two_pow (by rw [Nat.shiftLeft_eq]; omega) (by rw [Nat.shiftLeft_eq]; omega)
  rw [Nat.mod_eq_of_lt h1, or_fields _ m q hm2 hq2]
  omega

/-- Claim C11: two generators whose machine identifiers are distinct values in 0..1023 never
return the same ID, whatever states they are in and whatever their clocks read (readings
before the epoch or beyond the 41-bit range included): bits 12..21 of every ID are the
machine identifier of the generator that returned it. -/
theorem distinct_machines_distinct_ids (m1 m2 : Int) (s1 s2 : SnowflakeGenerator)
    (clock1 clock2 : List Int) (id1 id2 : Int) (t1 t2 : SnowflakeGenerator)
    (rest1 rest2 : List Int)
    (h1 : 0 ≤ m1 ∧ m1 ≤ 1023) (h2 : 0 ≤ m2 ∧ m2 ≤ 1023) (hne : m1 ≠ m2)
    (hs1 : Reachable m1 s1) (hs2 : Reachable m2 s2)
    (hg1 : s1.Generate clock1 = some (id1, t1, rest1))
    (hg2 : s2.Generate clock2 = some (id2, t2, rest2)) :
    id1 ≠ id2 ∧ ((toUint64 id1 / 2 ^ 12 % 2 ^ 10 : Nat) : Int) = m1 ∧
      ((toUint64 id2 / 2 ^ 12 % 2 ^ 10 : Nat) : Int) = m2 := by
  have field : ∀ (m : Int) (s t : SnowflakeGenerator) (clock rest : List Int) (id : Int),
      0 ≤ m ∧ m ≤ 1023 → Reachable m s → s.Generate clock = some (id, t, rest) →
      ((toUint64 id / 2 ^ 12 % 2 ^ 10 : Nat) : Int) = m := by
    intro m s t clock rest id hm hs hg
    obtain ⟨_, hmid, hq0, hq1⟩ := Reachable_inv m t (Reachable.step s clock id t rest hs hg)
    obtain ⟨_, _, _, hid, _⟩ := Generate_cases s clock id t rest hg
    rw [and64_0x3FF] at hmid
    have hm0 : 0 ≤ t.machineID := by omega
    have hbits := toUint64_compose t t.lastTime hm0 (by omega) hq0 (by omega)
    rw [← hid] at hbits
    have hq2 : t.sequence.toNat < 4096 := by omega
    have hm2 : t.machineID.toNat < 1024 := by omega
    have : toUint64 id / 2 ^ 12 % 2 ^ 10 = t.machineID.toNat := by
      rw [hbits]; omega
    rw [this, Int.toNat_of_nonneg hm0]
    omega
  have f1 := field m1 s1 t1 clock1 rest1 id1 h1 hs1 hg1
  have f2 := field m2 s2 t2 clock2 rest2 id2 h2 hs2 hg2
  refine ⟨fun h => hne ?_, f1, f2⟩
  rw [← f1, ← f2, h]

set_option maxRecDepth 100000 in
/-- The statement of C11 for the fresh generators of machines 1 and 2 reading the same
clock. -/
theorem distinct_machines_distinct_ids_witness :
    (4198400 : Int) ≠ 4202496 ∧ ((toUint64 4198400 / 2 ^ 12 % 2 ^ 10 : Nat) : Int) = 1 ∧
      ((toUint64 4202496 / 2 ^ 12 % 2 ^ 10 : Nat) : Int) = 2 :=
  distinct_machines_distinct_ids 1 2 (NewSnowflakeGenerator 1) (NewSnowflakeGenerator 2)
    [1704067200001] [1704067200001] 4198400 4202496
    { epoch := 1704067200000, machineID := 1, sequence := 0, lastTime := 1704067200001 }
    { epoch := 1704067200000, machineID := 2, sequence := 0, lastTime := 1704067200001 }
    [] [] (by decide) (by decide) (by decide) Reachable.init Reachable.init
    (by decide) (by decide)

/-- A reading different from the last-seen time: the sequence is reset, the reading becomes
the last-seen time, and the call returns at once. -/
theorem Generate_of_ne (s : SnowflakeGenerator) (now : Int) (tl : List Int)
    (h : now ≠ s.lastTime) :
    s.Generate (now :: tl) =
      some (({ s with sequence := 0, lastTime := now } : SnowflakeGenerator).compose now,
        { s with sequence := 0, lastTime := now }, tl) := by
  unfold SnowflakeGenerator.Generate
  simp only [if_neg h]

set_option maxRecDepth 100000 in
/-- Claim C20 fails as stated: on the generator of machine 1 that has returned two IDs at
time 1704067200005 (sequence 1), a third reading of 1704067200003, before the last-seen time,
gives sequence 0 and last-seen time 1704067200003, whereas a third reading equal to the
last-seen time gives sequence 2 and keeps the last-seen time. -/
theorem Generate_regression_counterexample :
    (NewSnowflakeGenerator 1).GenerateLog 3 [1704067200005, 1704067200005, 1704067200003] =
      some [(20975616,
          { epoch := 1704067200000, machineID := 1, sequence := 0, lastTime := 1704067200005 }),
        (20975617,
          { epoch := 1704067200000, machineID := 1, sequence := 1, lastTime := 1704067200005 }),
        (12587008,
          { epoch := 1704067200000, machineID := 1, sequence := 0, lastTime := 1704067200003 })] ∧
    (NewSnowflakeGenerator 1).GenerateLog 3 [1704067200005, 1704067200005, 1704067200005] =
      some [(20975616,
          { epoch := 1704067200000, machineID := 1, sequence := 0, lastTime := 1704067200005 }),
        (20975617,
          { epoch := 1704067200000, machineID := 1, sequence := 1, lastTime := 1704067200005 }),
        (20975618,
          { epoch := 1704067200000, machineID := 1, sequence := 2, lastTime := 1704067200005 })] := by
  decide

/-- Claim C20, amended: when the clock reading is strictly less than the last-seen timestamp,
`Generate` does what it does for every reading different from the last-seen timestamp: it
resets the sequence to 0, stores the earlier reading as last-seen, and returns at once,
without waiting, the ID composed from that reading, the machine identifier and sequence 0;
the sequence is not incremented. -/
theorem Generate_regression (s : SnowflakeGenerator) (now : Int) (tl : List Int)
    (h : now < s.lastTime) :
    s.Generate (now :: tl) =
      some (({ s with sequence := 0, lastTime := now } : SnowflakeGenerator).compose now,
        { s with sequence := 0, lastTime := now }, tl) ∧
    ∀ later, later > s.lastTime → ∃ id1 id2,
      s.Generate (now :: tl) = some (id1, { s with sequence := 0, lastTime := now }, tl) ∧
      s.Generate (later :: tl) = some (id2, { s with sequence := 0, lastTime := later }, tl) :=
  ⟨Generate_of_ne s now tl (by omega), fun later hl =>
    ⟨_, _, Generate_of_ne s now tl (by omega), Generate_of_ne s later tl (by omega)⟩⟩

set_option maxRecDepth 100000 in
/-- The statement of C20 (amended) for a generator of machine 1 at last-seen time
1704067200005 with sequence 1, and the reading 1704067200003. -/
theorem Generate_regression_witness :
    (({ epoch := 1704067200000, machineID := 1, sequence := 1, lastTime := 1704067200005 } :
        SnowflakeGenerator).Generate [1704067200003] =
      some (12587008,
        { epoch := 1704067200000, machineID := 1, sequence := 0, lastTime := 1704067200003 },
        [])) ∧
    (1704067200003 : Int) < 1704067200005 :=
  ⟨((Generate_regression
      { epoch := 1704067200000, machineID := 1, sequence := 1, lastTime := 1704067200005 }
      1704067200003 [] (by decide)).1).trans (by decide), by decide⟩

/-- The wait loop ends with the first reading past the last-seen time: every reading it
passed over was at or before it. -/
theorem waitNext_first (lastTime : Int) :
    ∀ (clock : List Int) (now t : Int) (rest : List Int),
      SnowflakeGenerator.waitNext lastTime now clock = some (t, rest) →
        ∃ skipped, now :: clock = skipped ++ t :: rest ∧ ∀ u ∈ skipped, u ≤ lastTime := by
  intro clock
  induction clock with
  | nil =>
    intro now t rest h
    unfold SnowflakeGenerator.waitNext at h
    by_cases hle : now ≤ lastTime
    · rw [if_pos hle] at h; cases h
    · rw [if_neg hle] at h
      simp only [Option.some.injEq, Prod.mk.injEq] at h
      obtain ⟨rfl, rfl⟩ := h
      exact ⟨[], rfl, by simp⟩
  | cons u tl ih =>
    intro now t rest h
    unfold SnowflakeGenerator.waitNext at h
    by_cases hle : now ≤ lastTime
    · rw [if_pos hle] at h
      obtain ⟨skipped, h1, h2⟩ := ih u t rest h
      refine ⟨now :: skipped, by rw [h1]; rfl, ?_⟩
      intro v hv
      rcases List.mem_cons.mp hv with rfl | hv
      · exact hle
      · exact h2 v hv
    · rw [if_neg hle] at h
      simp only [Option.some.injEq, Prod.mk.injEq] at h
      obtain ⟨rfl, rfl⟩ := h
      exact ⟨[], rfl, by simp⟩

/-- A `Generate` call at sequence 4095 whose reading equals the last-seen time. -/
theorem Generate_wrap (s : SnowflakeGenerator) (now : Int) (tl : List Int)
    (hq : s.sequence = 4095) (hnow : now = s.lastTime) :
    (∀ id s1 rest, s.Generate (now :: tl) = some (id, s1, rest) →
      s.lastTime < s1.lastTime ∧ s1.sequence = 0 ∧ id = s1.compose s1.lastTime ∧
      ∃ skipped, now :: tl = skipped ++ s1.lastTime :: rest ∧ ∀ u ∈ skipped, u ≤ s.lastTime) ∧
    ((∃ r, s.Generate (now :: tl) = some r) ↔ ∃ t ∈ tl, s.lastTime < t) := by
  have hseq : and64 (wrap64 (s.sequence + 1)) 0xFFF = 0 := by
    rw [next_sequence _ (by omega) (by omega), hq]; decide
  have hgen : s.Generate (now :: tl) =
      (SnowflakeGenerator.waitNext s.lastTime now tl).map (fun p =>
        (({ s with sequence := 0, lastTime := p.1 } : SnowflakeGenerator).compose p.1,
          ({ s with sequence := 0, lastTime := p.1 } : SnowflakeGenerator), p.2)) := by
    unfold SnowflakeGenerator.Generate
    simp only [if_pos hnow, if_pos hseq]
    rcases hw : SnowflakeGenerator.waitNext s.lastTime now tl with _ | ⟨t, r⟩
    · rfl
    · simp only [Option.map_some', hseq]
  constructor
  · intro id s1 rest h
    rw [hgen] at h
    rcases hw : SnowflakeGenerator.waitNext s.lastTime now tl with _ | ⟨t, r⟩
    · rw [hw] at h; cases h
    · rw [hw] at h
      simp only [Option.map_some', Option.some.injEq, Prod.mk.injEq] at h
      obtain ⟨rfl, rfl, rfl⟩ := h
      obtain ⟨hlt, _⟩ := waitNext_some _ _ _ _ _ hw
      exact ⟨hlt, rfl, rfl, waitNext_first _ _ _ _ _ hw⟩
  · constructor
    · rintro ⟨⟨id, s1, rest⟩, h⟩
      rw [hgen] at h
      rcases hw : SnowflakeGenerator.waitNext s.lastTime now tl with _ | ⟨t, r⟩
      · rw [hw] at h; cases h
      · obtain ⟨hlt, hsuf⟩ := waitNext_some _ _ _ _ _ hw
        have hmem : t ∈ now :: tl := hsuf.subset (List.mem_cons_self _ _)
        rcases List.mem_cons.mp hmem with rfl | hmem
        · omega
        · exact ⟨t, hmem, hlt⟩
    · rintro ⟨t, ht, hlt⟩
      exact Generate_isSome s now tl (Or.inr (Or.inr ⟨t, ht, hlt⟩))

/-- One returning `Generate` call under a clock that never goes back, whatever the readings
are: the pair (last-seen time, sequence) grows in the lexicographic order. -/
theorem Generate_step_lex (s : SnowflakeGenerator) (clock : List Int) (id : Int)
    (s1 : SnowflakeGenerator) (rest : List Int)
    (hq : 0 ≤ s.sequence ∧ s.sequence ≤ 4095)
    (hlast : ∀ t ∈ clock, s.lastTime ≤ t) (hmono : clock.Pairwise (· ≤ ·))
    (h : s.Generate clock = some (id, s1, rest)) :
    (s.lastTime < s1.lastTime ∨ (s.lastTime = s1.lastTime ∧ s.sequence < s1.sequence)) ∧
      (0 ≤ s1.sequence ∧ s1.sequence ≤ 4095) ∧
      (∀ t ∈ rest, s1.lastTime ≤ t) ∧ rest.Pairwise (· ≤ ·) := by
  obtain ⟨now, tl, hclock, _, _, _, hsuf, hcase⟩ := Generate_cases s clock id s1 rest h
  have hpw : (s1.lastTime :: rest).Pairwise (· ≤ ·) := hmono.sublist hsuf.sublist
  rw [List.pairwise_cons] at hpw
  have hnow : now ∈ clock := by rw [hclock]; exact List.mem_cons_self _ _
  have hge := hlast now hnow
  refine ⟨?_, ?_, hpw.1, hpw.2⟩
  · rcases hcase with ⟨hne, _, hl⟩ | ⟨hnow, hq1, hne, hl⟩ | ⟨_, _, _, hl⟩
    · left; omega
    · right
      rw [next_sequence _ hq.1 hq.2] at hq1
      refine ⟨by omega, ?_⟩
      omega
    · left; exact hl
  · rcases hcase with ⟨_, hq1, _⟩ | ⟨_, hq1, _, _⟩ | ⟨_, _, hq1, _⟩
    · omega
    · rw [next_sequence _ hq.1 hq.2] at hq1; omega
    · omega

/-- The order of the pairs (last-seen time, sequence). -/
theorem lex_trans (a b c : SnowflakeGenerator)
    (h1 : a.lastTime < b.lastTime ∨ (a.lastTime = b.lastTime ∧ a.sequence < b.sequence))
    (h2 : b.lastTime < c.lastTime ∨ (b.lastTime = c.lastTime ∧ b.sequence < c.sequence)) :
    a.lastTime < c.lastTime ∨ (a.lastTime = c.lastTime ∧ a.sequence < c.sequence) := by
  omega

theorem GenerateLog_lex (n : Nat) :
    ∀ (s : SnowflakeGenerator) (clock : List Int) (log : List (Int × SnowflakeGenerator)),
      (0 ≤ s.sequence ∧ s.sequence ≤ 4095) →
      (∀ t ∈ clock, s.lastTime ≤ t) → clock.Pairwise (· ≤ ·) →
      s.GenerateLog n clock = some log →
      (∀ p ∈ log, (s.lastTime < p.2.lastTime ∨
          (s.lastTime = p.2.lastTime ∧ s.sequence < p.2.sequence)) ∧
        0 ≤ p.2.sequence ∧ p.2.sequence ≤ 4095) ∧
      log.Pairwise (fun a b => a.2.lastTime < b.2.lastTime ∨
        (a.2.lastTime = b.2.lastTime ∧ a.2.sequence < b.2.sequence)) := by
  induction n with
  | zero =>
    intro s clock log _ _ _ h
    simp only [SnowflakeGenerator.GenerateLog, Option.some.injEq] at h
    subst h
    simp
  | succ n ih =>
    intro s clock log hq hlast hmono h
    rw [SnowflakeGenerator.GenerateLog] at h
    split at h
    · cases h
    · rename_i id s1 clock1 hgen
      split at h
      · cases h
      · rename_i log1 hlog
        simp only [Option.some.injEq] at h
        subst h
        obtain ⟨hlex, hq1, hlast1, hmono1⟩ :=
          Generate_step_lex s clock id s1 clock1 hq hlast hmono hgen
        obtain ⟨hall, hpw⟩ := ih s1 clock1 log1 hq1 hlast1 hmono1 hlog
        constructor
        · intro p hp
          rcases List.mem_cons.mp hp with rfl | hp
          · exact ⟨hlex, hq1⟩
          · exact ⟨lex_trans s s1 p.2 hlex (hall p hp).1, (hall p hp).2⟩
        · rw [List.pairwise_cons]
          exact ⟨fun p hp => (hall p hp).1, hpw⟩

/-- A strictly increasing list of integers between `lo` and 4095 has at most `4096 - lo`
members. -/
theorem increasing_length_le (l : List Int) :
    ∀ lo : Int, l.Pairwise (· < ·) → (∀ x ∈ l, lo ≤ x ∧ x ≤ 4095) →
      l = [] ∨ (l.length : Int) ≤ 4096 - lo := by
  induction l with
  | nil => intro _ _ _; exact Or.inl rfl
  | cons x tl ih =>
    intro lo hpw hb
    rw [List.pairwise_cons] at hpw
    right
    have hx := hb x (List.mem_cons_self _ _)
    rcases ih (x + 1) hpw.2 (fun y hy =>
        ⟨by have := hpw.1 y hy; omega, (hb y (List.mem_cons_of_mem _ hy)).2⟩) with h | h
    · subst h; simp; omega
    · simp only [List.length_cons]; push_cast; omega

theorem lex_count_le (log : List (Int × SnowflakeGenerator))
    (hpw : log.Pairwise (fun a b => a.2.lastTime < b.2.lastTime ∨
      (a.2.lastTime = b.2.lastTime ∧ a.2.sequence < b.2.sequence)))
    (hb : ∀ p ∈ log, 0 ≤ p.2.sequence ∧ p.2.sequence ≤ 4095) (t : Int) :
    (log.filter (fun p => decide (p.2.lastTime = t))).length ≤ 4096 := by
  have hsub := List.filter_sublist (p := fun p => decide (p.2.lastTime = t)) log
  have hpw1 := hpw.sublist hsub
  have hpw2 : ((log.filter (fun p => decide (p.2.lastTime = t))).map
      (fun p => p.2.sequence)).Pairwise (· < ·) := by
    rw [List.pairwise_map]
    refine List.Pairwise.imp_of_mem ?_ hpw1
    intro a b ha hb1 hab
    have hat : a.2.lastTime = t := by simpa using (List.mem_filter.mp ha).2
    have hbt : b.2.lastTime = t := by simpa using (List.mem_filter.mp hb1).2
    omega
  have hbound : ∀ x ∈ (log.filter (fun p => decide (p.2.lastTime = t))).map
      (fun p => p.2.sequence), (0 : Int) ≤ x ∧ x ≤ 4095 := by
    intro x hx
    obtain ⟨p, hp, rfl⟩ := List.mem_map.mp hx
    exact hb p (List.mem_filter.mp hp).1
  rcases increasing_length_le _ 0 hpw2 hbound with h | h
  · rw [List.map_eq_nil_iff] at h
    rw [h]; simp
  · rw [List.length_map] at h
    omega

/-- Under readings in the 41-bit window every ID of a run carries the elapsed milliseconds
of the last-seen time stored with it. -/
theorem GenerateLog_elapsed (m : Int) (n : Nat) :
    ∀ (s : SnowflakeGenerator) (clock : List Int) (log : List (Int × SnowflakeGenerator)),
      Reachable m s → (∀ t ∈ clock, 0 ≤ t - s.epoch ∧ t - s.epoch < 2 ^ 41) →
      s.GenerateLog n clock = some log →
      ∀ p ∈ log, p.1 / 2 ^ 22 = p.2.lastTime - s.epoch := by
  induction n with
  | zero =>
    intro s clock log _ _ h
    simp only [SnowflakeGenerator.GenerateLog, Option.some.injEq] at h
    subst h
    simp
  | succ n ih =>
    intro s clock log hs hwin h
    rw [SnowflakeGenerator.GenerateLog] at h
    split at h
    · cases h
    · rename_i id s1 clock1 hgen
      split at h
      · cases h
      · rename_i log1 hlog
        simp only [Option.some.injEq] at h
        subst h
        have hs1 := Reachable.step s clock id s1 clock1 hs hgen
        obtain ⟨_, hm1, hq0, hq1⟩ := Reachable_inv m s1 hs1
        obtain ⟨now, tl, _, hid, he1, _, hsuf, _⟩ := Generate_cases s clock id s1 clock1 hgen
        have hmem : s1.lastTime ∈ clock := hsuf.subset (List.mem_cons_self _ _)
        have hw := hwin _ hmem
        rw [and64_0x3FF] at hm1
        have hval := compose_eq s1 s1.lastTime (by rw [he1]; exact hw.1)
          (by rw [he1]; exact hw.2) (by omega) (by omega) hq0 (by omega)
        intro p hp
        rcases List.mem_cons.mp hp with rfl | hp
        · show id / 2 ^ 22 = s1.lastTime - s.epoch
          rw [hid, hval, he1]
          norm_num
          omega
        · rw [← he1]
          refine ih s1 clock1 log1 hs1 ?_ hlog p hp
          intro t ht
          rw [he1]
          exact hwin t (hsuf.subset (List.mem_cons_of_mem _ ht))

/-- A reading equal to the last-seen time while the sequence is below 4095: the sequence
goes up by one and the call returns at once. -/
theorem Generate_same_time (s : SnowflakeGenerator) (now : Int) (tl : List Int)
    (hnow : now = s.lastTime) (hq : 0 ≤ s.sequence ∧ s.sequence < 4095) :
    s.Generate (now :: tl) =
      some (({ s with sequence := s.sequence + 1 } : SnowflakeGenerator).compose s.lastTime,
        { s with sequence := s.sequence + 1 }, tl) := by
  have hseq : and64 (wrap64 (s.sequence + 1)) 0xFFF = s.sequence + 1 := by
    rw [next_sequence _ hq.1 (by omega)]
    omega
  have hne : ¬ (s.sequence + 1 = 0) := by omega
  subst hnow
  unfold SnowflakeGenerator.Generate
  simp only [if_true, hseq, if_neg hne]

/-- A run of `k` calls that all read the last-seen time `T`, from sequence `q` with
`q + k ≤ 4095`: each returns an ID whose elapsed-milliseconds field is `T - E`, and the
generator is left at sequence `q + k`. -/
theorem GenerateLog_same_time (E M T : Int) (hT : 0 ≤ T - E ∧ T - E < 2 ^ 41)
    (hM : 0 ≤ M ∧ M < 1024) (k : Nat) :
    ∀ (q n : Nat) (rest : List Int), q + k ≤ 4095 →
      ∃ pre : List (Int × SnowflakeGenerator), pre.length = k ∧
        (∀ p ∈ pre, p.1 / 2 ^ 22 = T - E) ∧
        SnowflakeGenerator.GenerateLog (n + k)
            { epoch := E, machineID := M, sequence := (q : Int), lastTime := T }
            (List.replicate k T ++ rest) =
          (SnowflakeGenerator.GenerateLog n
            { epoch := E, machineID := M, sequence := ((q + k : Nat) : Int), lastTime := T }
            rest).map (fun log => pre ++ log) := by
  induction k with
  | zero =>
    intro q n rest _
    refine ⟨[], rfl, by simp, ?_⟩
    simp
  | succ k ih =>
    intro q n rest hq
    obtain ⟨pre, hlen, hfield, hrun⟩ := ih (q + 1) n rest (by omega)
    have hgen := Generate_same_time
      { epoch := E, machineID := M, sequence := (q : Int), lastTime := T } T
      (List.replicate k T ++ rest) rfl ⟨Int.ofNat_nonneg _, by simp only; omega⟩
    simp only at hgen
    have hcast : (q : Int) + 1 = ((q + 1 : Nat) : Int) := by push_cast; rfl
    have hidx : q + 1 + k = q + (k + 1) := by omega
    rw [hcast] at hgen
    rw [hidx] at hrun
    have hval := compose_eq
      { epoch := E, machineID := M, sequence := ((q + 1 : Nat) : Int), lastTime := T } T
      hT.1 hT.2 hM.1 hM.2 (Int.ofNat_nonneg _) (by simp only; omega)
    simp only at hval
    refine ⟨(({ epoch := E, machineID := M, sequence := ((q + 1 : Nat) : Int), lastTime := T } :
        SnowflakeGenerator).compose T,
      { epoch := E, machineID := M, sequence := ((q + 1 : Nat) : Int), lastTime := T }) :: pre,
      by simp [hlen], ?_, ?_⟩
    · intro p hp
      rcases List.mem_cons.mp hp with rfl | hp
      · show SnowflakeGenerator.compose _ T / 2 ^ 22 = T - E
        rw [hval]
        norm_num
        omega
      · exact hfield p hp
    · show SnowflakeGenerator.GenerateLog (n + k + 1) _ (T :: (List.replicate k T ++ rest)) = _
      rw [SnowflakeGenerator.GenerateLog, hgen]
      simp only
      rw [hrun]
      cases SnowflakeGenerator.GenerateLog n
        { epoch := E, machineID := M, sequence := ((q + (k + 1) : Nat) : Int), lastTime := T }
        rest with
      | none => rfl
      | some log => rfl

theorem pairwise_le_replicate_append (n : Nat) (a b : Int) (h : a ≤ b) :
    (List.replicate n a ++ [b]).Pairwise (· ≤ ·) := by
  induction n with
  | zero => simp
  | succ n ih =>
    rw [List.replicate_succ, List.cons_append, List.pairwise_cons]
    refine ⟨fun c hc => ?_, ih⟩
    rcases List.mem_append.mp hc with hc | hc
    · rw [List.eq_of_mem_replicate hc]
    · rw [List.mem_singleton.mp hc]
      exact h

set_option maxRecDepth 100000 in
/-- Claim C19 fails as stated: the clock that reads 1704067200001 (1 ms after the epoch)
4096 times and then 1704067200001 + 2^42 never decreases, and the generator of machine 1
returns 4097 IDs under it, all with the elapsed-milliseconds field 1: the 42-bit shift of
the last reading wraps, and the last ID is 4198400, the same as the first. -/
theorem at_most_4096_field_counterexample :
    (List.replicate 4096 (1704067200001 : Int) ++ [1704067200001 + 2 ^ 42]).Pairwise
      (· ≤ ·) ∧
    ∃ log, (NewSnowflakeGenerator 1).GenerateLog 4097
        (List.replicate 4096 1704067200001 ++ [1704067200001 + 2 ^ 42]) = some log ∧
      log.length = 4097 ∧
      (log.filter (fun p => decide (p.1 / 2 ^ 22 = 1))).length = 4097 ∧
      log.head? = some (4198400,
        { epoch := 1704067200000, machineID := 1, sequence := 0, lastTime := 1704067200001 }) ∧
      log.getLast? = some (4198400,
        { epoch := 1704067200000, machineID := 1, sequence := 0,
          lastTime := 1704067200001 + 2 ^ 42 }) := by
  refine ⟨pairwise_le_replicate_append 4096 _ _ (by decide), ?_⟩
  obtain ⟨pre, hlen, hfield, hrun⟩ := GenerateLog_same_time 1704067200000 1 1704067200001
    (by decide) (by decide) 4095 0 1 [1704067200001 + 2 ^ 42] (by decide)
  have hfirst : (NewSnowflakeGenerator 1).Generate
      (1704067200001 :: (List.replicate 4095 1704067200001 ++ [1704067200001 + 2 ^ 42])) =
      some (4198400,
        { epoch := 1704067200000, machineID := 1, sequence := 0, lastTime := 1704067200001 },
        List.replicate 4095 1704067200001 ++ [1704067200001 + 2 ^ 42]) := by
    rw [Generate_of_ne _ _ _ (by decide)]
    have hid : (({ NewSnowflakeGenerator 1 with sequence := 0, lastTime := 1704067200001 } :
        SnowflakeGenerator).compose 1704067200001) = 4198400 := by decide
    have hst : ({ NewSnowflakeGenerator 1 with sequence := 0, lastTime := 1704067200001 } :
        SnowflakeGenerator) =
        { epoch := 1704067200000, machineID := 1, sequence := 0, lastTime := 1704067200001 } := by
      decide
    rw [hid, hst]
  have hlast : SnowflakeGenerator.GenerateLog 1
      { epoch := 1704067200000, machineID := 1, sequence := ((0 + 4095 : Nat) : Int),
        lastTime := 1704067200001 } [1704067200001 + 2 ^ 42] =
      some [(4198400,
        { epoch := 1704067200000, machineID := 1, sequence := 0,
          lastTime := 1704067200001 + 2 ^ 42 })] := by
    rw [SnowflakeGenerator.GenerateLog, Generate_of_ne _ _ _ (by decide)]
    simp only [SnowflakeGenerator.GenerateLog]
    have hid : SnowflakeGenerator.compose
        { epoch := 1704067200000, machineID := 1, sequence := 0,
          lastTime := 1704067200001 + 2 ^ 42 }
        (1704067200001 + 2 ^ 42) = 4198400 := by decide
    rw [hid]
  rw [hlast] at hrun
  simp only [Option.map_some'] at hrun
  have hall : (NewSnowflakeGenerator 1).GenerateLog 4097
      (List.replicate 4096 1704067200001 ++ [1704067200001 + 2 ^ 42]) =
      some ((4198400,
        { epoch := 1704067200000, machineID := 1, sequence := 0, lastTime := 1704067200001 }) ::
        (pre ++ [(4198400,
          { epoch := 1704067200000, machineID := 1, sequence := 0,
            lastTime := 1704067200001 + 2 ^ 42 })])) := by
    have hclock : List.replicate 4096 (1704067200001 : Int) =
        1704067200001 :: List.replicate 4095 1704067200001 := List.replicate_succ _ 4095
    rw [hclock, List.cons_append, SnowflakeGenerator.GenerateLog, hfirst]
    simp only
    have h2 : SnowflakeGenerator.GenerateLog 4096
        { epoch := 1704067200000, machineID := 1, sequence := 0, lastTime := 1704067200001 }
        (List.replicate 4095 1704067200001 ++ [1704067200001 + 2 ^ 42]) = _ := hrun
    rw [h2]
  refine ⟨_, hall, ?_, ?_, rfl, ?_⟩
  · simp [hlen]
  · rw [List.filter_eq_self.mpr]
    · simp [hlen]
    · intro p hp
      simp only [decide_eq_true_eq]
      rcases List.mem_cons.mp hp with rfl | hp
      · decide
      · rcases List.mem_append.mp hp with hp | hp
        · rw [hfield p hp]
          decide
        · rw [List.mem_singleton.mp hp]
          decide
  · simp [List.getLast?_cons, List.getLast?_append]

/-- Claim C19, amended: on one generator, under clock readings that never decrease, at most
4096 of the IDs returned carry the same millisecond: at most 4096 calls return with the same
last-seen time, whatever the readings are, and for readings in `[epoch, epoch + 2^41)` at
most 4096 returned IDs have the same elapsed-milliseconds field `id / 2^22`.  When the
sequence wraps to 0 (it was 4095 and the reading equals the last-seen time), `Generate`
passes over every reading at or before the last-seen time, returns with the first reading
past it, and the ID returned is composed from that later time and sequence 0; it returns
if and only if there is such a reading. -/
theorem at_most_4096_per_millisecond (m : Int) (n : Nat) (clock : List Int)
    (log : List (Int × SnowflakeGenerator))
    (hmono : clock.Pairwise (· ≤ ·))
    (hrun : (NewSnowflakeGenerator m).GenerateLog n clock = some log) :
    (∀ t, (log.filter (fun p => decide (p.2.lastTime = t))).length ≤ 4096) ∧
    ((∀ t ∈ clock, 0 ≤ t - (NewSnowflakeGenerator m).epoch ∧
        t - (NewSnowflakeGenerator m).epoch < 2 ^ 41) →
      ∀ e, (log.filter (fun p => decide (p.1 / 2 ^ 22 = e))).length ≤ 4096) ∧
    (∀ (s : SnowflakeGenerator) (now : Int) (tl : List Int),
      s.sequence = 4095 → now = s.lastTime →
      (∀ id s1 rest, s.Generate (now :: tl) = some (id, s1, rest) →
        s.lastTime < s1.lastTime ∧ s1.sequence = 0 ∧ id = s1.compose s1.lastTime ∧
        ∃ skipped, now :: tl = skipped ++ s1.lastTime :: rest ∧
          ∀ u ∈ skipped, u ≤ s.lastTime) ∧
      ((∃ r, s.Generate (now :: tl) = some r) ↔ ∃ t ∈ tl, s.lastTime < t)) := by
  have hl : (NewSnowflakeGenerator m).lastTime = 0 := rfl
  have hq : (NewSnowflakeGenerator m).sequence = 0 := rfl
  have hlex : log.Pairwise (fun a b => a.2.lastTime < b.2.lastTime ∨
        (a.2.lastTime = b.2.lastTime ∧ a.2.sequence < b.2.sequence)) ∧
      ∀ p ∈ log, 0 ≤ p.2.sequence ∧ p.2.sequence ≤ 4095 := by
    rcases n with _ | n
    · simp only [SnowflakeGenerator.GenerateLog, Option.some.injEq] at hrun
      subst hrun
      simp
    · rcases clock with _ | ⟨now, tl⟩
      · simp [SnowflakeGenerator.GenerateLog, SnowflakeGenerator.Generate] at hrun
      · rw [List.pairwise_cons] at hmono
        by_cases h0 : now = (NewSnowflakeGenerator m).lastTime
        · obtain ⟨hall, hpw⟩ := GenerateLog_lex (n + 1) (NewSnowflakeGenerator m) (now :: tl) log
            (by rw [hq]; omega)
            (by
              intro t ht
              rcases List.mem_cons.mp ht with rfl | ht
              · omega
              · have := hmono.1 t ht
                omega)
            (List.pairwise_cons.mpr hmono) hrun
          exact ⟨hpw, fun p hp => (hall p hp).2⟩
        · rw [SnowflakeGenerator.GenerateLog, Generate_of_ne _ now tl h0] at hrun
          simp only at hrun
          split at hrun
          · cases hrun
          · rename_i log1 hlog
            simp only [Option.some.injEq] at hrun
            subst hrun
            obtain ⟨hall, hpw⟩ := GenerateLog_lex n _ tl log1 (by simp)
              (by intro t ht; exact hmono.1 t ht) hmono.2 hlog
            constructor
            · rw [List.pairwise_cons]
              exact ⟨fun p hp => (hall p hp).1, hpw⟩
            · intro p hp
              rcases List.mem_cons.mp hp with rfl | hp
              · simp
              · exact (hall p hp).2
  refine ⟨fun t => lex_count_le log hlex.1 hlex.2 t, ?_, ?_⟩
  · intro hwin e
    have hel := GenerateLog_elapsed m n (NewSnowflakeGenerator m) clock log Reachable.init hwin hrun
    have hcongr : log.filter (fun p => decide (p.1 / 2 ^ 22 = e)) =
        log.filter (fun p => decide (p.2.lastTime = e + (NewSnowflakeGenerator m).epoch)) := by
      apply List.filter_congr
      intro p hp
      have := hel p hp
      simp only [decide_eq_decide]
      omega
    rw [hcongr]
    exact lex_count_le log hlex.1 hlex.2 _
  · intro s now tl hq4095 hnow
    exact Generate_wrap s now tl hq4095 hnow

set_option maxRecDepth 100000 in
/-- The statement of C19 (amended) for three calls on the generator of machine 1 under
`sampleClock`, whose readings are within 2^41 ms of the epoch. -/
theorem at_most_4096_per_millisecond_witness :
    (∀ t, (sampleLog.filter (fun p => decide (p.2.lastTime = t))).length ≤ 4096) ∧
    (∀ t ∈ sampleClock, 0 ≤ t - (NewSnowflakeGenerator 1).epoch ∧
      t - (NewSnowflakeGenerator 1).epoch < 2 ^ 41) ∧
    (∀ e, (sampleLog.filter (fun p => decide (p.1 / 2 ^ 22 = e))).length ≤ 4096) ∧
    (∀ (s : SnowflakeGenerator) (now : Int) (tl : List Int),
      s.sequence = 4095 → now = s.lastTime →
      (∀ id s1 rest, s.Generate (now :: tl) = some (id, s1, rest) →
        s.lastTime < s1.lastTime ∧ s1.sequence = 0 ∧ id = s1.compose s1.lastTime ∧
        ∃ skipped, now :: tl = skipped ++ s1.lastTime :: rest ∧
          ∀ u ∈ skipped, u ≤ s.lastTime) ∧
      ((∃ r, s.Generate (now :: tl) = some r) ↔ ∃ t ∈ tl, s.lastTime < t)) ∧
    (({ epoch := 1704067200000, machineID := 1, sequence := 4095, lastTime := 1704067200001 } :
        SnowflakeGenerator).Generate
        [1704067200001, 1704067200001, 1704067200002, 1704067200003] =
      some (8392704,
        { epoch := 1704067200000, machineID := 1, sequence := 0, lastTime := 1704067200002 },
        [1704067200003])) :=
  ⟨(at_most_4096_per_millisecond 1 3 sampleClock sampleLog (by decide) (by decide)).1,
    by decide,
    (at_most_4096_per_millisecond 1 3 sampleClock sampleLog (by decide) (by decide)).2.1
      (by decide),
    (at_most_4096_per_millisecond 1 3 sampleClock sampleLog (by decide) (by decide)).2.2,
    by decide⟩

/-! ## Snowflake IDs as short codes -/

/-- A code with a byte outside `charset` is rejected by `IsValid`. -/
theorem IsValid_of_not_mem (g : ShortCodeGeneratorImpl) (code : GoString) (b : Nat)
    (hb : b ∈ code) (hc : b ∉ charset) : g.IsValid code = false := by
  cases hv : g.IsValid code with
  | false => rfl
  | true => exact absurd (((IsValid_iff_bytes g code).1 hv).2.2 b hb) hc

set_option maxRecDepth 100000 in
/-- Claim C23: some Snowflake IDs give short codes that `IsValid` rejects.  The fresh generator
of machine 1 reading the clock 3 ms after the epoch returns the ID 12587008, which is
non-negative and below 2^63, and `GenerateAsShortCode` turns it into `qoSG`, of length 4,
which every generator's `IsValid` rejects because of its `o`; reading the clock at
2025-01-01 00:00:00.001 UTC it returns 132633958813798400 and the code `9nSpDrfYoq`, of
length 10, rejected for the same reason.  The symbols `0`, `O`, `I`, `l` (and `o`) are digits
of the Base62 alphabet and are not in `charset`. -/
theorem GenerateAsShortCode_rejected_by_IsValid :
    (∃ (id : Int) (code : GoString) (s1 : SnowflakeGenerator),
      (NewSnowflakeGenerator 1).Generate [1704067200003] = some (id, s1, []) ∧
      (NewSnowflakeGenerator 1).GenerateAsShortCode [1704067200003] = some (code, s1, []) ∧
      0 ≤ id ∧ id < 2 ^ 63 ∧ code = GenerateBase62 (toUint64 id) ∧
      code = GoString.ofString "qoSG" ∧
      4 ≤ code.length ∧ code.length ≤ 12 ∧
      (∀ g : ShortCodeGeneratorImpl, g.IsValid code = false) ∧
      (∃ b ∈ code, b ∈ GoString.ofString "0OIlo")) ∧
    (∃ (id : Int) (code : GoString) (s1 : SnowflakeGenerator),
      (NewSnowflakeGenerator 1).Generate [1735689600001] = some (id, s1, []) ∧
      (NewSnowflakeGenerator 1).GenerateAsShortCode [1735689600001] = some (code, s1, []) ∧
      0 ≤ id ∧ id < 2 ^ 63 ∧ code = GenerateBase62 (toUint64 id) ∧
      code = GoString.ofString "9nSpDrfYoq" ∧
      4 ≤ code.length ∧ code.length ≤ 12 ∧
      (∀ g : ShortCodeGeneratorImpl, g.IsValid code = false) ∧
      (∃ b ∈ code, b ∈ GoString.ofString "0OIlo")) ∧
    (∀ b ∈ GoString.ofString "0OIlo", b ∈ base62Chars ∧ b ∉ charset) := by
  have hgen : (NewSnowflakeGenerator 1).Generate [1704067200003] =
      some (12587008,
        { epoch := 1704067200000, machineID := 1, sequence := 0, lastTime := 1704067200003 },
        []) := by decide
  have hcode : GenerateBase62 (toUint64 12587008) = GoString.ofString "qoSG" := by
    have : toUint64 12587008 = 12587008 := by decide
    rw [this, GenerateBase62, if_neg (by decide), GenerateBase62_loop_pos _ _ (by decide),
      GenerateBase62_loop_pos _ _ (by decide), GenerateBase62_loop_pos _ _ (by decide),
      GenerateBase62_loop_pos _ _ (by decide), GenerateBase62_loop_zero]
    decide
  have hgen2 : (NewSnowflakeGenerator 1).Generate [1735689600001] =
      some (132633958813798400,
        { epoch := 1704067200000, machineID := 1, sequence := 0, lastTime := 1735689600001 },
        []) := by decide
  have hcode2 : GenerateBase62 (toUint64 132633958813798400) =
      GoString.ofString "9nSpDrfYoq" := by
    have : toUint64 132633958813798400 = 132633958813798400 := by decide
    rw [this, GenerateBase62, if_neg (by decide), GenerateBase62_loop_pos _ _ (by decide),
      GenerateBase62_loop_pos _ _ (by decide), GenerateBase62_loop_pos _ _ (by decide),
      GenerateBase62_loop_pos _ _ (by decide), GenerateBase62_loop_pos _ _ (by decide),
      GenerateBase62_loop_pos _ _ (by decide), GenerateBase62_loop_pos _ _ (by decide),
      GenerateBase62_loop_pos _ _ (by decide), GenerateBase62_loop_pos _ _ (by decide),
      GenerateBase62_loop_pos _ _ (by decide), GenerateBase62_loop_zero]
    decide
  refine ⟨⟨12587008, GoString.ofString "qoSG", _, hgen, ?_, by decide, by decide, hcode.symm,
      rfl, by decide, by decide, fun g => IsValid_of_not_mem g _ 111 (by decide) (by decide),
      by decide⟩,
    ⟨132633958813798400, GoString.ofString "9nSpDrfYoq", _, hgen2, ?_, by decide, by decide,
      hcode2.symm, rfl, by decide, by decide,
      fun g => IsValid_of_not_mem g _ 111 (by decide) (by decide), by decide⟩,
    by decide⟩
  · rw [SnowflakeGenerator.GenerateAsShortCode, hgen]
    simp only [hcode]
  · rw [SnowflakeGenerator.GenerateAsShortCode, hgen2]
    simp only [hcode2]

end Generator

/-! ## The URL service: theorems -/

namespace Services

open Generator

theorem range_succ_map (candidate : Nat → GoString) (i : Nat) :
    (List.range i).map candidate ++ [candidate i] = (List.range (i + 1)).map candidate := by
  rw [List.range_succ, List.map_append]; rfl

/-- The allocation loop when no check fails with an error: it stops at the first attempt
whose candidate storage reports absent, and runs out after the last attempt otherwise. -/
theorem generateUniqueShortCode_loop (c : Collaborators) (candidate : Nat → GoString)
    (present : Nat → GoString → Bool)
    (hgen : ∀ i, c.Generate i = some (candidate i))
    (hcheck : ∀ n code, c.ExistsShortCode n code = (present n code, none)) (remaining : Nat) :
    ∀ i,
      ((∀ k, i ≤ k → k < i + remaining → present k (candidate k) = true) →
        generateUniqueShortCode.loop c remaining i ((List.range i).map candidate) =
          ⟨some ([], some errAllocationExhausted), i + remaining,
            (List.range (i + remaining)).map candidate⟩) ∧
      (∀ k, i ≤ k → k < i + remaining → present k (candidate k) = false →
        (∀ j, i ≤ j → j < k → present j (candidate j) = true) →
        generateUniqueShortCode.loop c remaining i ((List.range i).map candidate) =
          ⟨some (candidate k, none), k + 1, (List.range (k + 1)).map candidate⟩) := by
  induction remaining with
  | zero =>
    intro i
    refine ⟨fun _ => rfl, fun k h1 h2 => ?_⟩
    omega
  | succ remaining ih =>
    intro i
    have hstep : ∀ b, present i (candidate i) = b →
        generateUniqueShortCode.loop c (remaining + 1) i ((List.range i).map candidate) =
          if !b then ⟨some (candidate i, none), i + 1, (List.range (i + 1)).map candidate⟩
          else generateUniqueShortCode.loop c remaining (i + 1)
            ((List.range (i + 1)).map candidate) := by
      intro b hb
      rw [generateUniqueShortCode.loop]
      simp only [hgen, hcheck, List.length_map, List.length_range, hb, range_succ_map]
    constructor
    · intro hall
      rw [hstep true (hall i (le_refl _) (by omega))]
      simp only [Bool.not_true, Bool.false_eq_true, if_false]
      rw [(ih (i + 1)).1 (fun k h1 h2 => hall k (by omega) (by omega))]
      have : i + 1 + remaining = i + (remaining + 1) := by omega
      rw [this]
    · intro k h1 h2 hk hbefore
      rcases Nat.eq_or_lt_of_le h1 with rfl | hlt
      · rw [hstep false hk]
        simp
      · rw [hstep true (hbefore i (le_refl _) hlt)]
        simp only [Bool.not_true, Bool.false_eq_true, if_false]
        exact (ih (i + 1)).2 k (by omega) (by omega) hk (fun j hj1 hj2 => hbefore j (by omega) hj2)

/-- Claim C12: with `Generate()` returning the candidates `candidate 0, candidate 1, ...` and
the storage check answering without error (`present n code` for check number `n`),
`generateUniqueShortCode` returns the first candidate among the first 10 that storage
reports absent, having generated and checked the candidates up to it and none after it;
it fails with the allocation-exhausted error if and only if storage reports all of the
first 10 candidates present; and it never generates or checks more than 10 candidates. -/
theorem generateUniqueShortCode_first_absent (s : URLServiceImpl) (c : Collaborators)
    (candidate : Nat → GoString) (present : Nat → GoString → Bool)
    (hgen : ∀ i, c.Generate i = some (candidate i))
    (hcheck : ∀ n code, c.ExistsShortCode n code = (present n code, none)) :
    (∀ i < 10, present i (candidate i) = false →
      (∀ j < i, present j (candidate j) = true) →
      s.generateUniqueShortCode c =
        ⟨some (candidate i, none), i + 1, (List.range (i + 1)).map candidate⟩) ∧
    ((s.generateUniqueShortCode c).result = some ([], some errAllocationExhausted) ↔
      ∀ i < 10, present i (candidate i) = true) ∧
    ((∀ i < 10, present i (candidate i) = true) →
      s.generateUniqueShortCode c =
        ⟨some ([], some errAllocationExhausted), 10, (List.range 10).map candidate⟩) ∧
    (s.generateUniqueShortCode c).generated ≤ 10 ∧
    (s.generateUniqueShortCode c).checked =
      (List.range (s.generateUniqueShortCode c).generated).map candidate := by
  have hloop := generateUniqueShortCode_loop c candidate present hgen hcheck 10 0
  have hdef : s.generateUniqueShortCode c =
      generateUniqueShortCode.loop c 10 0 ((List.range 0).map candidate) := rfl
  have hfirst : ∀ i < 10, present i (candidate i) = false →
      (∀ j < i, present j (candidate j) = true) →
      s.generateUniqueShortCode c =
        ⟨some (candidate i, none), i + 1, (List.range (i + 1)).map candidate⟩ := by
    intro i hi habs hbefore
    rw [hdef]
    exact hloop.2 i (Nat.zero_le _) (by omega) habs (fun j _ hj => hbefore j hj)
  have hall : (∀ i < 10, present i (candidate i) = true) →
      s.generateUniqueShortCode c =
        ⟨some ([], some errAllocationExhausted), 10, (List.range 10).map candidate⟩ := by
    intro h
    rw [hdef]
    exact hloop.1 (fun k _ hk => h k (by omega))
  have hcases : (∀ i < 10, present i (candidate i) = true) ∨
      ∃ i, i < 10 ∧ present i (candidate i) = false ∧
        ∀ j < i, present j (candidate j) = true := by
    by_cases h : ∃ i, i < 10 ∧ present i (candidate i) = false
    · right
      refine ⟨Nat.find h, (Nat.find_spec h).1, (Nat.find_spec h).2, fun j hj => ?_⟩
      have hmin := Nat.find_min h hj
      have hj10 : j < 10 := lt_trans hj (Nat.find_spec h).1
      rw [← Bool.not_eq_false]
      exact fun hf => hmin ⟨hj10, hf⟩
    · left
      intro i hi
      rw [← Bool.not_eq_false]
      exact fun hf => h ⟨i, hi, hf⟩
  refine ⟨hfirst, ?_, hall, ?_, ?_⟩
  · constructor
    · intro hres
      rcases hcases with h | ⟨i, hi, habs, hbefore⟩
      · exact h
      · rw [hfirst i hi habs hbefore] at hres
        simp at hres
    · intro h
      rw [hall h]
  · rcases hcases with h | ⟨i, hi, habs, hbefore⟩
    · rw [hall h]
    · rw [hfirst i hi habs hbefore]; show i + 1 ≤ 10; omega
  · rcases hcases with h | ⟨i, hi, habs, hbefore⟩
    · rw [hall h]
    · rw [hfirst i hi habs hbefore]

/-- The statement of C12 for the sample candidates, the first two reported present. -/
theorem generateUniqueShortCode_first_absent_witness :
    (∀ i < 10, samplePresent i (sampleCandidate i) = false →
      (∀ j < i, samplePresent j (sampleCandidate j) = true) →
      sampleService.generateUniqueShortCode sampleCollaborators =
        ⟨some (sampleCandidate i, none), i + 1, (List.range (i + 1)).map sampleCandidate⟩) ∧
    ((sampleService.generateUniqueShortCode sampleCollaborators).result =
        some ([], some errAllocationExhausted) ↔
      ∀ i < 10, samplePresent i (sampleCandidate i) = true) ∧
    ((∀ i < 10, samplePresent i (sampleCandidate i) = true) →
      sampleService.generateUniqueShortCode sampleCollaborators =
        ⟨some ([], some errAllocationExhausted), 10, (List.range 10).map sampleCandidate⟩) ∧
    (sampleService.generateUniqueShortCode sampleCollaborators).generated ≤ 10 ∧
    (sampleService.generateUniqueShortCode sampleCollaborators).checked =
      (List.range (sampleService.generateUniqueShortCode sampleCollaborators).generated).map
        sampleCandidate :=
  generateUniqueShortCode_first_absent sampleService sampleCollaborators sampleCandidate
    samplePresent (fun _ => rfl) (fun _ _ => rfl)

/-- Claim C17: for every request whose custom code is non-empty and rejected by `IsValid`,
`CreateShortURL` calls the repository once, to look up the original URL, and nothing else:
it never calls `Create`, `ExistsShortCode` or the cache.  Either that lookup finds a stored
record and the call returns the code of that record, or the call fails with the
invalid-custom-code error. -/
theorem CreateShortURL_rejects_invalid_custom_code (s : URLServiceImpl) (c : Collaborators)
    (req : CreateURLRequest) (hne : req.CustomCode ≠ [])
    (hinv : s.generator.IsValid req.CustomCode = false) :
    (s.CreateShortURL c req).calls = [RepoCall.FindByOriginalURL req.OriginalURL] ∧
    (∀ url, RepoCall.Create url ∉ (s.CreateShortURL c req).calls) ∧
    (∀ code, RepoCall.ExistsShortCode code ∉ (s.CreateShortURL c req).calls) ∧
    (∀ code url, RepoCall.CacheSet code url ∉ (s.CreateShortURL c req).calls) ∧
    ((s.CreateShortURL c req).result =
        some (none, some (GoError.new "invalid custom code format")) ∨
      ∃ existingURL, c.FindByOriginalURL req.OriginalURL = (some existingURL, none) ∧
        (s.CreateShortURL c req).result =
          some (some { ShortURL := shortURL s.BaseURL existingURL.ShortCode
                       ShortCode := existingURL.ShortCode
                       OriginalURL := existingURL.OriginalURL
                       ExpiresAt := [] }, none)) := by
  have hrun : (s.CreateShortURL c req).calls = [RepoCall.FindByOriginalURL req.OriginalURL] ∧
      ((s.CreateShortURL c req).result =
          some (none, some (GoError.new "invalid custom code format")) ∨
        ∃ existingURL, c.FindByOriginalURL req.OriginalURL = (some existingURL, none) ∧
          (s.CreateShortURL c req).result =
            some (some { ShortURL := shortURL s.BaseURL existingURL.ShortCode
                         ShortCode := existingURL.ShortCode
                         OriginalURL := existingURL.OriginalURL
                         ExpiresAt := [] }, none)) := by
    unfold URLServiceImpl.CreateShortURL
    rcases hfind : c.FindByOriginalURL req.OriginalURL with ⟨_ | existingURL, _ | err⟩
    · simp [hne, hinv]
    · simp [hne, hinv]
    · exact ⟨rfl, Or.inr ⟨existingURL, rfl, rfl⟩⟩
    · simp [hne, hinv]
  obtain ⟨hcalls, hres⟩ := hrun
  refine ⟨hcalls, ?_, ?_, ?_, hres⟩
  · intro url h; rw [hcalls] at h; simp at h
  · intro code h; rw [hcalls] at h; simp at h
  · intro code url h; rw [hcalls] at h; simp at h

/-- The statement of C17 for the sample request, whose custom code `ab` is too short. -/
theorem CreateShortURL_rejects_invalid_custom_code_witness :
    (sampleService.CreateShortURL sampleCollaborators sampleRequest).calls =
      [RepoCall.FindByOriginalURL sampleRequest.OriginalURL] ∧
    (∀ url, RepoCall.Create url ∉
      (sampleService.CreateShortURL sampleCollaborators sampleRequest).calls) ∧
    (∀ code, RepoCall.ExistsShortCode code ∉
      (sampleService.CreateShortURL sampleCollaborators sampleRequest).calls) ∧
    (∀ code url, RepoCall.CacheSet code url ∉
      (sampleService.CreateShortURL sampleCollaborators sampleRequest).calls) ∧
    ((sampleService.CreateShortURL sampleCollaborators sampleRequest).result =
        some (none, some (GoError.new "invalid custom code format")) ∨
      ∃ existingURL,
        sampleCollaborators.FindByOriginalURL sampleRequest.OriginalURL =
          (some existingURL, none) ∧
        (sampleService.CreateShortURL sampleCollaborators sampleRequest).result =
          some (some { ShortURL := shortURL sampleService.BaseURL existingURL.ShortCode
                       ShortCode := existingURL.ShortCode
                       OriginalURL := existingURL.OriginalURL
                       ExpiresAt := [] }, none)) :=
  CreateShortURL_rejects_invalid_custom_code sampleService sampleCollaborators sampleRequest
    (by decide) (by decide)

/-! ### A failing storage check -/

/-- The allocation loop when the check of candidate `k + d` fails with an error and the
candidates from `k` up to it are reported present: it stops there. -/
theorem generateUniqueShortCode_loop_error (c : Collaborators) (candidate : Nat → GoString)
    (flag : Bool) (err : GoError) (d : Nat) :
    ∀ (remaining k : Nat), d < remaining →
      (∀ j, j ≤ k + d → c.Generate j = some (candidate j)) →
      (∀ j, k ≤ j → j < k + d → c.ExistsShortCode j (candidate j) = (true, none)) →
      c.ExistsShortCode (k + d) (candidate (k + d)) = (flag, some err) →
      generateUniqueShortCode.loop c remaining k ((List.range k).map candidate) =
        ⟨some ([], some (GoError.wrap "failed to check short code" err)), k + d + 1,
          (List.range (k + d + 1)).map candidate⟩ := by
  induction d with
  | zero =>
    intro remaining k hrem hgen _ herr
    obtain ⟨r, rfl⟩ : ∃ r, remaining = r + 1 := ⟨remaining - 1, by omega⟩
    rw [generateUniqueShortCode.loop]
    simp only [Nat.add_zero] at herr ⊢
    simp only [hgen k (by omega), List.length_map, List.length_range, herr, range_succ_map]
  | succ d ih =>
    intro remaining k hrem hgen hpresent herr
    obtain ⟨r, rfl⟩ : ∃ r, remaining = r + 1 := ⟨remaining - 1, by omega⟩
    rw [generateUniqueShortCode.loop]
    simp only [hgen k (by omega), List.length_map, List.length_range,
      hpresent k (le_refl _) (by omega), range_succ_map, Bool.not_true, Bool.false_eq_true,
      if_false]
    have hk : k + (d + 1) = k + 1 + d := by omega
    rw [hk] at herr ⊢
    exact ih r (k + 1) (by omega) (fun j hj => hgen j (by omega))
      (fun j h1 h2 => hpresent j (by omega) (by omega)) herr

/-- Claim C22: if the storage check returns an error on attempt `i` (1 ≤ i ≤ 10) of
`generateUniqueShortCode` and reported every earlier candidate present, the function returns
the empty code with the error "failed to check short code" wrapping the storage error, which
is not the allocation-exhausted error; it has then called `Generate()` exactly `i` times and
checked exactly the first `i` candidates, whatever later calls would have answered. -/
theorem generateUniqueShortCode_check_error (s : URLServiceImpl) (c : Collaborators)
    (candidate : Nat → GoString) (i : Nat) (flag : Bool) (err : GoError)
    (hi : 1 ≤ i ∧ i ≤ 10)
    (hgen : ∀ j, j < i → c.Generate j = some (candidate j))
    (hpresent : ∀ j, j + 1 < i → c.ExistsShortCode j (candidate j) = (true, none))
    (herr : c.ExistsShortCode (i - 1) (candidate (i - 1)) = (flag, some err)) :
    s.generateUniqueShortCode c =
      ⟨some ([], some (GoError.wrap "failed to check short code" err)), i,
        (List.range i).map candidate⟩ ∧
    (∃ e, (s.generateUniqueShortCode c).result = some ([], some e) ∧ e.Unwrap = some err ∧
      e ≠ errAllocationExhausted) ∧
    (s.generateUniqueShortCode c).generated = i ∧
    (s.generateUniqueShortCode c).checked.length = i := by
  have h := generateUniqueShortCode_loop_error c candidate flag err (i - 1) 10 0 (by omega)
    (fun j hj => hgen j (by omega)) (fun j _ hj => hpresent j (by omega))
    (by rw [Nat.zero_add]; exact herr)
  have hi2 : 0 + (i - 1) + 1 = i := by omega
  rw [hi2] at h
  have hrun : s.generateUniqueShortCode c =
      ⟨some ([], some (GoError.wrap "failed to check short code" err)), i,
        (List.range i).map candidate⟩ := h
  rw [hrun]
  refine ⟨rfl, ⟨_, rfl, rfl, ?_⟩, rfl, ?_⟩
  · intro hne
    simp [errAllocationExhausted] at hne
  · simp

/-- The statement of C22 for the sample service whose storage check fails on the third
attempt. -/
theorem generateUniqueShortCode_check_error_witness :
    sampleService.generateUniqueShortCode failingCollaborators =
      ⟨some ([], some (GoError.wrap "failed to check short code"
          (GoError.new "connection refused"))), 3,
        [GoString.ofString "abc0", GoString.ofString "abc1", GoString.ofString "abc2"]⟩ ∧
    (1 ≤ 3 ∧ 3 ≤ 10) :=
  ⟨(generateUniqueShortCode_check_error sampleService failingCollaborators sampleCandidate 3
      false (GoError.new "connection refused") (by decide) (fun _ _ => rfl)
      (fun j hj => by
        have h2 : j < 2 := by omega
        interval_cases j <;> rfl)
      rfl).1, by decide⟩

end Services

/-! ## The click-event pipeline: theorems -/

namespace Workers

open Generator Services

/-! ### processBatch leaves the queue alone -/

theorem saveLoop_frame (st : Storage) (batch : List ClickEvent) :
    ∀ (w : ClickAnalyticsWorker) (c : BatchCounts),
      (processBatch.saveLoop st batch w c).1.eventChannel = w.eventChannel ∧
      (processBatch.saveLoop st batch w c).1.quit = w.quit ∧
      (processBatch.saveLoop st batch w c).1.isRunning = w.isRunning ∧
      (processBatch.saveLoop st batch w c).1.workers = w.workers ∧
      (processBatch.saveLoop st batch w c).1.increments = w.increments ∧
      (processBatch.saveLoop st batch w c).1.saved = w.saved ++ batch := by
  induction batch with
  | nil => intro w c; simp [processBatch.saveLoop]
  | cons event rest ih =>
    intro w c
    rw [processBatch.saveLoop]
    split
    · obtain ⟨h1, h2, h3, h4, h5, h6⟩ := ih
        { w with saved := w.saved ++ [event], log := w.log ++ [LogLine.saveError ‹_›] }
        { c with errorCount := c.errorCount + 1 }
      exact ⟨h1, h2, h3, h4, h5, by rw [h6]; simp⟩
    · obtain ⟨h1, h2, h3, h4, h5, h6⟩ := ih { w with saved := w.saved ++ [event] }
        { c with successCount := c.successCount + 1
                 clickCounts := bumpCount c.clickCounts event.ShortCode }
      exact ⟨h1, h2, h3, h4, h5, by rw [h6]; simp⟩

theorem incrementLoop_frame (st : Storage) (shortCode : GoString) (count : Nat) :
    ∀ w : ClickAnalyticsWorker,
      (processBatch.incrementLoop st shortCode count w).eventChannel = w.eventChannel ∧
      (processBatch.incrementLoop st shortCode count w).quit = w.quit ∧
      (processBatch.incrementLoop st shortCode count w).isRunning = w.isRunning ∧
      (processBatch.incrementLoop st shortCode count w).workers = w.workers ∧
      (processBatch.incrementLoop st shortCode count w).saved = w.saved ∧
      (processBatch.incrementLoop st shortCode count w).increments =
        w.increments ++ List.replicate count shortCode := by
  induction count with
  | zero => intro w; simp [processBatch.incrementLoop]
  | succ count ih =>
    intro w
    rw [processBatch.incrementLoop]
    split
    · obtain ⟨h1, h2, h3, h4, h5, h6⟩ := ih
        { w with increments := w.increments ++ [shortCode]
                 log := w.log ++ [LogLine.incrementError shortCode ‹_›] }
      exact ⟨h1, h2, h3, h4, h5, by rw [h6]; simp [List.replicate_succ]⟩
    · obtain ⟨h1, h2, h3, h4, h5, h6⟩ := ih { w with increments := w.increments ++ [shortCode] }
      exact ⟨h1, h2, h3, h4, h5, by rw [h6]; simp [List.replicate_succ]⟩

theorem rangeLoop_frame (st : Storage) (clickCounts : List (GoString × Nat))
    (order : List GoString) :
    ∀ w : ClickAnalyticsWorker,
      (processBatch.rangeLoop st clickCounts order w).eventChannel = w.eventChannel ∧
      (processBatch.rangeLoop st clickCounts order w).quit = w.quit ∧
      (processBatch.rangeLoop st clickCounts order w).isRunning = w.isRunning ∧
      (processBatch.rangeLoop st clickCounts order w).workers = w.workers ∧
      (processBatch.rangeLoop st clickCounts order w).saved = w.saved ∧
      (processBatch.rangeLoop st clickCounts order w).increments =
        w.increments ++
          order.flatMap (fun k => List.replicate (lookupCount clickCounts k) k) := by
  induction order with
  | nil => intro w; simp [processBatch.rangeLoop]
  | cons k rest ih =>
    intro w
    rw [processBatch.rangeLoop]
    obtain ⟨h1, h2, h3, h4, h5, h6⟩ :=
      ih (processBatch.incrementLoop st k (lookupCount clickCounts k) w)
    obtain ⟨g1, g2, g3, g4, g5, g6⟩ :=
      incrementLoop_frame st k (lookupCount clickCounts k) w
    exact ⟨h1.trans g1, h2.trans g2, h3.trans g3, h4.trans g4, h5.trans g5,
      by rw [h6, g6]; simp⟩

/-- What `processBatch` does to the pipeline: the queue, the signals, the flag and the
workers are untouched, the events of the batch are passed to `SaveClickEvent` once each, in
order, and the increments are those of the keys of the map, in the order of the range. -/
theorem processBatch_frame (st : Storage) (w : ClickAnalyticsWorker) (batch : List ClickEvent)
    (workerID : Int) :
    (w.processBatch st batch workerID).eventChannel = w.eventChannel ∧
    (w.processBatch st batch workerID).quit = w.quit ∧
    (w.processBatch st batch workerID).isRunning = w.isRunning ∧
    (w.processBatch st batch workerID).workers = w.workers ∧
    (w.processBatch st batch workerID).saved = w.saved ++ batch ∧
    (w.processBatch st batch workerID).increments =
      w.increments ++
        (st.rangeOrder ((processBatch.saveLoop st batch w
            { successCount := 0, errorCount := 0, clickCounts := [] }).2.clickCounts.map
              Prod.fst)).val.flatMap
          (fun k => List.replicate (lookupCount (processBatch.saveLoop st batch w
            { successCount := 0, errorCount := 0, clickCounts := [] }).2.clickCounts k) k) := by
  unfold ClickAnalyticsWorker.processBatch
  by_cases hlen : batch.length = 0
  · have hnil : batch = [] := List.length_eq_zero.mp hlen
    subst hnil
    simp [processBatch.saveLoop]
    have := (st.rangeOrder []).property
    rw [List.perm_nil] at this
    rw [this]
    simp
  · rw [if_neg hlen]
    obtain ⟨h1, h2, h3, h4, h5, h6⟩ := saveLoop_frame st batch w
      { successCount := 0, errorCount := 0, clickCounts := [] }
    obtain ⟨g1, g2, g3, g4, g5, g6⟩ := rangeLoop_frame st
      (processBatch.saveLoop st batch w
        { successCount := 0, errorCount := 0, clickCounts := [] }).2.clickCounts
      (st.rangeOrder ((processBatch.saveLoop st batch w
        { successCount := 0, errorCount := 0, clickCounts := [] }).2.clickCounts.map
          Prod.fst)).val
      (processBatch.saveLoop st batch w
        { successCount := 0, errorCount := 0, clickCounts := [] }).1
    exact ⟨g1.trans h1, g2.trans h2, g3.trans h3, g4.trans h4, g5.trans h6,
      by rw [g6, h5]⟩

/-! ### The click counters of a batch -/

theorem lookupCount_bumpCount (clickCounts : List (GoString × Nat)) (k c : GoString) :
    lookupCount (bumpCount clickCounts k) c =
      lookupCount clickCounts c + (if k = c then 1 else 0) := by
  induction clickCounts with
  | nil => simp [bumpCount, lookupCount]
  | cons p rest ih =>
    obtain ⟨k1, v⟩ := p
    by_cases h1 : k1 = k
    · subst h1
      by_cases h2 : k1 = c
      · simp [bumpCount, lookupCount, h2]
      · simp [bumpCount, lookupCount, h2]
    · by_cases h2 : k1 = c
      · subst h2
        have h3 : ¬ k = k1 := fun h => h1 h.symm
        simp [bumpCount, lookupCount, h1, h3]
      · simp [bumpCount, lookupCount, h1, h2, ih]

theorem lookupCount_of_not_mem (clickCounts : List (GoString × Nat)) (c : GoString)
    (h : c ∉ clickCounts.map Prod.fst) : lookupCount clickCounts c = 0 := by
  induction clickCounts with
  | nil => rfl
  | cons p rest ih =>
    obtain ⟨k1, v⟩ := p
    simp only [List.map_cons, List.mem_cons, not_or] at h
    have h1 : ¬ k1 = c := fun e => h.1 e.symm
    simp [lookupCount, h1, ih h.2]

theorem keys_bumpCount (clickCounts : List (GoString × Nat)) (k : GoString) :
    (bumpCount clickCounts k).map Prod.fst =
      if k ∈ clickCounts.map Prod.fst then clickCounts.map Prod.fst
      else clickCounts.map Prod.fst ++ [k] := by
  induction clickCounts with
  | nil => simp [bumpCount]
  | cons p rest ih =>
    obtain ⟨k1, v⟩ := p
    by_cases h1 : k1 = k
    · subst h1; simp [bumpCount]
    · have h2 : ¬ k = k1 := fun e => h1 e.symm
      simp only [bumpCount, h1, if_false, List.map_cons, ih, List.mem_cons, h2, false_or]
      split_ifs <;> simp

theorem nodup_bumpCount (clickCounts : List (GoString × Nat)) (k : GoString)
    (h : (clickCounts.map Prod.fst).Nodup) : ((bumpCount clickCounts k).map Prod.fst).Nodup := by
  rw [keys_bumpCount]
  split_ifs with hk
  · exact h
  · exact List.Nodup.append h (List.nodup_singleton k) (by simpa using hk)

/-- The number of members of `l` equal to `a`, as a count. -/
theorem count_eq_filter_length {α : Type} [DecidableEq α] (l : List α) (a : α) :
    l.count a = (l.filter (fun x => decide (x = a))).length := by
  induction l with
  | nil => rfl
  | cons x rest ih =>
    by_cases hx : x = a
    · simp [hx, ih]
    · simp [hx, ih, List.count_cons]

theorem filter_length_of_nodup (l : List GoString) (c : GoString) (h : l.Nodup) :
    (l.filter (fun x => decide (x = c))).length = if c ∈ l then 1 else 0 := by
  induction l with
  | nil => simp
  | cons x rest ih =>
    rw [List.nodup_cons] at h
    by_cases hx : x = c
    · subst hx
      simp [ih h.2, h.1]
    · have hx2 : ¬ c = x := fun e => hx e.symm
      simp [hx, hx2, ih h.2]

/-- After the save loop the map counts, for every short code, the events of the batch with
that code whose save succeeded. -/
theorem saveLoop_counts (st : Storage) (batch : List ClickEvent) :
    ∀ (w : ClickAnalyticsWorker) (c : BatchCounts), (c.clickCounts.map Prod.fst).Nodup →
      (((processBatch.saveLoop st batch w c).2.clickCounts).map Prod.fst).Nodup ∧
      ∀ code, lookupCount (processBatch.saveLoop st batch w c).2.clickCounts code =
        lookupCount c.clickCounts code +
          ((succeeded st w.saved.length batch).filter
            (fun e => decide (e.ShortCode = code))).length := by
  induction batch with
  | nil => intro w c h; simp [processBatch.saveLoop, succeeded, h]
  | cons event rest ih =>
    intro w c h
    rw [processBatch.saveLoop, succeeded]
    rcases hsave : st.SaveClickEvent w.saved.length event with _ | err
    · simp only
      obtain ⟨h1, h2⟩ := ih { w with saved := w.saved ++ [event] }
        { c with successCount := c.successCount + 1
                 clickCounts := bumpCount c.clickCounts event.ShortCode }
        (nodup_bumpCount _ _ h)
      refine ⟨h1, fun code => ?_⟩
      rw [h2 code, lookupCount_bumpCount]
      simp only [List.length_append, List.length_singleton]
      by_cases hc : event.ShortCode = code
      · simp [hc]; omega
      · simp [hc]
    · simp only
      obtain ⟨h1, h2⟩ := ih
        { w with saved := w.saved ++ [event], log := w.log ++ [LogLine.saveError err] }
        { c with errorCount := c.errorCount + 1 } h
      refine ⟨h1, fun code => ?_⟩
      rw [h2 code]
      simp

theorem filter_flatMap_replicate (order : List GoString) (n : GoString → Nat) (c : GoString) :
    ((order.flatMap (fun k => List.replicate (n k) k)).filter
        (fun x => decide (x = c))).length =
      (order.filter (fun x => decide (x = c))).length * n c := by
  induction order with
  | nil => simp
  | cons k rest ih =>
    simp only [List.flatMap_cons, List.filter_append, List.length_append, ih]
    by_cases hk : k = c
    · subst hk
      simp [List.filter_cons]
      ring
    · have : (List.replicate (n k) k).filter (fun x => decide (x = c)) = [] := by
        rw [List.filter_eq_nil_iff]
        intro x hx
        rw [List.eq_of_mem_replicate hx]
        simpa using hk
      simp [this, hk]

/-- Claim C14: for every batch and every pattern of results of the storage calls,
`processBatch` passes each event of the batch to `SaveClickEvent` exactly once, in batch
order, and then calls `IncrementClickCount(c)` for every short code `c` exactly as many
times as the batch has events with code `c` whose save succeeded (not at all when none
succeeded): the increments made are a rearrangement of the short codes of the events saved.
The results of the increment calls have no influence on the calls made: a failed increment
is logged and the remaining ones follow. -/
theorem processBatch_accounting (st : Storage) (w : ClickAnalyticsWorker)
    (batch : List ClickEvent) (workerID : Int) :
    (w.processBatch st batch workerID).saved = w.saved ++ batch ∧
    (∃ incs, (w.processBatch st batch workerID).increments = w.increments ++ incs ∧
      incs.Perm ((succeeded st w.saved.length batch).map (fun e => e.ShortCode)) ∧
      ∀ code, (incs.filter (fun x => decide (x = code))).length =
        ((succeeded st w.saved.length batch).filter
          (fun e => decide (e.ShortCode = code))).length) ∧
    (∀ st2 : Storage, st2.SaveClickEvent = st.SaveClickEvent → st2.rangeOrder = st.rangeOrder →
      (w.processBatch st2 batch workerID).increments =
        (w.processBatch st batch workerID).increments ∧
      (w.processBatch st2 batch workerID).saved = (w.processBatch st batch workerID).saved) := by
  obtain ⟨_, _, _, _, hsaved, hincs⟩ := processBatch_frame st w batch workerID
  obtain ⟨hnodup, hlookup⟩ := saveLoop_counts st batch w
    { successCount := 0, errorCount := 0, clickCounts := [] } (by simp)
  have hcount : ∀ code,
      (((st.rangeOrder ((processBatch.saveLoop st batch w
            { successCount := 0, errorCount := 0, clickCounts := [] }).2.clickCounts.map
              Prod.fst)).val.flatMap
          (fun k => List.replicate (lookupCount (processBatch.saveLoop st batch w
            { successCount := 0, errorCount := 0, clickCounts := [] }).2.clickCounts k) k)).filter
        (fun x => decide (x = code))).length =
      ((succeeded st w.saved.length batch).filter
        (fun e => decide (e.ShortCode = code))).length := by
    intro code
    have hperm := ((st.rangeOrder ((processBatch.saveLoop st batch w
        { successCount := 0, errorCount := 0, clickCounts := [] }).2.clickCounts.map
          Prod.fst)).property.filter (fun x => decide (x = code))).length_eq
    rw [filter_flatMap_replicate, hperm, filter_length_of_nodup _ code hnodup, hlookup code]
    simp only [lookupCount, Nat.zero_add]
    split_ifs with hmem
    · rw [Nat.one_mul]
    · have h0 := lookupCount_of_not_mem _ code hmem
      rw [hlookup code] at h0
      simp only [lookupCount, Nat.zero_add] at h0
      rw [h0]
  refine ⟨hsaved, ⟨_, hincs, ?_, hcount⟩, ?_⟩
  · rw [List.perm_iff_count]
    intro code
    rw [count_eq_filter_length, count_eq_filter_length, hcount code, List.filter_map,
      List.length_map]
    rfl
  · intro st2 h1 h2
    obtain ⟨_, _, _, _, hsaved2, hincs2⟩ := processBatch_frame st2 w batch workerID
    have hloop : ∀ (l : List ClickEvent) (w1 : ClickAnalyticsWorker) (c : BatchCounts),
        processBatch.saveLoop st2 l w1 c = processBatch.saveLoop st l w1 c := by
      intro l
      induction l with
      | nil => intro w1 c; rfl
      | cons e rest ih =>
        intro w1 c
        rw [processBatch.saveLoop, processBatch.saveLoop, h1]
        split <;> exact ih _ _
    refine ⟨?_, by rw [hsaved2, hsaved]⟩
    rw [hincs2, hincs, hloop batch w _, h2]

/-! ### The queue -/

theorem iterateWorker_eventChannel (st : Storage) (w : ClickAnalyticsWorker) (i : Nat)
    (ws : WorkerState) (c : SelectCase) :
    (w.iterateWorker st i ws c).eventChannel = w.eventChannel ∧
    (w.iterateWorker st i ws c).quit = w.quit ∧
    (w.iterateWorker st i ws c).isRunning = w.isRunning := by
  unfold ClickAnalyticsWorker.iterateWorker
  simp only
  split
  · rename_i batch _
    obtain ⟨h1, h2, h3, _⟩ := processBatch_frame st
      { w with workers := w.workers.set i (worker.iterate w.batchSize ws c).1 } batch ws.id
    exact ⟨h1, h2, h3⟩
  · exact ⟨rfl, rfl, rfl⟩

/-- A worker that can be blocked in its receive is a worker of the pipeline that has not
returned, and then the queue is empty and `quit` is not closed. -/
theorem waitingWorker_some (w : ClickAnalyticsWorker) (i : Nat) (ws : WorkerState)
    (h : w.waitingWorker i = some ws) :
    w.workers[i]? = some ws ∧ ws.exited = false ∧ w.quit.closed = false ∧
      w.eventChannel.buf = [] := by
  unfold ClickAnalyticsWorker.waitingWorker at h
  rcases hws : w.workers[i]? with _ | ws1
  · rw [hws] at h
    exact absurd h (by simp)
  · rw [hws] at h
    simp only at h
    by_cases hc : (ws1.exited || w.quit.closed || !w.eventChannel.buf.isEmpty) = true
    · rw [if_pos hc] at h
      exact absurd h (by simp)
    · rw [if_neg hc] at h
      simp only [Option.some.injEq] at h
      subst h
      simp only [Bool.or_eq_true, Bool.not_eq_true', not_or, Bool.not_eq_true,
        Bool.not_eq_false, List.isEmpty_iff] at hc
      exact ⟨rfl, hc.1.1, hc.1.2, hc.2⟩

/-- `Enqueue` on an open queue when a worker is blocked in its receive: the worker takes the
event. -/
theorem Enqueue_handover (st : Storage) (w : ClickAnalyticsWorker) (event : Option ClickEvent)
    (i : Nat) (ws : WorkerState) (hopen : w.eventChannel.closed = false)
    (hws : w.waitingWorker i = some ws) :
    w.Enqueue st event (some i) = some (w.iterateWorker st i ws (SelectCase.event event)) := by
  simp [ClickAnalyticsWorker.Enqueue, hopen, hws]

/-- `Enqueue` on an open queue when no worker is blocked in its receive: the event goes to
the buffer if there is room. -/
theorem Enqueue_buffer (st : Storage) (w : ClickAnalyticsWorker) (event : Option ClickEvent)
    (receiver : Option Nat) (hopen : w.eventChannel.closed = false)
    (hno : ∀ i, receiver = some i → w.waitingWorker i = none) :
    w.Enqueue st event receiver =
      if w.eventChannel.buf.length < w.eventChannel.cap then
        some { w with
          eventChannel := { w.eventChannel with buf := w.eventChannel.buf ++ [event] } }
      else event.map fun e => { w with log := w.log ++ [LogLine.queueFull e.ShortCode] } := by
  have hb : (receiver.bind fun i => (w.waitingWorker i).map fun ws => (i, ws)) = none := by
    cases receiver with
    | none => rfl
    | some i => simp [hno i rfl]
  unfold ClickAnalyticsWorker.Enqueue
  rw [hb]
  simp only [hopen, Bool.false_eq_true, if_false]
  cases event <;> rfl

/-- What an `Enqueue` that returns leaves behind: the queue was open, the signal and the
flag are untouched, and the queue is either unchanged or one event longer, within its
capacity. -/
theorem Enqueue_frame (st : Storage) (w w1 : ClickAnalyticsWorker) (event : Option ClickEvent)
    (receiver : Option Nat) (h : w.Enqueue st event receiver = some w1) :
    w.eventChannel.closed = false ∧ w1.quit = w.quit ∧ w1.isRunning = w.isRunning ∧
      (w1.eventChannel = w.eventChannel ∨
        (w.eventChannel.buf.length < w.eventChannel.cap ∧
          w1.eventChannel = { w.eventChannel with buf := w.eventChannel.buf ++ [event] })) := by
  have hopen : w.eventChannel.closed = false := by
    cases hc : w.eventChannel.closed with
    | false => rfl
    | true =>
      simp only [ClickAnalyticsWorker.Enqueue, hc, if_true] at h
      exact absurd h (by simp)
  refine ⟨hopen, ?_⟩
  by_cases hw : ∃ i ws, receiver = some i ∧ w.waitingWorker i = some ws
  · obtain ⟨i, ws, rfl, hws⟩ := hw
    rw [Enqueue_handover st w event i ws hopen hws] at h
    simp only [Option.some.injEq] at h
    subst h
    obtain ⟨h1, h2, h3⟩ := iterateWorker_eventChannel st w i ws (SelectCase.event event)
    exact ⟨h2, h3, Or.inl h1⟩
  · have hno : ∀ i, receiver = some i → w.waitingWorker i = none := by
      intro i hi
      cases hws : w.waitingWorker i with
      | none => rfl
      | some ws => exact absurd ⟨i, ws, hi, hws⟩ hw
    rw [Enqueue_buffer st w event receiver hopen hno] at h
    by_cases hlt : w.eventChannel.buf.length < w.eventChannel.cap
    · rw [if_pos hlt] at h
      simp only [Option.some.injEq] at h
      subst h
      exact ⟨rfl, rfl, Or.inr ⟨hlt, rfl⟩⟩
    · rw [if_neg hlt] at h
      cases event with
      | none => exact absurd h (by simp)
      | some e =>
        simp only [Option.map_some', Option.some.injEq] at h
        subst h
        exact ⟨rfl, rfl, Or.inl rfl⟩

/-- `Enqueue` of an event that is not `nil` on an open queue returns. -/
theorem Enqueue_returns (st : Storage) (w : ClickAnalyticsWorker) (e : ClickEvent)
    (receiver : Option Nat) (hopen : w.eventChannel.closed = false) :
    ∃ w1, w.Enqueue st (some e) receiver = some w1 := by
  by_cases hw : ∃ i ws, receiver = some i ∧ w.waitingWorker i = some ws
  · obtain ⟨i, ws, rfl, hws⟩ := hw
    exact ⟨_, Enqueue_handover st w (some e) i ws hopen hws⟩
  · have hno : ∀ i, receiver = some i → w.waitingWorker i = none := by
      intro i hi
      cases hws : w.waitingWorker i with
      | none => rfl
      | some ws => exact absurd ⟨i, ws, hi, hws⟩ hw
    rw [Enqueue_buffer st w (some e) receiver hopen hno]
    by_cases hlt : w.eventChannel.buf.length < w.eventChannel.cap
    · rw [if_pos hlt]; exact ⟨_, rfl⟩
    · rw [if_neg hlt]; exact ⟨_, rfl⟩

/-- The iteration of a worker for an event that is not `nil`: the event joins the batch, and
when the batch reaches the batch size it is flushed, which passes its events to
`SaveClickEvent`. -/
theorem iterateWorker_event (st : Storage) (w : ClickAnalyticsWorker) (i : Nat)
    (ws : WorkerState) (e : ClickEvent) :
    (((ws.batch.length : Int) + 1 < w.batchSize ∧
        w.iterateWorker st i ws (SelectCase.event (some e)) =
          { w with workers := w.workers.set i { ws with batch := ws.batch ++ [e] } }) ∨
      (w.batchSize ≤ (ws.batch.length : Int) + 1 ∧
        (w.iterateWorker st i ws (SelectCase.event (some e))).workers =
          w.workers.set i { ws with batch := [] } ∧
        (w.iterateWorker st i ws (SelectCase.event (some e))).saved =
          w.saved ++ (ws.batch ++ [e]))) := by
  unfold ClickAnalyticsWorker.iterateWorker
  simp only [worker.iterate, List.length_append, List.length_singleton, Nat.cast_add,
    Nat.cast_one]
  by_cases hge : (ws.batch.length : Int) + 1 ≥ w.batchSize
  · right
    rw [if_pos hge]
    simp only
    obtain ⟨_, _, _, h4, h5, _⟩ := processBatch_frame st
      { w with workers := w.workers.set i { ws with batch := [] } } (ws.batch ++ [e]) ws.id
    exact ⟨hge, h4, h5⟩
  · left
    rw [if_neg hge]
    exact ⟨by omega, rfl⟩

/-- No step of the system lets the queue grow past its capacity, changes the capacity, or
closes the queue. -/
theorem step_queue (st : Storage) (w w1 : ClickAnalyticsWorker) (s : Step)
    (h : w.step st s = some w1) (hopen : w.eventChannel.closed = false)
    (hcap : w.eventChannel.buf.length ≤ w.eventChannel.cap) :
    w1.eventChannel.closed = false ∧ w1.eventChannel.cap = w.eventChannel.cap ∧
      w1.eventChannel.buf.length ≤ w1.eventChannel.cap := by
  cases s with
  | Enqueue event receiver =>
    simp only [ClickAnalyticsWorker.step] at h
    obtain ⟨_, _, _, hch⟩ := Enqueue_frame st w w1 event receiver h
    rcases hch with hch | ⟨hlt, hch⟩
    · rw [hch]
      exact ⟨hopen, rfl, hcap⟩
    · rw [hch]
      refine ⟨hopen, rfl, ?_⟩
      simp only [List.length_append, List.length_singleton]
      omega
  | receive i =>
    simp only [ClickAnalyticsWorker.step] at h
    split at h
    · cases h
    · rename_i ws _
      by_cases hex : ws.exited = true
      · rw [if_pos hex] at h; cases h
      · rw [if_neg hex] at h
        rcases hbuf : w.eventChannel.buf with _ | ⟨event, rest⟩
        · rw [hbuf] at h
          simp only [hopen, Bool.false_eq_true, if_false] at h
          cases h
        · rw [hbuf] at h
          simp only [Option.some.injEq] at h
          subst h
          obtain ⟨h1, _, _⟩ := iterateWorker_eventChannel st
            { w with eventChannel := { w.eventChannel with buf := rest } } i ws
            (SelectCase.event event)
          rw [h1]
          rw [hbuf] at hcap
          simp only [List.length_cons] at hcap
          exact ⟨hopen, rfl, by show rest.length ≤ w.eventChannel.cap; omega⟩
  | tick i =>
    simp only [ClickAnalyticsWorker.step] at h
    split at h
    · cases h
    · rename_i ws _
      split_ifs at h
      simp only [Option.some.injEq] at h
      subst h
      obtain ⟨h1, _, _⟩ := iterateWorker_eventChannel st w i ws SelectCase.tick
      rw [h1]
      exact ⟨hopen, rfl, hcap⟩
  | quit i =>
    simp only [ClickAnalyticsWorker.step] at h
    split at h
    · cases h
    · rename_i ws _
      split_ifs at h
      simp only [Option.some.injEq] at h
      subst h
      obtain ⟨h1, _, _⟩ := iterateWorker_eventChannel st w i ws SelectCase.quit
      rw [h1]
      exact ⟨hopen, rfl, hcap⟩

theorem exec_queue (st : Storage) (steps : List Step) :
    ∀ (w w1 : ClickAnalyticsWorker), w.exec st steps = some w1 →
      w.eventChannel.closed = false → w.eventChannel.buf.length ≤ w.eventChannel.cap →
      w1.eventChannel.closed = false ∧ w1.eventChannel.cap = w.eventChannel.cap ∧
        w1.eventChannel.buf.length ≤ w1.eventChannel.cap := by
  induction steps with
  | nil =>
    intro w w1 h hopen hcap
    simp only [ClickAnalyticsWorker.exec, Option.some.injEq] at h
    subst h
    exact ⟨hopen, rfl, hcap⟩
  | cons s rest ih =>
    intro w w1 h hopen hcap
    rw [ClickAnalyticsWorker.exec] at h
    split at h
    · cases h
    · rename_i w2 hstep
      obtain ⟨h1, h2, h3⟩ := step_queue st w w2 s hstep hopen hcap
      obtain ⟨g1, g2, g3⟩ := ih w2 w1 h h1 h3
      exact ⟨g1, g2.trans h2, g3⟩

set_option maxRecDepth 100000 in
/-- Claim C13 fails as stated, in two ways.  A pipeline made with capacity 0 and one worker
and started is running and its queue holds as many events as its capacity, yet `Enqueue`
with the worker blocked in its receive does not drop the event: the worker takes it, no
warning is logged, and the event is saved at the next flush.  A pipeline made with capacity
2, started, stopped and started again has its running flag set and an empty queue, yet
`Enqueue` panics on the closed queue instead of appending the event. -/
theorem Enqueue_running_counterexample :
    (∃ w0 w1 w2, NewClickAnalyticsWorker 1 0 = some w0 ∧
      w0.Start.isRunning = true ∧ w0.Start.GetQueueSize = w0.Start.eventChannel.cap ∧
      w0.Start.Enqueue sampleStorage (some (sampleEvent "xyz789")) (some 0) = some w1 ∧
      w1 = { w0.Start with
        workers := [{ id := 0, batch := [sampleEvent "xyz789"], exited := false }] } ∧
      w1.log = [] ∧
      w1.step sampleStorage (Step.tick 0) = some w2 ∧ w2.saved = [sampleEvent "xyz789"]) ∧
    (∃ w0 w1, NewClickAnalyticsWorker 1 2 = some w0 ∧
      w0.Start.Stop sampleStorage [Step.quit 0] = some w1 ∧
      w1.Start.isRunning = true ∧ w1.Start.GetQueueSize = 0 ∧ w1.Start.eventChannel.cap = 2 ∧
      w1.Start.Enqueue sampleStorage (some (sampleEvent "xyz789")) none = none ∧
      w1.Start.Enqueue sampleStorage (some (sampleEvent "xyz789")) (some 1) = none) :=
  ⟨⟨_, _, _, rfl, rfl, rfl, rfl, by decide, by decide, rfl, by decide⟩,
    ⟨_, _, rfl, rfl, by decide, by decide, by decide, by decide, by decide⟩⟩

/-- Claim C13, amended: on a pipeline whose queue is open (it has not been stopped), of
capacity `C`.  If a worker is blocked in its receive, which happens only while the queue is
empty, `Enqueue` of an event hands it to that worker and leaves the queue as it is: the
event joins the batch of the worker, which is flushed when it reaches the batch size.
Otherwise `Enqueue` on a queue holding fewer than `C` events appends the event at the tail
and changes nothing else, and `Enqueue` on a queue holding `C` events leaves the queue as it
is and records a warning for the dropped event.  So `Enqueue` returns, after it the queue
size is at most `C`, and a queue that held `C` events still holds the same `C` events.  In
every run of a pipeline made by `NewClickAnalyticsWorker(.., C)` and started, the queue
stays open and its size stays at most `C`. -/
theorem Enqueue_bounded_queue (st : Storage) (w : ClickAnalyticsWorker) (e : ClickEvent)
    (receiver : Option Nat) (hopen : w.eventChannel.closed = false) :
    (∀ i ws, receiver = some i → w.waitingWorker i = some ws →
      w.eventChannel.buf = [] ∧
      w.Enqueue st (some e) receiver =
        some (w.iterateWorker st i ws (SelectCase.event (some e))) ∧
      (w.iterateWorker st i ws (SelectCase.event (some e))).eventChannel = w.eventChannel ∧
      (((ws.batch.length : Int) + 1 < w.batchSize ∧
          w.iterateWorker st i ws (SelectCase.event (some e)) =
            { w with workers := w.workers.set i { ws with batch := ws.batch ++ [e] } }) ∨
        (w.batchSize ≤ (ws.batch.length : Int) + 1 ∧
          (w.iterateWorker st i ws (SelectCase.event (some e))).workers =
            w.workers.set i { ws with batch := [] } ∧
          (w.iterateWorker st i ws (SelectCase.event (some e))).saved =
            w.saved ++ (ws.batch ++ [e])))) ∧
    ((∀ i, receiver = some i → w.waitingWorker i = none) →
      (w.eventChannel.buf.length < w.eventChannel.cap →
        w.Enqueue st (some e) receiver =
          some { w with
            eventChannel := { w.eventChannel with buf := w.eventChannel.buf ++ [some e] } }) ∧
      (w.eventChannel.buf.length = w.eventChannel.cap →
        w.Enqueue st (some e) receiver =
          some { w with log := w.log ++ [LogLine.queueFull e.ShortCode] })) ∧
    (w.GetQueueSize ≤ w.eventChannel.cap →
      ∃ w1, w.Enqueue st (some e) receiver = some w1 ∧
        w1.eventChannel.cap = w.eventChannel.cap ∧
        w1.GetQueueSize ≤ w.eventChannel.cap ∧
        (w.GetQueueSize = w.eventChannel.cap →
          w1.GetQueueSize = w.eventChannel.cap ∧ w1.eventChannel = w.eventChannel)) ∧
    (∀ (workerCount bufferSize : Int) (st1 : Storage) (steps : List Step)
        (w0 w1 : ClickAnalyticsWorker),
      NewClickAnalyticsWorker workerCount bufferSize = some w0 →
      w0.Start.exec st1 steps = some w1 →
      w0.Start.isRunning = true ∧ w1.eventChannel.closed = false ∧
        (w1.GetQueueSize : Int) ≤ bufferSize) := by
  refine ⟨?_, ?_, ?_, ?_⟩
  · intro i ws hr hws
    subst hr
    exact ⟨(waitingWorker_some w i ws hws).2.2.2, Enqueue_handover st w (some e) i ws hopen hws,
      (iterateWorker_eventChannel st w i ws (SelectCase.event (some e))).1,
      iterateWorker_event st w i ws e⟩
  · intro hno
    have hb := Enqueue_buffer st w (some e) receiver hopen hno
    constructor
    · intro hlt
      rw [hb, if_pos hlt]
    · intro heq
      rw [hb, if_neg (by omega)]
      rfl
  · intro hle
    unfold ClickAnalyticsWorker.GetQueueSize at hle ⊢
    obtain ⟨w1, hw1⟩ := Enqueue_returns st w e receiver hopen
    obtain ⟨_, _, _, hch⟩ := Enqueue_frame st w w1 (some e) receiver hw1
    refine ⟨w1, hw1, ?_⟩
    rcases hch with hch | ⟨hlt, hch⟩
    · rw [hch]
      exact ⟨rfl, hle, fun h => ⟨h, rfl⟩⟩
    · rw [hch]
      refine ⟨rfl, ?_, fun h => ?_⟩
      · simp only [List.length_append, List.length_singleton]
        omega
      · omega
  · intro workerCount bufferSize st1 steps w0 w1 hnew hexec
    unfold NewClickAnalyticsWorker at hnew
    split_ifs at hnew with hneg
    simp only [Option.some.injEq] at hnew
    subst hnew
    obtain ⟨h1, h2, h3⟩ := exec_queue st1 steps _ w1 hexec rfl (Nat.zero_le _)
    refine ⟨rfl, h1, ?_⟩
    unfold ClickAnalyticsWorker.GetQueueSize
    rw [h2] at h3
    have hcap : (ClickAnalyticsWorker.Start
        { eventChannel := { buf := [], cap := bufferSize.toNat, closed := false }
          workerCount := workerCount, batchSize := 100, flushInterval := 5000000000
          quit := { buf := [], cap := 0, closed := false }, isRunning := false, workers := []
          saved := [], increments := [], log := [] }).eventChannel.cap = bufferSize.toNat := rfl
    rw [hcap] at h3
    omega

/-! ### Start and Stop -/

/-- Claim C15: `Start()` on a pipeline whose running flag is set changes nothing and spawns
no worker, so on a pipeline that is not running two `Start()` calls in succession spawn the
workers of the first call only: `workerCount` of them (none for a count below 1), which on
a new pipeline are all its workers.  `Stop()` on a pipeline whose running flag is clear
returns at once and changes nothing: no signal is closed, the queue is not closed. -/
theorem Start_Stop_guarded (w : ClickAnalyticsWorker) (st : Storage) (schedule : List Step) :
    (w.isRunning = true → w.Start = w) ∧
    (w.isRunning = false →
      w.Start.isRunning = true ∧ w.Start.Start = w.Start ∧
      w.Start.Start.workers.length = w.workers.length + w.workerCount.toNat ∧
      (0 ≤ w.workerCount →
        (w.Start.Start.workers.length : Int) = w.workers.length + w.workerCount)) ∧
    (∀ (workerCount bufferSize : Int) (w0 : ClickAnalyticsWorker),
      NewClickAnalyticsWorker workerCount bufferSize = some w0 →
      w0.Start.Start.workers.length = workerCount.toNat ∧
      (0 ≤ workerCount → (w0.Start.Start.workers.length : Int) = workerCount)) ∧
    (w.isRunning = false → w.Stop st schedule = some w) := by
  have hrun : w.isRunning = true → w.Start = w := by
    intro h
    simp [ClickAnalyticsWorker.Start, h]
  have hlen : ∀ w2 : ClickAnalyticsWorker, w2.isRunning = false →
      w2.Start.isRunning = true ∧ w2.Start.Start = w2.Start ∧
      w2.Start.Start.workers.length = w2.workers.length + w2.workerCount.toNat := by
    intro w2 h
    have h1 : w2.Start.isRunning = true := by simp [ClickAnalyticsWorker.Start, h]
    have h2 : w2.Start.Start = w2.Start := by
      rw [ClickAnalyticsWorker.Start, if_pos h1]
    refine ⟨h1, h2, ?_⟩
    rw [h2]
    simp [ClickAnalyticsWorker.Start, h]
  refine ⟨hrun, ?_, ?_, ?_⟩
  · intro h
    obtain ⟨h1, h2, h3⟩ := hlen w h
    refine ⟨h1, h2, h3, fun h0 => ?_⟩
    rw [h3]
    push_cast
    rw [Int.toNat_of_nonneg h0]
  · intro workerCount bufferSize w0 hnew
    unfold NewClickAnalyticsWorker at hnew
    split_ifs at hnew with hneg
    simp only [Option.some.injEq] at hnew
    obtain ⟨_, _, h3⟩ := hlen w0 (by rw [← hnew])
    have hw : w0.workers = [] := by rw [← hnew]
    have hc : w0.workerCount = workerCount := by rw [← hnew]
    rw [hw, hc] at h3
    simp only [List.length_nil, Nat.zero_add] at h3
    refine ⟨h3, fun h0 => ?_⟩
    rw [h3]
    exact Int.toNat_of_nonneg h0
  · intro h
    simp [ClickAnalyticsWorker.Stop, h]

/-! ### Stop and the events still in the queue -/

set_option maxRecDepth 100000 in
/-- Claim C16 at the failing execution: a pipeline with one worker and a queue of capacity
10 is started, one event (fewer than the batch size of 100) is enqueued before the worker
blocks in its receive, so that it goes to the buffer, and `Stop()` is called; the `select`
of the worker, with both the quit signal and the event ready, takes the quit signal.
`Stop()` returns with `SaveClickEvent` never called and the event still in the closed
queue. -/
theorem Stop_leaves_queued_event :
    ∃ w0 w1 w2, NewClickAnalyticsWorker 1 10 = some w0 ∧
      w0.Start.exec sampleStorage [Step.Enqueue (some (sampleEvent "abc123")) none] = some w1 ∧
      w1.Stop sampleStorage [Step.quit 0] = some w2 ∧
      w2.saved = [] ∧ w2.GetQueueSize = 1 ∧
      w2.eventChannel.buf = [some (sampleEvent "abc123")] ∧
      w2.eventChannel.closed = true ∧ w2.isRunning = false ∧
      w2.workers = [{ id := 0, batch := [], exited := true }] ∧
      (1 : Int) < w2.batchSize ∧ 1 ≤ w2.eventChannel.cap :=
  ⟨_, _, _, rfl, rfl, rfl, by decide⟩

/-! ### The worker loop -/

/-- The worker loop from any state that has not returned and whose batch is below the batch
size. -/
theorem worker_run_invariant (B : Int) (hB : 1 ≤ B) (taken : List SelectCase) :
    ∀ ws : WorkerState, ws.exited = false → (ws.batch.length : Int) < B →
      ((worker.run B ws taken).1.exited = false →
        ((worker.run B ws taken).1.batch.length : Int) < B) ∧
      (∀ b ∈ (worker.run B ws taken).2, b ≠ [] ∧ (b.length : Int) ≤ B) ∧
      ((worker.run B ws taken).2.flatten ++
          (if (worker.run B ws taken).1.exited then [] else (worker.run B ws taken).1.batch) =
        ws.batch ++ received taken) ∧
      ((worker.run B ws taken).1.exited = true ↔ SelectCase.quit ∈ taken) ∧
      (worker.run B ws taken).1.id = ws.id := by
  induction taken with
  | nil =>
    intro ws hex hlen
    simp [worker.run, received, hex, hlen]
  | cons c rest ih =>
    intro ws hex hlen
    rw [worker.run]
    simp only [hex, Bool.false_eq_true, if_false]
    cases c with
    | quit =>
      have hrun : ∀ ws1 : WorkerState, ws1.exited = true →
          worker.run B ws1 rest = (ws1, []) := by
        intro ws1 h1
        cases rest with
        | nil => rfl
        | cons c2 rest2 => rw [worker.run, if_pos h1]
      simp only [worker.iterate]
      rw [hrun _ rfl]
      refine ⟨fun h => by simp at h, ?_, ?_, by simp, rfl⟩
      · intro b hbm
        by_cases hb : ws.batch.length > 0
        · simp only [hb, if_true, Option.toList_some, List.append_nil,
            List.mem_singleton] at hbm
          subst hbm
          exact ⟨List.ne_nil_of_length_pos hb, by omega⟩
        · simp [hb] at hbm
      · by_cases hb : ws.batch.length > 0
        · simp [hb, received]
        · have hnil : ws.batch = [] := by
            rcases hbatch : ws.batch with _ | ⟨x, tl⟩
            · rfl
            · rw [hbatch] at hb; simp at hb
          simp [received, hnil]
    | tick =>
      simp only [worker.iterate]
      by_cases hb : ws.batch.length > 0
      · simp only [hb, if_true, Option.toList_some]
        obtain ⟨h1, h2, h3, h4, h5⟩ := ih { ws with batch := [] } hex (by simp; omega)
        refine ⟨h1, ?_, ?_, ?_, h5⟩
        · intro b hbm
          rcases List.mem_append.mp hbm with hbm | hbm
          · rw [List.mem_singleton] at hbm
            subst hbm
            exact ⟨List.ne_nil_of_length_pos hb, by omega⟩
          · exact h2 b hbm
        · simp only [List.flatten_append, List.flatten_cons, List.flatten_nil, List.append_nil,
            List.append_assoc, received]
          rw [h3]
          rfl
        · rw [h4]; simp
      · simp only [hb, if_false, Option.toList_none, List.nil_append]
        obtain ⟨h1, h2, h3, h4, h5⟩ := ih ws hex hlen
        refine ⟨h1, h2, ?_, ?_, h5⟩
        · rw [h3]; rfl
        · rw [h4]; simp
    | event ev =>
      cases ev with
      | none =>
        simp only [worker.iterate, Option.toList_none, List.nil_append]
        obtain ⟨h1, h2, h3, h4, h5⟩ := ih ws hex hlen
        refine ⟨h1, h2, ?_, ?_, h5⟩
        · rw [h3]; rfl
        · rw [h4]; simp
      | some e =>
        simp only [worker.iterate]
        by_cases hfull : ((ws.batch ++ [e]).length : Int) ≥ B
        · simp only [hfull, if_true, Option.toList_some]
          obtain ⟨h1, h2, h3, h4, h5⟩ := ih { ws with batch := [] } hex (by simp; omega)
          refine ⟨h1, ?_, ?_, ?_, h5⟩
          · intro b hbm
            rcases List.mem_append.mp hbm with hbm | hbm
            · rw [List.mem_singleton] at hbm
              subst hbm
              refine ⟨by simp, ?_⟩
              simp only [List.length_append, List.length_singleton] at hfull ⊢
              push_cast at hfull ⊢
              omega
            · exact h2 b hbm
          · simp only [List.flatten_append, List.flatten_cons, List.flatten_nil,
              List.append_nil, List.append_assoc, received]
            rw [h3]
            simp
          · rw [h4]; simp
        · simp only [hfull, if_false, Option.toList_none, List.nil_append]
          obtain ⟨h1, h2, h3, h4, h5⟩ := ih { ws with batch := ws.batch ++ [e] } hex
            (by simpa using hfull)
          refine ⟨h1, h2, ?_, ?_, h5⟩
          · rw [h3]; simp [received]
          · rw [h4]; simp

/-- Claim C18: for the worker loop with batch size `B ≥ 1`, started with an empty batch, and
every sequence of cases its `select`s take (an event or `nil` received, a tick, the quit
signal): while the worker has not returned its batch holds fewer than `B` events; every
batch handed to `processBatch` is non-empty and has at most `B` events; a tick with an empty
batch hands over nothing and changes nothing; the quit signal hands over the remaining batch,
if it is not empty, and the worker returns; and the batches handed over, one after the
other, followed by the current batch of a worker that has not returned, are the non-nil
events the worker received, in order. -/
theorem worker_batches (B : Int) (hB : 1 ≤ B) (id : Int) (taken : List SelectCase) :
    ((worker.run B { id := id, batch := [], exited := false } taken).1.exited = false →
      ((worker.run B { id := id, batch := [], exited := false } taken).1.batch.length : Int)
        < B) ∧
    (∀ b ∈ (worker.run B { id := id, batch := [], exited := false } taken).2,
      b ≠ [] ∧ (b.length : Int) ≤ B) ∧
    ((worker.run B { id := id, batch := [], exited := false } taken).2.flatten ++
        (if (worker.run B { id := id, batch := [], exited := false } taken).1.exited then []
         else (worker.run B { id := id, batch := [], exited := false } taken).1.batch) =
      received taken) ∧
    ((worker.run B { id := id, batch := [], exited := false } taken).1.exited = true ↔
      SelectCase.quit ∈ taken) ∧
    (∀ ws : WorkerState, ws.batch = [] → worker.iterate B ws SelectCase.tick = (ws, none)) ∧
    (∀ ws : WorkerState, worker.iterate B ws SelectCase.quit =
      ({ ws with exited := true }, if ws.batch ≠ [] then some ws.batch else none)) ∧
    (∀ (ws : WorkerState) (rest : List SelectCase), ws.exited = true →
      worker.run B ws rest = (ws, [])) := by
  obtain ⟨h1, h2, h3, h4, _⟩ := worker_run_invariant B hB taken
    { id := id, batch := [], exited := false } rfl (by simp; omega)
  refine ⟨h1, h2, by simpa using h3, h4, ?_, ?_, ?_⟩
  · intro ws hb
    simp [worker.iterate, hb]
  · intro ws
    rcases hb : ws.batch with _ | ⟨x, tl⟩
    · simp [worker.iterate, hb]
    · simp [worker.iterate, hb]
  · intro ws rest hex
    cases rest with
    | nil => rfl
    | cons c rest2 => rw [worker.run, if_pos hex]

set_option maxRecDepth 100000 in
/-- The statement of C13 (amended) in its three cases: the sample pipeline, whose queue of
capacity 2 holds one event, appends the event; the sample pipeline with a full queue drops
it with a warning; the pipeline of capacity 0 hands it to its waiting worker. -/
theorem Enqueue_bounded_queue_witness :
    samplePipeline.Enqueue sampleStorage (some (sampleEvent "xyz789")) none =
      some { samplePipeline with
        eventChannel :=
          { buf := [some (sampleEvent "abc123"), some (sampleEvent "xyz789")], cap := 2,
            closed := false } } ∧
    fullPipeline.Enqueue sampleStorage (some (sampleEvent "xyz789")) none =
      some { fullPipeline with log := [LogLine.queueFull (GoString.ofString "xyz789")] } ∧
    (∃ w1, fullPipeline.Enqueue sampleStorage (some (sampleEvent "xyz789")) none = some w1 ∧
      w1.eventChannel.cap = 2 ∧ w1.GetQueueSize ≤ 2 ∧
      (fullPipeline.GetQueueSize = 2 →
        w1.GetQueueSize = 2 ∧ w1.eventChannel = fullPipeline.eventChannel)) ∧
    unbufferedPipeline.Enqueue sampleStorage (some (sampleEvent "xyz789")) (some 0) =
      some { unbufferedPipeline with
        workers := [{ id := 0, batch := [sampleEvent "xyz789"], exited := false }] } :=
  ⟨((Enqueue_bounded_queue sampleStorage samplePipeline (sampleEvent "xyz789") none
      (by decide)).2.1 (fun _ h => by cases h)).1 (by decide),
    ((Enqueue_bounded_queue sampleStorage fullPipeline (sampleEvent "xyz789") none
      (by decide)).2.1 (fun _ h => by cases h)).2 (by decide),
    (Enqueue_bounded_queue sampleStorage fullPipeline (sampleEvent "xyz789") none
      (by decide)).2.2.1 (by decide),
    ((Enqueue_bounded_queue sampleStorage unbufferedPipeline (sampleEvent "xyz789") (some 0)
      (by decide)).1 0 { id := 0, batch := [], exited := false } rfl (by decide)).2.1.trans
      (by decide)⟩

/-- The statement of C18 for batch size 2 and the sample cases. -/
theorem worker_batches_witness :
    ((worker.run 2 { id := 0, batch := [], exited := false } sampleCases).1.exited = false →
      ((worker.run 2 { id := 0, batch := [], exited := false } sampleCases).1.batch.length : Int)
        < 2) ∧
    (∀ b ∈ (worker.run 2 { id := 0, batch := [], exited := false } sampleCases).2,
      b ≠ [] ∧ (b.length : Int) ≤ 2) ∧
    ((worker.run 2 { id := 0, batch := [], exited := false } sampleCases).2.flatten ++
        (if (worker.run 2 { id := 0, batch := [], exited := false } sampleCases).1.exited then []
         else (worker.run 2 { id := 0, batch := [], exited := false } sampleCases).1.batch) =
      received sampleCases) ∧
    ((worker.run 2 { id := 0, batch := [], exited := false } sampleCases).1.exited = true ↔
      SelectCase.quit ∈ sampleCases) ∧
    (∀ ws : WorkerState, ws.batch = [] → worker.iterate 2 ws SelectCase.tick = (ws, none)) ∧
    (∀ ws : WorkerState, worker.iterate 2 ws SelectCase.quit =
      ({ ws with exited := true }, if ws.batch ≠ [] then some ws.batch else none)) ∧
    (∀ (ws : WorkerState) (rest : List SelectCase), ws.exited = true →
      worker.run 2 ws rest = (ws, [])) :=
  worker_batches 2 (by decide) 0 sampleCases

/-! ### Enqueue after Stop -/

/-- A send on a closed queue fails. -/
theorem Enqueue_closed (st : Storage) (w : ClickAnalyticsWorker) (event : Option ClickEvent)
    (receiver : Option Nat) (hclosed : w.eventChannel.closed = true) :
    w.Enqueue st event receiver = none := by
  simp only [ClickAnalyticsWorker.Enqueue, hclosed, if_true]

/-- No step of the system reopens a closed queue or a closed quit signal. -/
theorem step_closed (st : Storage) (w w1 : ClickAnalyticsWorker) (s : Step)
    (h : w.step st s = some w1) :
    (w.eventChannel.closed = true → w1.eventChannel.closed = true) ∧
    (w.quit.closed = true → w1.quit.closed = true) := by
  cases s with
  | Enqueue event receiver =>
    simp only [ClickAnalyticsWorker.step] at h
    obtain ⟨hopen, hq, _, _⟩ := Enqueue_frame st w w1 event receiver h
    refine ⟨fun hc => ?_, fun hc => ?_⟩
    · rw [hopen] at hc
      exact absurd hc (by simp)
    · rw [hq]
      exact hc
  | receive i =>
    simp only [ClickAnalyticsWorker.step] at h
    rcases hws : w.workers[i]? with _ | ws
    · rw [hws] at h
      exact absurd h (by simp)
    · rw [hws] at h
      simp only at h
      by_cases hex : ws.exited = true
      · rw [if_pos hex] at h
        exact absurd h (by simp)
      · rw [if_neg hex] at h
        rcases hbuf : w.eventChannel.buf with _ | ⟨event, rest⟩
        · rw [hbuf] at h
          simp only at h
          by_cases hc : w.eventChannel.closed = true
          · rw [if_pos hc] at h
            simp only [Option.some.injEq] at h
            subst h
            obtain ⟨h1, h2, _⟩ := iterateWorker_eventChannel st w i ws (SelectCase.event none)
            rw [h1, h2]
            exact ⟨id, id⟩
          · rw [if_neg hc] at h
            exact absurd h (by simp)
        · rw [hbuf] at h
          simp only [Option.some.injEq] at h
          subst h
          obtain ⟨h1, h2, _⟩ := iterateWorker_eventChannel st
            { w with eventChannel := { w.eventChannel with buf := rest } } i ws
            (SelectCase.event event)
          rw [h1, h2]
          exact ⟨id, id⟩
  | tick i =>
    simp only [ClickAnalyticsWorker.step] at h
    rcases hws : w.workers[i]? with _ | ws
    · rw [hws] at h
      exact absurd h (by simp)
    · rw [hws] at h
      simp only at h
      by_cases hex : ws.exited = true
      · rw [if_pos hex] at h
        exact absurd h (by simp)
      · rw [if_neg hex] at h
        simp only [Option.some.injEq] at h
        subst h
        obtain ⟨h1, h2, _⟩ := iterateWorker_eventChannel st w i ws SelectCase.tick
        rw [h1, h2]
        exact ⟨id, id⟩
  | quit i =>
    simp only [ClickAnalyticsWorker.step] at h
    rcases hws : w.workers[i]? with _ | ws
    · rw [hws] at h
      exact absurd h (by simp)
    · rw [hws] at h
      simp only at h
      by_cases hex : (ws.exited || !w.quit.closed) = true
      · rw [if_pos hex] at h
        exact absurd h (by simp)
      · rw [if_neg hex] at h
        simp only [Option.some.injEq] at h
        subst h
        obtain ⟨h1, h2, _⟩ := iterateWorker_eventChannel st w i ws SelectCase.quit
        rw [h1, h2]
        exact ⟨id, id⟩

theorem exec_closed (st : Storage) (steps : List Step) :
    ∀ (w w1 : ClickAnalyticsWorker), w.exec st steps = some w1 →
      (w.eventChannel.closed = true → w1.eventChannel.closed = true) ∧
      (w.quit.closed = true → w1.quit.closed = true) := by
  induction steps with
  | nil =>
    intro w w1 h
    simp only [ClickAnalyticsWorker.exec, Option.some.injEq] at h
    subst h
    exact ⟨id, id⟩
  | cons s rest ih =>
    intro w w1 h
    rw [ClickAnalyticsWorker.exec] at h
    rcases hs : w.step st s with _ | w2
    · rw [hs] at h
      exact absurd h (by simp)
    · rw [hs] at h
      obtain ⟨a1, a2⟩ := step_closed st w w2 s hs
      obtain ⟨b1, b2⟩ := ih w2 w1 h
      exact ⟨fun hc => b1 (a1 hc), fun hc => b2 (a2 hc)⟩

/-- A `Stop()` that returns: either the running flag was clear and nothing changed, or both
the quit signal and the queue are closed and the flag is clear afterwards. -/
theorem Stop_some (st : Storage) (w w1 : ClickAnalyticsWorker) (schedule : List Step)
    (h : w.Stop st schedule = some w1) :
    (w.isRunning = false ∧ w1 = w) ∨
    (w.isRunning = true ∧ w1.eventChannel.closed = true ∧ w1.quit.closed = true ∧
      w1.isRunning = false) := by
  unfold ClickAnalyticsWorker.Stop at h
  by_cases hr : w.isRunning = true
  · right
    have hr2 : ¬ ((!w.isRunning) = true) := by simp [hr]
    rw [if_neg hr2] at h
    by_cases hq : w.quit.closed = true
    · rw [if_pos hq] at h
      exact absurd h (by simp)
    · rw [if_neg hq] at h
      rcases he : ClickAnalyticsWorker.exec st
          { w with quit := { w.quit with closed := true } } schedule with _ | w2
      · rw [he] at h
        exact absurd h (by simp)
      · rw [he] at h
        simp only at h
        by_cases hall : (w2.workers.all fun ws => ws.exited) = true
        · rw [if_pos hall] at h
          by_cases hc : w2.eventChannel.closed = true
          · rw [if_pos hc] at h
            exact absurd h (by simp)
          · rw [if_neg hc] at h
            simp only [Option.some.injEq] at h
            subst h
            exact ⟨hr, rfl, (exec_closed st schedule _ w2 he).2 rfl, rfl⟩
        · rw [if_neg hall] at h
          exact absurd h (by simp)
  · left
    have hr2 : w.isRunning = false := by simpa using hr
    have hr3 : (!w.isRunning) = true := by simp [hr2]
    rw [if_pos hr3] at h
    simp only [Option.some.injEq] at h
    exact ⟨hr2, h.symm⟩

/-- No call and no step reopens a closed queue. -/
theorem applyAll_closed (st : Storage) (ops : List Op) :
    ∀ (w w1 : ClickAnalyticsWorker), w.applyAll st ops = some w1 →
      w.eventChannel.closed = true → w1.eventChannel.closed = true := by
  induction ops with
  | nil =>
    intro w w1 h hc
    simp only [ClickAnalyticsWorker.applyAll, Option.some.injEq] at h
    subst h
    exact hc
  | cons op rest ih =>
    intro w w1 h hc
    rw [ClickAnalyticsWorker.applyAll] at h
    rcases ha : w.apply st op with _ | w2
    · rw [ha] at h
      exact absurd h (by simp)
    · rw [ha] at h
      refine ih w2 w1 h ?_
      cases op with
      | Start =>
        simp only [ClickAnalyticsWorker.apply, Option.some.injEq] at ha
        subst ha
        unfold ClickAnalyticsWorker.Start
        split
        · exact hc
        · exact hc
      | Stop schedule =>
        simp only [ClickAnalyticsWorker.apply] at ha
        rcases Stop_some st w w2 schedule ha with ⟨_, rfl⟩ | ⟨_, h2, _, _⟩
        · exact hc
        · exact h2
      | step s =>
        simp only [ClickAnalyticsWorker.apply] at ha
        exact (step_closed st w w2 s ha).1 hc

/-- Claim C21: after a `Stop()` on a running pipeline has returned, the queue and the quit
signal are closed and the running flag is clear; `Enqueue(event)` then fails for every event
(the send on the closed queue panics: the event is neither appended, nor handed to a worker,
nor dropped with a log line), and it still fails after any later calls of `Start()` and
`Stop()` and any later steps of the system, since nothing reopens the queue. -/
theorem Enqueue_after_Stop_fails (st : Storage) (w w1 : ClickAnalyticsWorker)
    (schedule : List Step) (hrun : w.isRunning = true)
    (hstop : w.Stop st schedule = some w1) :
    w1.eventChannel.closed = true ∧ w1.quit.closed = true ∧ w1.isRunning = false ∧
    (∀ (st1 : Storage) event receiver, w1.Enqueue st1 event receiver = none) ∧
    (∀ (ops : List Op) (w2 : ClickAnalyticsWorker), w1.applyAll st ops = some w2 →
      w2.eventChannel.closed = true ∧
      ∀ (st1 : Storage) event receiver, w2.Enqueue st1 event receiver = none ∧
        w2.step st1 (Step.Enqueue event receiver) = none) := by
  rcases Stop_some st w w1 schedule hstop with ⟨h0, _⟩ | ⟨_, h1, h2, h3⟩
  · rw [hrun] at h0
    exact absurd h0 (by simp)
  · refine ⟨h1, h2, h3, fun st1 event receiver => Enqueue_closed st1 w1 event receiver h1,
      fun ops w2 h => ?_⟩
    have hc := applyAll_closed st ops w1 w2 h h1
    exact ⟨hc, fun st1 event receiver =>
      ⟨Enqueue_closed st1 w2 event receiver hc, Enqueue_closed st1 w2 event receiver hc⟩⟩

set_option maxRecDepth 100000 in
/-- The statement of C21 for the sample pipeline, stopped while its worker receives the
queued event and then takes the quit signal, and started again afterwards (the new worker
is worker 1). -/
theorem Enqueue_after_Stop_fails_witness :
    samplePipeline.isRunning = true ∧
    ∃ w1 w2, samplePipeline.Stop sampleStorage [Step.receive 0, Step.quit 0] = some w1 ∧
      w1.saved = [sampleEvent "abc123"] ∧ w1.GetQueueSize = 0 ∧
      w1.applyAll sampleStorage [Op.Start, Op.step (Step.tick 1)] = some w2 ∧
      w2.isRunning = true ∧
      w1.Enqueue sampleStorage (some (sampleEvent "xyz789")) none = none ∧
      w2.Enqueue sampleStorage (some (sampleEvent "xyz789")) (some 1) = none :=
  ⟨rfl, _, _, rfl, by decide, by decide, rfl, by decide,
    (Enqueue_after_Stop_fails sampleStorage samplePipeline _ [Step.receive 0, Step.quit 0] rfl
      rfl).2.2.2.1 _ _ _,
    (((Enqueue_after_Stop_fails sampleStorage samplePipeline _ [Step.receive 0, Step.quit 0] rfl
      rfl).2.2.2.2 [Op.Start, Op.step (Step.tick 1)] _ rfl).2 _ _ _).1⟩

end Workers
